import Mathlib

/-!
# Backup orchestration and retention pipeline

A shallow embedding of `server/backup/backupManager.js` and
`server/backup/googleDriveConfig.js`: artifact naming, the local and remote
retention passes, the `createBackup` pipeline, and the cron task bookkeeping
of `BackupManager`.

JavaScript strings are lists of characters, `Date` values are integer
milliseconds since the epoch, and the backup directory is a list of entries
(name and birth time). The order of that list carries no meaning: `fs.readdir`
lists the entries in an order of its own.
-/

namespace Backup

/-! ## `Date.prototype.toISOString` -/

/-- Milliseconds in a day. -/
def msPerDay : Int := 86400000

/-- Largest absolute time value a `Date` can hold (8.64e15 ms). -/
def maxTime : Int := 8640000000000000

/-- The time value is one a `Date` object can hold. -/
def ValidTime (t : Int) : Prop := -maxTime ≤ t ∧ t ≤ maxTime

instance (t : Int) : Decidable (ValidTime t) := by
  unfold ValidTime; infer_instance

/-- Day number of a time value (floor division). -/
def Day (t : Int) : Int := t / msPerDay

/-- Milliseconds elapsed within the day of a time value. -/
def TimeWithinDay (t : Int) : Int := t % msPerDay

/-- Calendar fields of a day number in the proleptic Gregorian calendar:
year, month (1..12), day of month (1..31). -/
def civilFromDays (days : Int) : Int × Int × Int :=
  let z := days + 719468
  let era := z / 146097
  let doe := z % 146097
  let yoe := (doe - doe / 1460 + doe / 36524 - doe / 146096) / 365
  let doy := doe - (365 * yoe + yoe / 4 - yoe / 100)
  let mp := (5 * doy + 2) / 153
  let d := doy - (153 * mp + 2) / 5 + 1
  let m := if mp < 10 then mp + 3 else mp - 9
  let y := yoe + era * 400
  (if m ≤ 2 then y + 1 else y, m, d)

/-- Day number of a calendar date, the inverse of `civilFromDays`. -/
def daysFromCivil (y m d : Int) : Int :=
  let y1 := if m ≤ 2 then y - 1 else y
  let era := y1 / 400
  let yoe := y1 % 400
  let doy := (153 * (if m > 2 then m - 3 else m + 9) + 2) / 5 + d - 1
  let doe := yoe * 365 + yoe / 4 - yoe / 100 + doy
  era * 146097 + doe - 719468

/-- Year of a time value. -/
def YearFromTime (t : Int) : Int := (civilFromDays (Day t)).1

/-- Month of a time value, 1..12. -/
def MonthFromTime (t : Int) : Int := (civilFromDays (Day t)).2.1

/-- Day of the month of a time value, 1..31. -/
def DateFromTime (t : Int) : Int := (civilFromDays (Day t)).2.2

/-- Hour of the day, 0..23. -/
def HourFromTime (t : Int) : Int := TimeWithinDay t / 3600000

/-- Minute of the hour, 0..59. -/
def MinFromTime (t : Int) : Int := TimeWithinDay t / 60000 % 60

/-- Second of the minute, 0..59. -/
def SecFromTime (t : Int) : Int := TimeWithinDay t / 1000 % 60

/-- Millisecond of the second, 0..999. -/
def msFromTime (t : Int) : Int := TimeWithinDay t % 1000

/-- Decimal digit character of a number below ten. -/
def digitChar (n : Nat) : Char :=
  match n with
  | 0 => '0' | 1 => '1' | 2 => '2' | 3 => '3' | 4 => '4'
  | 5 => '5' | 6 => '6' | 7 => '7' | 8 => '8' | _ => '9'

/-- Two-digit zero-padded decimal. -/
def pad2 (n : Nat) : List Char := [digitChar (n / 10 % 10), digitChar (n % 10)]

/-- Three-digit zero-padded decimal. -/
def pad3 (n : Nat) : List Char :=
  [digitChar (n / 100 % 10), digitChar (n / 10 % 10), digitChar (n % 10)]

/-- Four-digit zero-padded decimal. -/
def pad4 (n : Nat) : List Char :=
  [digitChar (n / 1000 % 10), digitChar (n / 100 % 10), digitChar (n / 10 % 10),
    digitChar (n % 10)]

/-- Six-digit zero-padded decimal. -/
def pad6 (n : Nat) : List Char :=
  [digitChar (n / 100000 % 10), digitChar (n / 10000 % 10), digitChar (n / 1000 % 10),
    digitChar (n / 100 % 10), digitChar (n / 10 % 10), digitChar (n % 10)]

/-- Year field of the ISO format: four digits for years 0..9999, otherwise a
sign and six digits. -/
def isoYear (y : Int) : List Char :=
  if 0 ≤ y ∧ y ≤ 9999 then pad4 y.toNat
  else if y < 0 then '-' :: pad6 (-y).toNat
  else '+' :: pad6 y.toNat

/-- The string `new Date(t).toISOString()`: `YYYY-MM-DDTHH:mm:ss.sssZ`. -/
def toISOString (t : Int) : List Char :=
  isoYear (YearFromTime t) ++ '-' :: pad2 (MonthFromTime t).toNat ++ '-' ::
    pad2 (DateFromTime t).toNat ++ 'T' :: pad2 (HourFromTime t).toNat ++ ':' ::
    pad2 (MinFromTime t).toNat ++ ':' :: pad2 (SecFromTime t).toNat ++ '.' ::
    pad3 (msFromTime t).toNat ++ ['Z']

/-- The replacement `.replace(/[:.]/g, '-')` acting on one character. -/
def replaceColonDot (c : Char) : Char := if c = ':' ∨ c = '.' then '-' else c

/-- The prefix `inventory_backup_` of every artifact name. -/
def backupPrefix : List Char :=
  ['i', 'n', 'v', 'e', 'n', 't', 'o', 'r', 'y', '_', 'b', 'a', 'c', 'k', 'u', 'p', '_']

/-- The suffix `.zip` of a compressed artifact. -/
def zipSuffix : List Char := ['.', 'z', 'i', 'p']

/-- The `timestamp` of `createBackup` for a run started at time value `t`. -/
def timestamp (t : Int) : List Char := (toISOString t).map replaceColonDot

/-- The `backupName` of `createBackup` for a run started at time value `t`. -/
def backupName (t : Int) : List Char := backupPrefix ++ timestamp t

/-! ## The local backup directory -/

/-- An entry of the backup directory: its name and the birth time that
`fs.stat` reports for it. -/
structure DirEntry where
  name : List Char
  birthtime : Int
deriving DecidableEq, Repr

/-- The call `file.endsWith(suffix)`. -/
def endsWith (file suffix : List Char) : Bool := suffix.isSuffixOf file

/-- The call `file.includes(pattern)`. -/
def includes : List Char → List Char → Bool
  | [], pattern => pattern.isPrefixOf []
  | c :: cs, pattern => pattern.isPrefixOf (c :: cs) || includes cs pattern

/-- The filter of `cleanupLocalBackups`:
`file.endsWith('.zip') || file.includes('inventory_backup_')`. -/
def isBackupFile (file : List Char) : Bool :=
  endsWith file zipSuffix || includes file backupPrefix

/-- The call `path.join(dir, name)`. -/
def pathJoin (dir name : List Char) : List Char := dir ++ '/' :: name

/-- Creating `name` in the directory (`fs.ensureDir`, `fs.createWriteStream`):
an existing entry keeps its birth time, a new one is added with birth time
`created`. Where the new entry stands in the list says nothing about where
`readdir` lists it. -/
def ensureEntry (dir : List DirEntry) (name : List Char) (created : Int) : List DirEntry :=
  if name ∈ dir.map DirEntry.name then dir else dir ++ [⟨name, created⟩]

/-- The call `fs.remove` on an entry of the directory. -/
def remove (dir : List DirEntry) (name : List Char) : List DirEntry :=
  dir.filter (fun e => e.name ≠ name)

/-- The call `fs.readdir(this.backupDir)`: the entries of the directory in an order of
the file system's choosing, given here by the rank `order` of a name. Every
listing of a directory with distinct names arises from a suitable rank. -/
def readdir (order : List Char → Nat) (dir : List DirEntry) : List DirEntry :=
  dir.insertionSort (fun a b => order a.name ≤ order b.name)

/-- The `backupFiles` of `cleanupLocalBackups`: the entries whose name passes
the filter, in `readdir` order. -/
def backupFiles (dir : List DirEntry) : List DirEntry :=
  dir.filter (fun e => isBackupFile e.name)

/-- The `sortedFiles` of `cleanupLocalBackups` after
`sort((a, b) => a.created - b.created)`, a stable ascending sort. -/
def sortedFiles (dir : List DirEntry) : List DirEntry :=
  (backupFiles dir).insertionSort (fun a b => a.birthtime ≤ b.birthtime)

/-- The `filesToDelete` of `cleanupLocalBackups`; empty when the count does
not exceed `keepLocalCopies`. -/
def filesToDelete (keepLocalCopies : Nat) (dir : List DirEntry) : List DirEntry :=
  if (backupFiles dir).length > keepLocalCopies then
    (sortedFiles dir).take ((backupFiles dir).length - keepLocalCopies)
  else []

/-- The directory after `cleanupLocalBackups`: every file to delete is removed
in turn. -/
def cleanupLocalBackups (keepLocalCopies : Nat) (dir : List DirEntry) : List DirEntry :=
  (filesToDelete keepLocalCopies dir).foldl (fun d file => remove d file.name) dir

/-! ## The remote folder -/

/-- A file of the Drive folder with the fields the listing requests. -/
structure DriveFile where
  id : Nat
  name : List Char
  size : Nat
  createdTime : Int
deriving DecidableEq, Repr

/-- The response of `drive.files.list` with `orderBy: 'createdTime desc'`:
the folder's files, newest first, cut at the page size. -/
def filesList (folder : List DriveFile) (pageSize : Nat) : List DriveFile :=
  (folder.insertionSort (fun a b => a.createdTime ≥ b.createdTime)).take pageSize

/-- The method `listBackupFiles`: the listing, or `[]` when the Drive client is not
initialised (the error is caught). -/
def listBackupFiles (drive : Bool) (folder : List DriveFile) (pageSize : Nat) :
    List DriveFile :=
  if drive then filesList folder pageSize else []

/-- The `filesToDelete` of `cleanupOldBackups`: `files.slice(keepCount)` when
the listing is longer than `keepCount`. -/
def remoteFilesToDelete (drive : Bool) (folder : List DriveFile) (pageSize keepCount : Nat) :
    List DriveFile :=
  if drive then
    let files := listBackupFiles drive folder pageSize
    if files.length > keepCount then files.drop keepCount else []
  else []

/-- The call `drive.files.delete` on a file id. -/
def filesDelete (folder : List DriveFile) (fileId : Nat) : List DriveFile :=
  folder.filter (fun f => f.id ≠ fileId)

/-- The folder after `cleanupOldBackups(folderId, keepCount)`. -/
def cleanupOldBackups (drive : Bool) (folder : List DriveFile) (pageSize keepCount : Nat) :
    List DriveFile :=
  (remoteFilesToDelete drive folder pageSize keepCount).foldl
    (fun f file => filesDelete f file.id) folder

/-! ## The backup pipeline -/

/-- The `backupConfig` of `BackupManager`. -/
structure BackupConfig where
  enabled : Bool
  schedule : List Char
  keepLocalCopies : Nat
  keepCloudCopies : Nat
  folderName : List Char
  compressBackups : Bool
deriving DecidableEq, Repr

/-- The schedule `0 2 * * *`. -/
def dailyAtTwo : List Char := ['0', ' ', '2', ' ', '*', ' ', '*', ' ', '*']

/-- The folder name `Inventory_Backups`. -/
def defaultFolderName : List Char :=
  ['I', 'n', 'v', 'e', 'n', 't', 'o', 'r', 'y', '_', 'B', 'a', 'c', 'k', 'u', 'p', 's']

/-- The configuration set by the constructor. -/
def defaultConfig : BackupConfig :=
  { enabled := false, schedule := dailyAtTwo, keepLocalCopies := 5, keepCloudCopies := 10,
    folderName := defaultFolderName, compressBackups := true }

/-- What the Drive client answers during one `uploadToGoogleDrive`. -/
structure CloudEnv where
  /-- The `oauth2Client` of `GoogleDriveConfig` is set. -/
  oauth2Client : Bool
  /-- The `drive` of `GoogleDriveConfig` is set. -/
  drive : Bool
  /-- The id of the first folder named `folderName` in the account, if there is one. -/
  folderId : Option Nat
  /-- An error with which the `files.list` call of `findBackupFolder` rejects. -/
  lookupError : Option String
  /-- The outcome of the `files.create` call of `createBackupFolder`. -/
  createFolder : Except String Nat
  /-- The outcome of the `files.create` call of `uploadFile`. -/
  uploadFile : Except String DriveFile
  /-- The files of the backup folder before the upload. -/
  folder : List DriveFile
  /-- The page size of `files.list`. -/
  pageSize : Nat

/-- The method `isAuthenticated`: `this.oauth2Client && this.drive`. -/
def CloudEnv.isAuthenticated (c : CloudEnv) : Bool := c.oauth2Client && c.drive

/-- The method `findBackupFolder`: an uninitialised client and a failed listing both
throw inside the `try`, and the `catch` returns `null`. -/
def findBackupFolder (c : CloudEnv) : Option Nat :=
  if c.drive then
    match c.lookupError with
    | some _ => none
    | none => c.folderId
  else none

/-- The method `createBackupFolder`; rethrows. -/
def createBackupFolder (c : CloudEnv) : Except String Nat :=
  if c.drive then c.createFolder else .error "Google Drive not initialized"

/-- The method `uploadFile`; rethrows. -/
def uploadFile (c : CloudEnv) : Except String DriveFile :=
  if c.drive then c.uploadFile else .error "Google Drive not initialized"

/-- The method `uploadToGoogleDrive`: on success the uploaded file and the folder
after the remote retention pass; any error is rethrown. -/
def uploadToGoogleDrive (cfg : BackupConfig) (c : CloudEnv) :
    Except String (DriveFile × List DriveFile) :=
  match findBackupFolder c with
  | some _ =>
    match uploadFile c with
    | .error e => .error e
    | .ok uploaded =>
      .ok (uploaded,
        cleanupOldBackups c.drive (c.folder ++ [uploaded]) c.pageSize cfg.keepCloudCopies)
  | none =>
    match createBackupFolder c with
    | .error e => .error e
    | .ok _ =>
      match uploadFile c with
      | .error e => .error e
      | .ok uploaded =>
        .ok (uploaded, cleanupOldBackups c.drive [uploaded] c.pageSize cfg.keepCloudCopies)

/-- What the file system and the clock answer during one `createBackup`. -/
structure RunEnv where
  /-- The answer of `fs.pathExists(this.dbPath)`. -/
  dbExists : Bool
  /-- The time value of `new Date()` when the name is computed. -/
  now : Int
  /-- The birth time the file system gives to what this run creates. -/
  created : Int
  /-- An error thrown while the database is copied and the metadata written. -/
  snapshotError : Option String
  /-- An error with which `compressDirectory` rejects. -/
  compressError : Option String
  /-- The write stream of a failed `compressDirectory` had already created the
  archive file. -/
  partialArchive : Bool
  /-- The rank by which `fs.readdir` orders the backup directory in this run. -/
  readdirOrder : List Char → Nat

/-- The value `createBackup` resolves to. -/
inductive BackupResult where
  | success (backupPath backupName : List Char)
  | failure (error : String)
deriving DecidableEq, Repr

/-- The state a `createBackup` run leaves behind, with its return value. -/
structure BackupRun where
  result : BackupResult
  /-- The backup directory after the run. -/
  dir : List DirEntry
  /-- The outcome of the cloud leg; `none` when it was skipped. -/
  cloud : Option (Except String (DriveFile × List DriveFile))
  /-- The run reached `cleanupLocalBackups`. -/
  cleanedUp : Bool

/-- The `finalBackupName` of `createBackup`. -/
def finalBackupName (cfg : BackupConfig) (now : Int) : List Char :=
  if cfg.compressBackups then backupName now ++ zipSuffix else backupName now

/-- The backup directory when `createBackup` logs `Local backup created`: the
snapshot directory was created and, with compression, replaced by the archive. -/
def localBackupCreated (cfg : BackupConfig) (env : RunEnv) (dir : List DirEntry) :
    List DirEntry :=
  let dir1 := ensureEntry dir (backupName env.now) env.created
  if cfg.compressBackups then
    remove (ensureEntry dir1 (backupName env.now ++ zipSuffix) env.created) (backupName env.now)
  else dir1

/-- The method `createBackup`. -/
def createBackup (cfg : BackupConfig) (backupDir : List Char) (env : RunEnv) (c : CloudEnv)
    (dir : List DirEntry) : BackupRun :=
  if !env.dbExists then
    { result := .failure "Database file not found", dir := dir, cloud := none,
      cleanedUp := false }
  else
    let dir1 := ensureEntry dir (backupName env.now) env.created
    match env.snapshotError with
    | some e => { result := .failure e, dir := dir1, cloud := none, cleanedUp := false }
    | none =>
      match (if cfg.compressBackups then env.compressError else none) with
      | some e =>
        { result := .failure e,
          dir := if env.partialArchive then
              ensureEntry dir1 (backupName env.now ++ zipSuffix) env.created
            else dir1,
          cloud := none, cleanedUp := false }
      | none =>
        let dir2 := localBackupCreated cfg env dir
        let cloud :=
          if cfg.enabled && c.isAuthenticated then some (uploadToGoogleDrive cfg c) else none
        { result := .success (pathJoin backupDir (finalBackupName cfg env.now))
            (finalBackupName cfg env.now),
          dir := cleanupLocalBackups cfg.keepLocalCopies (readdir env.readdirOrder dir2),
          cloud := cloud,
          cleanedUp := true }

/-- The method `manualBackup`. -/
def manualBackup (cfg : BackupConfig) (backupDir : List Char) (env : RunEnv) (c : CloudEnv)
    (dir : List DirEntry) : BackupRun :=
  createBackup cfg backupDir env c dir

/-- The backup directory after a sequence of `createBackup` runs. -/
def runBackups (cfg : BackupConfig) (backupDir : List Char) :
    List (RunEnv × CloudEnv) → List DirEntry → List DirEntry
  | [], dir => dir
  | (env, c) :: rest, dir => runBackups cfg backupDir rest (createBackup cfg backupDir env c dir).dir

/-! ## Scheduling -/

/-- A partial configuration: the `newConfig` of `updateConfig` and the content
of `backupConfig.json`. -/
structure ConfigPatch where
  enabled : Option Bool
  schedule : Option (List Char)
  keepLocalCopies : Option Nat
  keepCloudCopies : Option Nat
  folderName : Option (List Char)
  compressBackups : Option Bool
deriving DecidableEq, Repr

/-- The patch with no key. -/
def ConfigPatch.empty : ConfigPatch :=
  { enabled := none, schedule := none, keepLocalCopies := none, keepCloudCopies := none,
    folderName := none, compressBackups := none }

/-- The object spread `{ ...config, ...patch }`. -/
def merge (config : BackupConfig) (patch : ConfigPatch) : BackupConfig :=
  { enabled := patch.enabled.getD config.enabled,
    schedule := patch.schedule.getD config.schedule,
    keepLocalCopies := patch.keepLocalCopies.getD config.keepLocalCopies,
    keepCloudCopies := patch.keepCloudCopies.getD config.keepCloudCopies,
    folderName := patch.folderName.getD config.folderName,
    compressBackups := patch.compressBackups.getD config.compressBackups }

/-- The JSON object `writeJson` stores for a configuration. -/
def BackupConfig.toPatch (config : BackupConfig) : ConfigPatch :=
  { enabled := some config.enabled, schedule := some config.schedule,
    keepLocalCopies := some config.keepLocalCopies,
    keepCloudCopies := some config.keepCloudCopies,
    folderName := some config.folderName,
    compressBackups := some config.compressBackups }

/-- A task returned by `cron.schedule`. -/
structure CronTask where
  expression : List Char
  running : Bool
deriving DecidableEq, Repr

/-- A `BackupManager` together with every cron task it has created (in order
of creation) and the configuration file. -/
structure Manager where
  isInitialized : Bool
  /-- The `backupSchedule` field: `null` or the position of a created task. -/
  backupSchedule : Option Nat
  backupConfig : BackupConfig
  tasks : List CronTask
  /-- The content of `backupConfig.json`, if the file exists. -/
  configFile : Option ConfigPatch
deriving DecidableEq, Repr

/-- The manager the constructor builds, next to a configuration file left by
an earlier process. -/
def Manager.fresh (configFile : Option ConfigPatch) : Manager :=
  { isInitialized := false, backupSchedule := none, backupConfig := defaultConfig, tasks := [],
    configFile := configFile }

/-- The call `task.stop()` on the task at a position. -/
def stopTask (tasks : List CronTask) (i : Nat) : List CronTask :=
  tasks.modify (fun t => { t with running := false }) i

/-- The guard `if (this.backupSchedule) this.backupSchedule.stop()`. -/
def stopSchedule (m : Manager) : Manager :=
  match m.backupSchedule with
  | some i => { m with tasks := stopTask m.tasks i }
  | none => m

/-- The method `saveConfig`. -/
def saveConfig (m : Manager) : Manager :=
  { m with configFile := some m.backupConfig.toPatch }

/-- The method `loadConfig`. -/
def loadConfig (m : Manager) : Manager :=
  match m.configFile with
  | some patch => { m with backupConfig := merge m.backupConfig patch }
  | none => saveConfig m

/-- The method `startScheduledBackups`, for a `cron.schedule` that throws on the
expressions `valid` rejects. The second component is the error thrown, if any. -/
def startScheduledBackups (valid : List Char → Bool) (m : Manager) : Manager × Option String :=
  let m1 := stopSchedule m
  if m1.backupConfig.enabled && !m1.backupConfig.schedule.isEmpty then
    if valid m1.backupConfig.schedule then
      ({ m1 with
          backupSchedule := some m1.tasks.length,
          tasks := m1.tasks ++ [⟨m1.backupConfig.schedule, true⟩] }, none)
    else (m1, some "invalid cron expression")
  else (m1, none)

/-- The method `updateConfig`. The second component is the error thrown, if any. -/
def updateConfig (valid : List Char → Bool) (m : Manager) (newConfig : ConfigPatch) :
    Manager × Option String :=
  let m1 := saveConfig { m with backupConfig := merge m.backupConfig newConfig }
  let m2 := stopSchedule m1
  if m2.backupConfig.enabled then startScheduledBackups valid m2 else (m2, none)

/-- The method `initialize` of `BackupManager`, where `googleDriveInit` is what
`this.googleDrive.initialize()` resolves to. The second component is the
return value. -/
def initializeManager (valid : List Char → Bool) (m : Manager) (googleDriveInit : Bool) :
    Manager × Bool :=
  let m1 := loadConfig m
  if m1.backupConfig.enabled then
    if googleDriveInit then
      let m2 := { m1 with isInitialized := true }
      match startScheduledBackups valid m2 with
      | (m3, none) => (m3, true)
      | (m3, some _) => (m3, false)
    else ({ m1 with isInitialized := true }, true)
  else (m1, true)

/-- A call on the manager. -/
inductive Call where
  | init (googleDriveInit : Bool)
  | updateConfig (newConfig : ConfigPatch)
  | startScheduledBackups
deriving DecidableEq, Repr

/-- The manager after a call. -/
def Manager.call (valid : List Char → Bool) (m : Manager) : Call → Manager
  | .init g => (initializeManager valid m g).1
  | .updateConfig p => (updateConfig valid m p).1
  | .startScheduledBackups => (startScheduledBackups valid m).1

/-- The manager after a sequence of calls. -/
def Manager.calls (valid : List Char → Bool) (m : Manager) (calls : List Call) : Manager :=
  calls.foldl (Manager.call valid) m

/-- The positions of the tasks that are running. -/
def runningTasks (m : Manager) : List Nat :=
  (List.range m.tasks.length).filter (fun i => (m.tasks[i]?).any CronTask.running)

/-- Every running task is the one `backupSchedule` refers to. -/
def SingleTimer (m : Manager) : Prop :=
  ∀ i : Nat, (m.tasks[i]?).any CronTask.running = true → m.backupSchedule = some i

/-- No task is running. -/
def NoTimer (m : Manager) : Prop := ∀ i : Nat, (m.tasks[i]?).any CronTask.running = false

/-- Offset of local time from UTC, in milliseconds. -/
abbrev LocalTZA := Int

/-- Day number of the first day of the month, advanced by `date - 1` days. -/
def MakeDay (year month date : Int) : Int := daysFromCivil year month 1 + date - 1

/-- Milliseconds of a time of day. -/
def MakeTime (hour min sec ms : Int) : Int := hour * 3600000 + min * 60000 + sec * 1000 + ms

/-- Time value of a day number and a time within the day. -/
def MakeDate (day time : Int) : Int := day * msPerDay + time

/-- The call `d.setDate(date)` on local time value `t`. -/
def setDate (t date : Int) : Int :=
  MakeDate (MakeDay (YearFromTime t) (MonthFromTime t) date) (TimeWithinDay t)

/-- The call `d.setHours(hour, min, sec, ms)` on local time value `t`. -/
def setHours (t hour min sec ms : Int) : Int := MakeDate (Day t) (MakeTime hour min sec ms)

/-- The method `getNextBackupTime` at time value `now`: `null`, or the time value of
the `tomorrow` it returns. -/
def getNextBackupTime (m : Manager) (tza : LocalTZA) (now : Int) : Option Int :=
  if m.backupSchedule.isNone || !m.backupConfig.enabled then none
  else
    let local0 := now + tza
    let local1 := setDate local0 (DateFromTime local0 + 1)
    let local2 := setHours local1 2 0 0 0
    some (local2 - tza)

/-- The first 02:00 local time strictly after `now`, the next firing of the
schedule `0 2 * * *`. -/
def firstTwoAfter (tza : LocalTZA) (now : Int) : Int :=
  let local0 := now + tza
  if TimeWithinDay local0 < MakeTime 2 0 0 0 then MakeDate (Day local0) (MakeTime 2 0 0 0) - tza
  else MakeDate (Day local0 + 1) (MakeTime 2 0 0 0) - tza

/-! ## Executions in flight -/

/-- The points at which a `createBackup` execution is suspended on an `await`. -/
inductive Stage where
  | pathExists | ensureDir | copy | stat | writeJson | compressDirectory | removeSnapshot
  | uploadToGoogleDrive | cleanupLocalBackups
deriving DecidableEq, Repr

/-- The stage that follows the local backup: the upload when the policy is
enabled and Drive is authenticated, else the local retention pass. -/
def Stage.afterLocal (upload : Bool) : Stage :=
  if upload then .uploadToGoogleDrive else .cleanupLocalBackups

/-- The stage after an `await` resolves; `none` when the execution returns. -/
def Stage.next (compress upload : Bool) : Stage → Option Stage
  | .pathExists => some .ensureDir
  | .ensureDir => some .copy
  | .copy => some .stat
  | .stat => some .writeJson
  | .writeJson => some (if compress then .compressDirectory else Stage.afterLocal upload)
  | .compressDirectory => some .removeSnapshot
  | .removeSnapshot => some (Stage.afterLocal upload)
  | .uploadToGoogleDrive => some .cleanupLocalBackups
  | .cleanupLocalBackups => none

/-- The stage after an `await` rejects: a failed upload is caught and the run
goes on to the local retention pass, any other error ends the execution in
the outer `catch`. -/
def Stage.caught : Stage → Option Stage
  | .uploadToGoogleDrive => some .cleanupLocalBackups
  | _ => none

/-- What the event loop delivers to the manager. -/
inductive Event where
  /-- A request reaches `manualBackup`. -/
  | manualTrigger
  /-- The cron task fires its callback. -/
  | timerTick
  /-- The pending `await` of the execution at a position resolves. -/
  | resolve (i : Nat)
  /-- The pending `await` of the execution at a position rejects. -/
  | reject (i : Nat)
deriving DecidableEq, Repr

/-- The execution at a position moves to a stage, or returns. -/
def moveTo (inFlight : List Stage) (i : Nat) : Option Stage → List Stage
  | some s => inFlight.set i s
  | none => inFlight.eraseIdx i

/-- The `createBackup` executions in flight after an event: `manualBackup` and the
cron callback both call `createBackup` at once, which runs to its first `await`. -/
def deliver (compress upload : Bool) (inFlight : List Stage) : Event → List Stage
  | .manualTrigger => inFlight ++ [Stage.pathExists]
  | .timerTick => inFlight ++ [Stage.pathExists]
  | .resolve i =>
    match inFlight[i]? with
    | none => inFlight
    | some s => moveTo inFlight i (s.next compress upload)
  | .reject i =>
    match inFlight[i]? with
    | none => inFlight
    | some s => moveTo inFlight i s.caught

/-! ## Concrete inputs -/

/-- A Drive client that was never initialised. -/
def cloudOffline : CloudEnv :=
  { oauth2Client := false, drive := false, folderId := none, lookupError := none,
    createFolder := .error "Google Drive not initialized",
    uploadFile := .error "Google Drive not initialized", folder := [], pageSize := 100 }

/-- An authenticated Drive client whose upload fails. -/
def cloudUploadFails : CloudEnv :=
  { oauth2Client := true, drive := true, folderId := some 1, lookupError := none,
    createFolder := .ok 1, uploadFile := .error "network error", folder := [], pageSize := 100 }

/-- A run at time value `now` in which every local step succeeds and `fs.readdir`
lists the directory in the order of creation. -/
def goodRun (now created : Int) : RunEnv :=
  { dbExists := true, now := now, created := created, snapshotError := none,
    compressError := none, partialArchive := false, readdirOrder := fun _ => 0 }

/-- A run like `goodRun` in which `fs.readdir` lists the directory by the rank `order`. -/
def goodRunListed (now created : Int) (order : List Char → Nat) : RunEnv :=
  { goodRun now created with readdirOrder := order }

/-- A listing order that puts the archives of the time values 2000, 1000 and 0
first, in this order: the newest comes first. -/
def newestFirst : List Char → Nat := fun name =>
  if name = backupName 2000 ++ zipSuffix then 0
  else if name = backupName 1000 ++ zipSuffix then 1
  else if name = backupName 0 ++ zipSuffix then 2
  else 3

/-- The default configuration keeping `k` local copies. -/
def keepLocal (k : Nat) : BackupConfig := { defaultConfig with keepLocalCopies := k }

/-- The directory name `backups`. -/
def backupsDir : List Char := ['b', 'a', 'c', 'k', 'u', 'p', 's']

/-- The file name `old.zip`. -/
def oldZip : List Char := ['o', 'l', 'd', '.', 'z', 'i', 'p']

/-- The directory entry a successful run leaves for its artifact. -/
def artifact (cfg : BackupConfig) (run : RunEnv × CloudEnv) : DirEntry :=
  ⟨finalBackupName cfg run.1.now, run.1.created⟩

/-- A Drive file named after the time value it was created at. -/
def driveFile (id : Nat) (createdTime : Int) : DriveFile :=
  ⟨id, backupName createdTime ++ zipSuffix, 4096, createdTime⟩

/-- A Drive folder of twelve backups, in no particular order. -/
def twelveFiles : List DriveFile :=
  [driveFile 3 3000, driveFile 1 1000, driveFile 12 12000, driveFile 7 7000, driveFile 5 5000,
    driveFile 2 2000, driveFile 9 9000, driveFile 4 4000, driveFile 11 11000, driveFile 6 6000,
    driveFile 10 10000, driveFile 8 8000]

/-- The default configuration with scheduled backups enabled. -/
def enabledConfig : BackupConfig := { defaultConfig with enabled := true }

/-- A `cron.schedule` that accepts every expression. -/
def acceptAll : List Char → Bool := fun _ => true

/-- The patch `{ enabled: true }`. -/
def enablePatch : ConfigPatch := { ConfigPatch.empty with enabled := some true }

/-- The patch `{ schedule: '' }`. -/
def emptySchedulePatch : ConfigPatch := { ConfigPatch.empty with schedule := some [] }

/-- A fresh manager after `updateConfig({ enabled: true })`: the policy is enabled
with the schedule `0 2 * * *` and its timer is armed. -/
def armedManager : Manager :=
  (Manager.fresh none).calls acceptAll [.updateConfig enablePatch]

/-- The armed manager after `updateConfig({ schedule: '' })`. -/
def staleManager : Manager :=
  (Manager.fresh none).calls acceptAll [.updateConfig enablePatch, .updateConfig emptySchedulePatch]

/-- A `cron.schedule` that accepts `0 2 * * *` and throws on anything else. -/
def onlyDaily : List Char → Bool := fun expression => expression == dailyAtTwo

/-- The patch `{ schedule: 'x' }`. -/
def badSchedulePatch : ConfigPatch := { ConfigPatch.empty with schedule := some ['x'] }

/-- The armed manager after `updateConfig({ schedule: 'x' })`, which `cron.schedule`
rejects. -/
def rejectedManager : Manager :=
  (Manager.fresh none).calls onlyDaily [.updateConfig enablePatch, .updateConfig badSchedulePatch]

/-! ## The Drive session -/

/-- An OAuth token object. -/
abbrev Token := Nat

/-- The content of `credentials.json`. -/
inductive Credentials where
  /-- An object whose `type` is `service_account`. -/
  | serviceAccount
  /-- An object with an `installed` or `web` entry holding `client_id`,
  `client_secret` and, possibly, `redirect_uris`. -/
  | interactive (clientId clientSecret : List Char) (redirectUris : Option (List (List Char)))
  /-- Any other object. -/
  | other
deriving DecidableEq, Repr

/-- The object held in `oauth2Client`. -/
structure OAuthClient where
  /-- The client came from `GoogleAuth.getClient()` for a service-account key. -/
  serviceAccount : Bool
  clientId : Option (List Char)
  clientSecret : Option (List Char)
  redirectUri : Option (List Char)
  /-- The token given to `setCredentials`, if any. -/
  credentials : Option Token
deriving DecidableEq, Repr

/-- A `GoogleDriveConfig` together with the two files it reads and writes. -/
structure GoogleDriveConfig where
  oauth2Client : Option OAuthClient
  /-- The `drive` field is set. -/
  drive : Bool
  /-- The content of `credentials.json`, if the file exists. -/
  credentialsFile : Option Credentials
  /-- The content of `token.json`, if the file exists. -/
  tokenFile : Option Token
deriving DecidableEq, Repr

/-- The object the constructor builds, next to the files on disk. -/
def GoogleDriveConfig.fresh (credentialsFile : Option Credentials) (tokenFile : Option Token) :
    GoogleDriveConfig :=
  { oauth2Client := none, drive := false, credentialsFile := credentialsFile,
    tokenFile := tokenFile }

/-- The redirect URI used when the credentials give none. -/
def defaultRedirectUri : List Char := "http://localhost:3001/auth/google/callback".toList

/-- The expression `redirect_uris[0] || 'http://localhost:3001/auth/google/callback'`. -/
def firstRedirectUri (redirectUris : List (List Char)) : List Char :=
  match redirectUris with
  | uri :: _ => if uri.isEmpty then defaultRedirectUri else uri
  | [] => defaultRedirectUri

/-- The client `GoogleAuth.getClient()` resolves to for a service-account key. -/
def serviceClient : OAuthClient :=
  { serviceAccount := true, clientId := none, clientSecret := none, redirectUri := none,
    credentials := none }

/-- The method `initialize` of `GoogleDriveConfig`, where `getClient` tells whether
`auth.getClient()` resolves. The second component is the return value. -/
def initializeDrive (getClient : Bool) (s : GoogleDriveConfig) : GoogleDriveConfig × Bool :=
  match s.credentialsFile with
  | none => (s, false)
  | some .serviceAccount =>
    if getClient then ({ s with oauth2Client := some serviceClient, drive := true }, true)
    else (s, false)
  | some (.interactive clientId clientSecret redirectUris) =>
    match redirectUris with
    | none => (s, false)
    | some uris =>
      ({ s with
          oauth2Client := some
            { serviceAccount := false, clientId := some clientId,
              clientSecret := some clientSecret, redirectUri := some (firstRedirectUri uris),
              credentials := s.tokenFile },
          drive := true }, true)
  | some .other => (s, false)

/-- The method `isAuthenticated` of `GoogleDriveConfig`: `this.oauth2Client && this.drive`. -/
def GoogleDriveConfig.isAuthenticated (s : GoogleDriveConfig) : Bool :=
  s.oauth2Client.isSome && s.drive

/-- The URL `oauth2Client.generateAuthUrl` builds from the client and the options. -/
structure AuthUrl where
  clientId : Option (List Char)
  redirectUri : Option (List Char)
  accessType : String
  scope : List String
  prompt : String
deriving DecidableEq, Repr

/-- The method `generateAuthUrl`: throws without a client, else returns what the
client's own `generateAuthUrl` builds, whatever the kind of client. -/
def generateAuthUrl (s : GoogleDriveConfig) : Except String AuthUrl :=
  match s.oauth2Client with
  | none => .error "Google Drive not initialized"
  | some client =>
    .ok { clientId := client.clientId, redirectUri := client.redirectUri,
          accessType := "offline",
          scope := ["https://www.googleapis.com/auth/drive.file",
            "https://www.googleapis.com/auth/drive.metadata.readonly"],
          prompt := "consent" }

/-- The object `handleCallback` resolves to. -/
structure CallbackResult where
  success : Bool
  message : String
deriving DecidableEq, Repr

/-- The outcome of the call `fs.writeJson(this.tokenPath, tokens)`. -/
inductive TokenWrite where
  /-- The file holds the tokens. -/
  | written
  /-- The call threw. The argument is the content of `token.json` afterwards, if
  the file exists; nothing is assumed about it. -/
  | failed (left : Option Token)
deriving DecidableEq, Repr

/-- The method `handleCallback`, where `getToken` is the token exchange of the client
and `write` is the outcome of writing `token.json`. -/
def handleCallback (getToken : List Char → Except String Token) (write : TokenWrite)
    (s : GoogleDriveConfig) (code : List Char) : GoogleDriveConfig × CallbackResult :=
  match s.oauth2Client with
  | none => (s, ⟨false, "Failed to connect to Google Drive"⟩)
  | some client =>
    match getToken code with
    | .error _ => (s, ⟨false, "Failed to connect to Google Drive"⟩)
    | .ok tokens =>
      let s1 := { s with oauth2Client := some { client with credentials := some tokens } }
      match write with
      | .written =>
        ({ s1 with tokenFile := some tokens, drive := true },
          ⟨true, "Google Drive connected successfully!"⟩)
      | .failed left =>
        ({ s1 with tokenFile := left }, ⟨false, "Failed to connect to Google Drive"⟩)

/-! ## Status -/

/-- The object `getStatus` returns, without its `lastBackup` entry. -/
structure Status where
  initialized : Bool
  enabled : Bool
  schedule : List Char
  googleDriveConnected : Bool
  nextBackup : Option Int
deriving DecidableEq, Repr

/-- The method `getStatus` at time value `now`, for the Drive session `c`. -/
def getStatus (m : Manager) (c : CloudEnv) (tza : LocalTZA) (now : Int) : Status :=
  { initialized := m.isInitialized,
    enabled := m.backupConfig.enabled,
    schedule := m.backupConfig.schedule,
    googleDriveConnected := c.isAuthenticated,
    nextBackup := getNextBackupTime m tza now }

/-! ## Concrete sessions and policies -/

/-- The persisted policy `{ enabled: true }`; the schedule stays `0 2 * * *`. -/
def persistedEnabled : ConfigPatch := enablePatch

/-- The client id `app`. -/
def appId : List Char := ['a', 'p', 'p']

/-- The client secret `key`. -/
def appSecret : List Char := ['k', 'e', 'y']

/-- A session freshly built next to an interactive credentials file and no
token file. -/
def interactiveNoToken : GoogleDriveConfig :=
  GoogleDriveConfig.fresh (some (.interactive appId appSecret (some []))) none

/-- A session freshly built next to a service-account credentials file. -/
def serviceSession : GoogleDriveConfig := GoogleDriveConfig.fresh (some .serviceAccount) none

/-- A token exchange that accepts the code `ok` with token 7 and rejects every
other code. -/
def exchangeOk : List Char → Except String Token := fun code =>
  if code = ['o', 'k'] then .ok 7 else .error "invalid_grant"

/-- A run whose database file is missing. -/
def noDatabaseRun : RunEnv := { goodRun 1000 70 with dbExists := false }

/-- A run whose compression fails. -/
def compressFailsRun : RunEnv := { goodRun 1000 70 with compressError := some "disk full" }

/-! ## File-system failures around the policy file -/

/-- A `try { body } catch (error) { console.error(...) }` block: the state the body
left behind, and nothing thrown to the caller. -/
def swallow {σ : Type} (body : σ × Option String) : σ × Option String := (body.1, none)

/-- What the file system answers to the calls on `backupConfig.json`. -/
structure ConfigFaults where
  /-- An error thrown while the file is read (`pathExists`, `readJson`). -/
  readError : Option String
  /-- An error thrown by `writeJson`. -/
  writeError : Option String
  /-- The content of `backupConfig.json` after a `writeJson` that threw, if the file then
  exists; nothing is assumed about it. -/
  afterFailedWrite : Option ConfigPatch

/-- A file system on which every call on the policy file succeeds. -/
def ConfigFaults.reliable : ConfigFaults :=
  { readError := none, writeError := none, afterFailedWrite := none }

/-- The `try` block of `saveConfig`: the manager it leaves and the error it throws. -/
def saveConfigBody (io : ConfigFaults) (m : Manager) : Manager × Option String :=
  match io.writeError with
  | some e => ({ m with configFile := io.afterFailedWrite }, some e)
  | none => (saveConfig m, none)

/-- The method `saveConfig` on a file system that may fail. The second component is
what reaches the caller. -/
def saveConfigWith (io : ConfigFaults) (m : Manager) : Manager × Option String :=
  swallow (saveConfigBody io m)

/-- The `try` block of `loadConfig`: the manager it leaves and the error it throws. -/
def loadConfigBody (io : ConfigFaults) (m : Manager) : Manager × Option String :=
  match io.readError with
  | some e => (m, some e)
  | none =>
    match m.configFile with
    | some patch => ({ m with backupConfig := merge m.backupConfig patch }, none)
    | none => saveConfigWith io m

/-- The method `loadConfig` on a file system that may fail. The second component is
what reaches the caller. -/
def loadConfigWith (io : ConfigFaults) (m : Manager) : Manager × Option String :=
  swallow (loadConfigBody io m)

/-! ## The Drive calls of an upload -/

/-- What `uploadToGoogleDrive` does to the folders of the account before it uploads. -/
structure UploadEffects where
  /-- The method `createBackupFolder` was called. -/
  createFolderCalled : Bool
  /-- The id of the folder that call created, if it succeeded. -/
  createdFolder : Option Nat
  /-- The folder id passed to `uploadFile`, if the upload was reached. -/
  uploadedInto : Option Nat
deriving DecidableEq, Repr

/-- The folder steps of `uploadToGoogleDrive`: look the folder up, create one when the
lookup gave `null`, and pass the id on to `uploadFile`. -/
def uploadEffects (c : CloudEnv) : UploadEffects :=
  match findBackupFolder c with
  | some id => { createFolderCalled := false, createdFolder := none, uploadedInto := some id }
  | none =>
    match createBackupFolder c with
    | .error _ => { createFolderCalled := true, createdFolder := none, uploadedInto := none }
    | .ok id => { createFolderCalled := true, createdFolder := some id, uploadedInto := some id }

/-- A call `uploadToGoogleDrive` makes on `this.googleDrive`. -/
inductive DriveCall where
  | findBackupFolder | createBackupFolder | uploadFile | cleanupOldBackups
deriving DecidableEq, Repr

/-- The calls `uploadToGoogleDrive` makes on `this.googleDrive`, in order, up to its
`return` or to the first call that throws. -/
def driveCalls (c : CloudEnv) : List DriveCall :=
  match findBackupFolder c with
  | some _ =>
    match uploadFile c with
    | .error _ => [.findBackupFolder, .uploadFile]
    | .ok _ => [.findBackupFolder, .uploadFile, .cleanupOldBackups]
  | none =>
    match createBackupFolder c with
    | .error _ => [.findBackupFolder, .createBackupFolder]
    | .ok _ =>
      match uploadFile c with
      | .error _ => [.findBackupFolder, .createBackupFolder, .uploadFile]
      | .ok _ => [.findBackupFolder, .createBackupFolder, .uploadFile, .cleanupOldBackups]

/-! ## Failures inside the retention passes -/

/-- What the file system and Drive answer during the retention passes. -/
structure RetentionFaults where
  /-- An error thrown by `fs.readdir`. -/
  readdirError : Option String
  /-- An error thrown by one of the `fs.stat` calls. -/
  statError : Option String
  /-- The error `fs.remove` throws on an entry, if any. -/
  removeError : List Char → Option String
  /-- An error with which the `files.list` call of `listBackupFiles` rejects. -/
  listError : Option String
  /-- The error `files.delete` throws on a file id, if any. -/
  deleteError : Nat → Option String

/-- A file system and a Drive on which every retention call succeeds. -/
def RetentionFaults.reliable : RetentionFaults :=
  { readdirError := none, statError := none, removeError := fun _ => none, listError := none,
    deleteError := fun _ => none }

/-- The loop `for (const file of filesToDelete) await fs.remove(file.path)`: it stops at
the first removal that throws. -/
def removeEach (io : RetentionFaults) : List DirEntry → List DirEntry → List DirEntry × Option String
  | [], dir => (dir, none)
  | file :: rest, dir =>
    match io.removeError file.name with
    | some e => (dir, some e)
    | none => removeEach io rest (remove dir file.name)

/-- The `try` block of `cleanupLocalBackups`: the directory it leaves and the error it
throws. -/
def cleanupLocalBackupsBody (io : RetentionFaults) (keepLocalCopies : Nat) (dir : List DirEntry) :
    List DirEntry × Option String :=
  match io.readdirError with
  | some e => (dir, some e)
  | none =>
    if (backupFiles dir).length > keepLocalCopies then
      match io.statError with
      | some e => (dir, some e)
      | none =>
        removeEach io ((sortedFiles dir).take ((backupFiles dir).length - keepLocalCopies)) dir
    else (dir, none)

/-- The method `cleanupLocalBackups` on a file system that may fail. The second
component is what reaches the caller. -/
def cleanupLocalBackupsWith (io : RetentionFaults) (keepLocalCopies : Nat) (dir : List DirEntry) :
    List DirEntry × Option String :=
  swallow (cleanupLocalBackupsBody io keepLocalCopies dir)

/-- The method `listBackupFiles` on a Drive that may fail: the `catch` returns `[]`. -/
def listBackupFilesWith (io : RetentionFaults) (drive : Bool) (folder : List DriveFile)
    (pageSize : Nat) : List DriveFile :=
  if drive then
    match io.listError with
    | some _ => []
    | none => filesList folder pageSize
  else []

/-- The loop `for (const file of filesToDelete) await this.drive.files.delete(...)`: it
stops at the first deletion that throws. -/
def deleteEach (io : RetentionFaults) :
    List DriveFile → List DriveFile → List DriveFile × Option String
  | [], folder => (folder, none)
  | file :: rest, folder =>
    match io.deleteError file.id with
    | some e => (folder, some e)
    | none => deleteEach io rest (filesDelete folder file.id)

/-- The `try` block of `cleanupOldBackups`: the folder it leaves and the error it
throws. -/
def cleanupOldBackupsBody (io : RetentionFaults) (drive : Bool) (folder : List DriveFile)
    (pageSize keepCount : Nat) : List DriveFile × Option String :=
  if drive then
    if (listBackupFilesWith io drive folder pageSize).length > keepCount then
      deleteEach io ((listBackupFilesWith io drive folder pageSize).drop keepCount) folder
    else (folder, none)
  else (folder, some "Google Drive not initialized")

/-- The method `cleanupOldBackups` on a Drive that may fail. The second component is
what reaches the caller. -/
def cleanupOldBackupsWith (io : RetentionFaults) (drive : Bool) (folder : List DriveFile)
    (pageSize keepCount : Nat) : List DriveFile × Option String :=
  swallow (cleanupOldBackupsBody io drive folder pageSize keepCount)

/-- The end of `uploadToGoogleDrive`: the remote retention pass on the folder holding
the uploaded file, then `return uploadedFile`. -/
def afterUpload (io : RetentionFaults) (cfg : BackupConfig) (c : CloudEnv) (uploaded : DriveFile)
    (folder : List DriveFile) : Except String (DriveFile × List DriveFile) :=
  match cleanupOldBackupsWith io c.drive folder c.pageSize cfg.keepCloudCopies with
  | (kept, none) => .ok (uploaded, kept)
  | (_, some e) => .error e

/-- The method `uploadToGoogleDrive` with a remote retention pass that may fail. -/
def uploadToGoogleDriveWith (io : RetentionFaults) (cfg : BackupConfig) (c : CloudEnv) :
    Except String (DriveFile × List DriveFile) :=
  match findBackupFolder c with
  | some _ =>
    match uploadFile c with
    | .error e => .error e
    | .ok uploaded => afterUpload io cfg c uploaded (c.folder ++ [uploaded])
  | none =>
    match createBackupFolder c with
    | .error e => .error e
    | .ok _ =>
      match uploadFile c with
      | .error e => .error e
      | .ok uploaded => afterUpload io cfg c uploaded [uploaded]

/-- The method `createBackup` with retention passes that may fail. -/
def createBackupWith (io : RetentionFaults) (cfg : BackupConfig) (backupDir : List Char)
    (env : RunEnv) (c : CloudEnv) (dir : List DirEntry) : BackupRun :=
  if !env.dbExists then
    { result := .failure "Database file not found", dir := dir, cloud := none,
      cleanedUp := false }
  else
    let dir1 := ensureEntry dir (backupName env.now) env.created
    match env.snapshotError with
    | some e => { result := .failure e, dir := dir1, cloud := none, cleanedUp := false }
    | none =>
      match (if cfg.compressBackups then env.compressError else none) with
      | some e =>
        { result := .failure e,
          dir := if env.partialArchive then
              ensureEntry dir1 (backupName env.now ++ zipSuffix) env.created
            else dir1,
          cloud := none, cleanedUp := false }
      | none =>
        let dir2 := localBackupCreated cfg env dir
        let cloud :=
          if cfg.enabled && c.isAuthenticated then some (uploadToGoogleDriveWith io cfg c)
          else none
        match cleanupLocalBackupsWith io cfg.keepLocalCopies (readdir env.readdirOrder dir2) with
        | (dir3, some e) => { result := .failure e, dir := dir3, cloud := cloud, cleanedUp := true }
        | (dir3, none) =>
          { result := .success (pathJoin backupDir (finalBackupName cfg env.now))
              (finalBackupName cfg env.now),
            dir := dir3, cloud := cloud, cleanedUp := true }

/-! ## Concrete failures -/

/-- An authenticated Drive client in an account that holds the backup folder
(id 1) while the folder lookup fails; folder creation and upload succeed. -/
def cloudLookupFails : CloudEnv :=
  { oauth2Client := true, drive := true, folderId := some 1,
    lookupError := some "backendError", createFolder := .ok 2,
    uploadFile := .ok (driveFile 9 9000), folder := [], pageSize := 100 }

/-- Retention passes in which every call fails. -/
def retentionFails : RetentionFaults :=
  { readdirError := some "EIO", statError := some "EIO", removeError := fun _ => some "EPERM",
    listError := some "backendError", deleteError := fun _ => some "backendError" }

/-- Retention passes in which listing works and every removal and deletion fails. -/
def removalFails : RetentionFaults :=
  { readdirError := none, statError := none, removeError := fun _ => some "EPERM",
    listError := none, deleteError := fun _ => some "backendError" }

/-- The file name `a.zip`. -/
def aZip : List Char := ['a', '.', 'z', 'i', 'p']

/-- The file name `b.zip`. -/
def bZip : List Char := ['b', '.', 'z', 'i', 'p']

/-- The file name `notes.txt`. -/
def notesTxt : List Char := ['n', 'o', 't', 'e', 's', '.', 't', 'x', 't']

/-! ## The `PUT /config` handler -/

/-- A value of a JSON request body, as far as the handler tells values apart. -/
inductive JsValue where
  | undefined
  | null
  | bool (b : Bool)
  /-- A number with an integer value. -/
  | integer (n : Int)
  /-- A finite number that is not an integer. -/
  | fraction
  | nan
  | string (s : List Char)
  /-- An array or an object. -/
  | object
deriving DecidableEq, Repr

/-- Truthiness of a value. -/
def JsValue.truthy : JsValue → Bool
  | .undefined => false
  | .null => false
  | .bool b => b
  | .integer n => n ≠ 0
  | .fraction => true
  | .nan => false
  | .string s => !s.isEmpty
  | .object => true

/-- The expression `value || fallback`. -/
def JsValue.orElse (value fallback : JsValue) : JsValue :=
  if value.truthy then value else fallback

/-- The expression `value !== undefined ? value : fallback`. -/
def JsValue.definedOr (value fallback : JsValue) : JsValue :=
  if value = .undefined then fallback else value

/-- The value is an integer that is at least one. -/
def JsValue.isPositiveInteger : JsValue → Bool
  | .integer n => decide (1 ≤ n)
  | _ => false

/-- A policy object, or a request body, with the six keys the handler reads. -/
structure JsConfig where
  enabled : JsValue
  schedule : JsValue
  keepLocalCopies : JsValue
  keepCloudCopies : JsValue
  folderName : JsValue
  compressBackups : JsValue
deriving DecidableEq, Repr

/-- The policy object of a well-typed configuration. -/
def BackupConfig.toJs (config : BackupConfig) : JsConfig :=
  { enabled := .bool config.enabled, schedule := .string config.schedule,
    keepLocalCopies := .integer config.keepLocalCopies,
    keepCloudCopies := .integer config.keepCloudCopies,
    folderName := .string config.folderName,
    compressBackups := .bool config.compressBackups }

/-- The `newConfig` the `PUT /config` handler builds from the request body. -/
def putConfigNewConfig (current body : JsConfig) : JsConfig :=
  { enabled := body.enabled.definedOr current.enabled,
    schedule := body.schedule.orElse current.schedule,
    keepLocalCopies := body.keepLocalCopies.orElse current.keepLocalCopies,
    keepCloudCopies := body.keepCloudCopies.orElse current.keepCloudCopies,
    folderName := body.folderName.orElse current.folderName,
    compressBackups := body.compressBackups.definedOr current.compressBackups }

/-- The policy in effect after the `PUT /config` handler: `updateConfig` spreads
`newConfig`, which has all six keys, over the current policy. -/
def putConfig (current body : JsConfig) : JsConfig := putConfigNewConfig current body

/-- The request body with no key. -/
def JsConfig.emptyBody : JsConfig :=
  { enabled := .undefined, schedule := .undefined, keepLocalCopies := .undefined,
    keepCloudCopies := .undefined, folderName := .undefined, compressBackups := .undefined }

/-- The request body `{ keepLocalCopies: -3 }`. -/
def negativeCountBody : JsConfig := { JsConfig.emptyBody with keepLocalCopies := .integer (-3) }

/-- The request body `{ keepCloudCopies: 'many' }`. -/
def stringCountBody : JsConfig :=
  { JsConfig.emptyBody with keepCloudCopies := .string "many".toList }

/-! ## The download and delete routes -/

/-- The segments of a path string between its `/` separators. -/
def splitPath : List Char → List (List Char)
  | [] => [[]]
  | c :: cs =>
    if c = '/' then [] :: splitPath cs
    else
      match splitPath cs with
      | [] => [[c]]
      | segment :: segments => (c :: segment) :: segments

/-- One step of path normalisation on the segments seen so far, last segment
first: empty segments and `.` are dropped and `..` removes the last segment. -/
def normalizeStep (seen : List (List Char)) (segment : List Char) : List (List Char) :=
  if segment = [] ∨ segment = ['.'] then seen
  else if segment = ['.', '.'] then seen.tail
  else segment :: seen

/-- The segments of the normalised absolute path. -/
def normalizeSegments (segments : List (List Char)) : List (List Char) :=
  (segments.foldl normalizeStep []).reverse

/-- The `filePath` of the download and delete routes,
`path.join(__dirname, '..', 'backup', 'backups', filename)`, where `__dirname` is the
directory `routes` of the server directory. -/
def routeFilePath (serverDir : List (List Char)) (filename : List Char) : List (List Char) :=
  normalizeSegments
    (serverDir ++ ["routes".toList, "..".toList, "backup".toList, "backups".toList]
      ++ splitPath filename)

/-- The backups directory the routes mean to serve. -/
def backupsPath (serverDir : List (List Char)) : List (List Char) :=
  normalizeSegments (serverDir ++ ["backup".toList, "backups".toList])

/-- The `dbPath` of `BackupManager`: `path.join(__dirname, '..', 'inventory.db')`, where `__dirname`
is the directory `backup` of the server directory. -/
def dbPath (serverDir : List (List Char)) : List (List Char) :=
  normalizeSegments (serverDir ++ ["backup".toList, "..".toList, "inventory.db".toList])

/-- What a route answers. -/
inductive RouteResponse where
  | notFound
  | download (filePath : List (List Char))
  | deleted (filePath : List (List Char))
deriving DecidableEq, Repr

/-- The handler of `GET /download/:filename` on a file system where `pathExists` tells
which paths exist. -/
def downloadRoute (pathExists : List (List Char) → Bool) (serverDir : List (List Char))
    (filename : List Char) : RouteResponse :=
  if pathExists (routeFilePath serverDir filename) then
    .download (routeFilePath serverDir filename)
  else .notFound

/-- The handler of `DELETE /delete/:filename`: the response and the path given to
`fs.remove`, if any. -/
def deleteRoute (pathExists : List (List Char) → Bool) (serverDir : List (List Char))
    (filename : List Char) : RouteResponse × Option (List (List Char)) :=
  if pathExists (routeFilePath serverDir filename) then
    (.deleted (routeFilePath serverDir filename), some (routeFilePath serverDir filename))
  else (.notFound, none)

/-- The server directory `/app/server`. -/
def appServer : List (List Char) := ["app".toList, "server".toList]

/-- The filename `../../inventory.db`. -/
def traversalName : List Char := "../../inventory.db".toList

/-! ## The last backup -/

/-- The object `getLastBackupInfo` resolves to, without its `size`. -/
structure LastBackupInfo where
  name : List Char
  created : Int
  path : List Char
deriving DecidableEq, Repr

/-- The UTF-16 code units of a character: one unit in the basic plane, a
surrogate pair above it. -/
def utf16Units (c : Char) : List Nat :=
  if c.toNat < 65536 then [c.toNat]
  else [55296 + (c.toNat - 65536) / 1024, 56320 + (c.toNat - 65536) % 1024]

/-- The UTF-16 code units of a string. -/
def toUTF16 : List Char → List Nat
  | [] => []
  | c :: cs => utf16Units c ++ toUTF16 cs

/-- The method `getLastBackupInfo`: the candidate names sorted by `sort()`, which
compares strings by their UTF-16 code units, then reversed; the first of them
is described with its birth time and path. -/
def getLastBackupInfo (backupDir : List Char) (dir : List DirEntry) : Option LastBackupInfo :=
  match (((backupFiles dir).map DirEntry.name).insertionSort
      (fun a b => toUTF16 a ≤ toUTF16 b)).reverse with
  | [] => none
  | latestBackup :: _ =>
    match dir.find? (fun e => e.name = latestBackup) with
    | some e => some ⟨latestBackup, e.birthtime, pathJoin backupDir latestBackup⟩
    | none => none

/-! ## Calendar offsets -/

/-- Days of a 400-year era that precede its year `c`, years starting in March. -/
def daysBeforeYear (c : Int) : Int := 365 * c + c / 4 - c / 100 + c / 400

/-- Days of a year starting in March that precede its month `mp` (0 is March). -/
def daysBeforeMonth (mp : Int) : Int := (153 * mp + 2) / 5


/-- A directory with two artifacts of `createBackup`, started on 2020-09-13
and on 2023-11-14, and a file that is no candidate. -/
def recentArtifacts : List DirEntry :=
  [⟨finalBackupName defaultConfig 1700000000000, 1700000000450⟩, ⟨notesTxt, 10⟩,
    ⟨finalBackupName defaultConfig 1600000000000, 1600000000450⟩]

/-- The file name `～.zip`, whose first character is U+FF5E. -/
def tildeZip : List Char := [Char.ofNat 65374, '.', 'z', 'i', 'p']

/-- The file name `😀.zip`, whose first character is U+1F600, the surrogate pair
D83D DE00 in UTF-16. -/
def smileyZip : List Char := [Char.ofNat 128512, '.', 'z', 'i', 'p']

/-! ## The ISO format on known dates -/

theorem toISOString_epoch :
    String.mk (toISOString 0) = "1970-01-01T00:00:00.000Z" := by decide

theorem toISOString_before_epoch :
    String.mk (toISOString (-1)) = "1969-12-31T23:59:59.999Z" := by decide

theorem toISOString_leap_day :
    String.mk (toISOString 951782400000) = "2000-02-29T00:00:00.000Z" := by decide

theorem toISOString_maxTime :
    String.mk (toISOString maxTime) = "+275760-09-13T00:00:00.000Z" := by decide

theorem toISOString_minTime :
    String.mk (toISOString (-maxTime)) = "-271821-04-20T00:00:00.000Z" := by decide

theorem backupName_sample :
    String.mk (backupName 1700000000123) = "inventory_backup_2023-11-14T22-13-20-123Z" := by
  decide

/-! ## Calendar arithmetic -/

set_option maxHeartbeats 4000000 in
theorem yearOfEra_bounds (doe c : Int) (h0 : 0 ≤ doe) (h1 : doe ≤ 146096)
    (hc : (doe - doe / 1460 + doe / 36524 - doe / 146096) / 365 = c) :
    0 ≤ c ∧ c ≤ 399 ∧ 0 ≤ doe - (365 * c + c / 4 - c / 100) ∧
      doe - (365 * c + c / 4 - c / 100) ≤ 365 := by
  have hy0 : 0 ≤ c := by omega
  have hy1 : c ≤ 399 := by omega
  interval_cases c <;> omega

/-- The calendar fields of a day number determine it, and month and day of
month are in range. -/
theorem civilFromDays_spec (days : Int) :
    daysFromCivil (civilFromDays days).1 (civilFromDays days).2.1 (civilFromDays days).2.2
        = days ∧
      1 ≤ (civilFromDays days).2.1 ∧ (civilFromDays days).2.1 ≤ 12 ∧
      1 ≤ (civilFromDays days).2.2 ∧ (civilFromDays days).2.2 ≤ 31 := by
  obtain ⟨c, hc⟩ : ∃ c : Int, ((days + 719468) % 146097 - (days + 719468) % 146097 / 1460 +
      (days + 719468) % 146097 / 36524 - (days + 719468) % 146097 / 146096) / 365 = c :=
    ⟨_, rfl⟩
  obtain ⟨h0, h1, h2, h3⟩ :=
    yearOfEra_bounds ((days + 719468) % 146097) c (by omega) (by omega) hc
  simp only [civilFromDays, daysFromCivil, hc]
  obtain ⟨doy, hdoy⟩ :
      ∃ doy : Int, (days + 719468) % 146097 - (365 * c + c / 4 - c / 100) = doy := ⟨_, rfl⟩
  rw [hdoy] at h2 h3 ⊢
  obtain ⟨mp, hmp⟩ : ∃ mp : Int, (5 * doy + 2) / 153 = mp := ⟨_, rfl⟩
  rw [hmp]
  have hmp0 : 0 ≤ mp := by omega
  have hmp1 : mp ≤ 11 := by omega
  obtain ⟨era, hera⟩ : ∃ era : Int, (days + 719468) / 146097 = era := ⟨_, rfl⟩
  have hz : (days + 719468) % 146097 = days + 719468 - 146097 * era := by omega
  rw [hera]
  have e1 : (c + era * 400) / 400 = era := by omega
  have e2 : (c + era * 400) % 400 = c := by omega
  by_cases hlt : mp < 10
  · have hm : ¬ (mp + 3 ≤ 2) := by omega
    have hm2 : mp + 3 > 2 := by omega
    have hm3 : mp + 3 - 3 = mp := by omega
    simp only [hlt, hm, hm2, hm3, if_true, if_false, e1, e2]
    omega
  · have hm : mp - 9 ≤ 2 := by omega
    have hm2 : ¬ (mp - 9 > 2) := by omega
    have hm3 : mp - 9 + 9 = mp := by omega
    have e4 : c + era * 400 + 1 - 1 = c + era * 400 := by omega
    simp only [hlt, hm, hm2, hm3, if_true, if_false, e1, e2, e4]
    omega

theorem civilFromDays_injective {a b : Int} (h : civilFromDays a = civilFromDays b) : a = b := by
  have ha := (civilFromDays_spec a).1
  have hb := (civilFromDays_spec b).1
  rw [h] at ha
  exact ha.symm.trans hb

theorem year_bounds (t : Int) (h : ValidTime t) :
    -999999 ≤ YearFromTime t ∧ YearFromTime t ≤ 999999 := by
  unfold ValidTime maxTime at h
  simp only [YearFromTime, civilFromDays, Day, msPerDay]
  split_ifs <;> omega

/-! ## Digits and padded fields -/

theorem digitChar_inj {a b : Nat} (ha : a < 10) (hb : b < 10)
    (h : digitChar a = digitChar b) : a = b := by
  interval_cases a <;> interval_cases b <;> first | rfl | (exact absurd h (by decide))

theorem replaceColonDot_digitChar (n : Nat) : replaceColonDot (digitChar n) = digitChar n := by
  unfold digitChar
  split <;> decide

theorem digitChar_ne_minus (n : Nat) : digitChar n ≠ '-' := by
  unfold digitChar
  split <;> decide

theorem digitChar_ne_plus (n : Nat) : digitChar n ≠ '+' := by
  unfold digitChar
  split <;> decide

theorem pad2_inj {a b : Nat} (ha : a < 100) (hb : b < 100) (h : pad2 a = pad2 b) : a = b := by
  simp only [pad2, List.cons.injEq, and_true] at h
  have h1 := digitChar_inj (by omega) (by omega) h.1
  have h2 := digitChar_inj (by omega) (by omega) h.2
  omega

theorem pad3_inj {a b : Nat} (ha : a < 1000) (hb : b < 1000) (h : pad3 a = pad3 b) :
    a = b := by
  simp only [pad3, List.cons.injEq, and_true] at h
  have h1 := digitChar_inj (by omega) (by omega) h.1
  have h2 := digitChar_inj (by omega) (by omega) h.2.1
  have h3 := digitChar_inj (by omega) (by omega) h.2.2
  omega

theorem pad4_inj {a b : Nat} (ha : a < 10000) (hb : b < 10000) (h : pad4 a = pad4 b) :
    a = b := by
  simp only [pad4, List.cons.injEq, and_true] at h
  have h1 := digitChar_inj (by omega) (by omega) h.1
  have h2 := digitChar_inj (by omega) (by omega) h.2.1
  have h3 := digitChar_inj (by omega) (by omega) h.2.2.1
  have h4 := digitChar_inj (by omega) (by omega) h.2.2.2
  omega

theorem pad6_inj {a b : Nat} (ha : a < 1000000) (hb : b < 1000000) (h : pad6 a = pad6 b) :
    a = b := by
  simp only [pad6, List.cons.injEq, and_true] at h
  have h1 := digitChar_inj (by omega) (by omega) h.1
  have h2 := digitChar_inj (by omega) (by omega) h.2.1
  have h3 := digitChar_inj (by omega) (by omega) h.2.2.1
  have h4 := digitChar_inj (by omega) (by omega) h.2.2.2.1
  have h5 := digitChar_inj (by omega) (by omega) h.2.2.2.2.1
  have h6 := digitChar_inj (by omega) (by omega) h.2.2.2.2.2
  omega

theorem isoYear_inj {a b : Int} (ha : -999999 ≤ a ∧ a ≤ 999999)
    (hb : -999999 ≤ b ∧ b ≤ 999999) (h : isoYear a = isoYear b) : a = b := by
  unfold isoYear at h
  split_ifs at h with h1 h2 h3 h4 h5 h6
  · have := pad4_inj (by omega) (by omega) h
    omega
  · exact absurd (congrArg List.length h) (by simp [pad4, pad6])
  · exact absurd (congrArg List.length h) (by simp [pad4, pad6])
  · exact absurd (congrArg List.length h) (by simp [pad4, pad6])
  · have := pad6_inj (by omega) (by omega) (List.cons.inj h).2
    omega
  · exact absurd (List.cons.inj h).1 (by decide)
  · exact absurd (congrArg List.length h) (by simp [pad4, pad6])
  · exact absurd (List.cons.inj h).1 (by decide)
  · have := pad6_inj (by omega) (by omega) (List.cons.inj h).2
    omega

/-! ## Artifact names -/

theorem map_replaceColonDot_pad2 (n : Nat) : (pad2 n).map replaceColonDot = pad2 n := by
  simp [pad2, replaceColonDot_digitChar]

theorem map_replaceColonDot_pad3 (n : Nat) : (pad3 n).map replaceColonDot = pad3 n := by
  simp [pad3, replaceColonDot_digitChar]

theorem map_replaceColonDot_isoYear (y : Int) : (isoYear y).map replaceColonDot = isoYear y := by
  unfold isoYear
  split_ifs <;> simp [pad4, pad6, replaceColonDot_digitChar] <;> decide

/-- The timestamp with the replacement carried out. -/
theorem timestamp_eq (t : Int) :
    timestamp t = isoYear (YearFromTime t) ++ ('-' :: pad2 (MonthFromTime t).toNat ++ '-' ::
      pad2 (DateFromTime t).toNat ++ 'T' :: pad2 (HourFromTime t).toNat ++ '-' ::
      pad2 (MinFromTime t).toNat ++ '-' :: pad2 (SecFromTime t).toNat ++ '-' ::
      pad3 (msFromTime t).toNat ++ ['Z']) := by
  have e1 : replaceColonDot '-' = '-' := by decide
  have e2 : replaceColonDot 'T' = 'T' := by decide
  have e3 : replaceColonDot ':' = '-' := by decide
  have e4 : replaceColonDot '.' = '-' := by decide
  have e5 : replaceColonDot 'Z' = 'Z' := by decide
  simp only [timestamp, toISOString, List.map_append, List.map_cons, List.map_nil,
    map_replaceColonDot_pad2, map_replaceColonDot_pad3, map_replaceColonDot_isoYear,
    e1, e2, e3, e4, e5, List.cons_append, List.append_assoc]

theorem toNat_eq_of_digits {x y : Int} (hx : 0 ≤ x ∧ x < 100) (hy : 0 ≤ y ∧ y < 100)
    (h1 : digitChar (x.toNat / 10 % 10) = digitChar (y.toNat / 10 % 10))
    (h2 : digitChar (x.toNat % 10) = digitChar (y.toNat % 10)) : x = y := by
  have a1 := digitChar_inj (by omega) (by omega) h1
  have a2 := digitChar_inj (by omega) (by omega) h2
  omega

theorem toNat_eq_of_digits3 {x y : Int} (hx : 0 ≤ x ∧ x < 1000) (hy : 0 ≤ y ∧ y < 1000)
    (h1 : digitChar (x.toNat / 100 % 10) = digitChar (y.toNat / 100 % 10))
    (h2 : digitChar (x.toNat / 10 % 10) = digitChar (y.toNat / 10 % 10))
    (h3 : digitChar (x.toNat % 10) = digitChar (y.toNat % 10)) : x = y := by
  have a1 := digitChar_inj (by omega) (by omega) h1
  have a2 := digitChar_inj (by omega) (by omega) h2
  have a3 := digitChar_inj (by omega) (by omega) h3
  omega

theorem time_fields_bounds (t : Int) :
    (0 ≤ HourFromTime t ∧ HourFromTime t < 100) ∧ (0 ≤ MinFromTime t ∧ MinFromTime t < 100) ∧
      (0 ≤ SecFromTime t ∧ SecFromTime t < 100) ∧ (0 ≤ msFromTime t ∧ msFromTime t < 1000) := by
  unfold HourFromTime MinFromTime SecFromTime msFromTime TimeWithinDay msPerDay
  omega

theorem timeWithinDay_eq_of_fields {s t : Int} (hh : HourFromTime s = HourFromTime t)
    (hm : MinFromTime s = MinFromTime t) (hs : SecFromTime s = SecFromTime t)
    (hms : msFromTime s = msFromTime t) : TimeWithinDay s = TimeWithinDay t := by
  unfold HourFromTime MinFromTime SecFromTime msFromTime at *
  have b1 : 0 ≤ TimeWithinDay s ∧ TimeWithinDay s < 86400000 := by
    unfold TimeWithinDay msPerDay; omega
  have b2 : 0 ≤ TimeWithinDay t ∧ TimeWithinDay t < 86400000 := by
    unfold TimeWithinDay msPerDay; omega
  omega

theorem timestamp_injective {s t : Int} (hs : ValidTime s) (ht : ValidTime t)
    (h : timestamp s = timestamp t) : s = t := by
  rw [timestamp_eq, timestamp_eq] at h
  obtain ⟨hy, hrest⟩ := List.append_inj' h (by simp [pad2, pad3])
  have hY := isoYear_inj (year_bounds s hs) (year_bounds t ht) hy
  simp only [pad2, pad3, List.cons_append, List.nil_append, List.cons.injEq, and_true,
    true_and] at hrest
  obtain ⟨m1, m2, d1, d2, h1, h2, n1, n2, s1, s2, c1, c2, c3⟩ := hrest
  obtain ⟨-, hm0, hm1, hd0, hd1⟩ := civilFromDays_spec (Day s)
  obtain ⟨-, hm0', hm1', hd0', hd1'⟩ := civilFromDays_spec (Day t)
  obtain ⟨bh, bm, bs, bms⟩ := time_fields_bounds s
  obtain ⟨bh', bm', bs', bms'⟩ := time_fields_bounds t
  have hM : MonthFromTime s = MonthFromTime t :=
    toNat_eq_of_digits (by unfold MonthFromTime; omega) (by unfold MonthFromTime; omega) m1 m2
  have hD : DateFromTime s = DateFromTime t :=
    toNat_eq_of_digits (by unfold DateFromTime; omega) (by unfold DateFromTime; omega) d1 d2
  have hday : Day s = Day t :=
    civilFromDays_injective (Prod.ext hY (Prod.ext hM hD))
  have hH := toNat_eq_of_digits bh bh' h1 h2
  have hN := toNat_eq_of_digits bm bm' n1 n2
  have hS := toNat_eq_of_digits bs bs' s1 s2
  have hC := toNat_eq_of_digits3 bms bms' c1 c2 c3
  have htw := timeWithinDay_eq_of_fields hH hN hS hC
  unfold TimeWithinDay at htw
  unfold Day at hday
  unfold msPerDay at htw hday
  omega

theorem backupName_injective {s t : Int} (hs : ValidTime s) (ht : ValidTime t)
    (h : backupName s = backupName t) : s = t :=
  timestamp_injective hs ht (List.append_cancel_left h)

/-! ## Local retention -/

theorem foldl_remove_eq_filter (l : List DirEntry) (dir : List DirEntry) :
    l.foldl (fun d file => remove d file.name) dir
      = dir.filter (fun e => decide (e.name ∉ l.map DirEntry.name)) := by
  induction l generalizing dir with
  | nil => simp
  | cons a l ih =>
    rw [List.foldl_cons, ih, remove, List.filter_filter]
    congr 1
    funext e
    simp only [List.map_cons, List.mem_cons, not_or, Bool.decide_and, ne_eq]
    rw [Bool.and_comm]

theorem mem_cleanupLocalBackups {k : Nat} {dir : List DirEntry} {e : DirEntry} :
    e ∈ cleanupLocalBackups k dir ↔
      e ∈ dir ∧ e.name ∉ (filesToDelete k dir).map DirEntry.name := by
  simp [cleanupLocalBackups, foldl_remove_eq_filter]

theorem sortedFiles_perm (dir : List DirEntry) : (sortedFiles dir).Perm (backupFiles dir) :=
  List.perm_insertionSort _ _

theorem sortedFiles_sorted (dir : List DirEntry) :
    (sortedFiles dir).Sorted (fun a b => a.birthtime ≤ b.birthtime) :=
  haveI : IsTotal DirEntry (fun a b => a.birthtime ≤ b.birthtime) :=
    ⟨fun a b => le_total a.birthtime b.birthtime⟩
  haveI : IsTrans DirEntry (fun a b => a.birthtime ≤ b.birthtime) :=
    ⟨fun _ _ _ h1 h2 => le_trans h1 h2⟩
  List.sorted_insertionSort _ _

theorem filesToDelete_subset (k : Nat) (dir : List DirEntry) :
    filesToDelete k dir ⊆ backupFiles dir := by
  intro e he
  unfold filesToDelete at he
  split_ifs at he
  · exact (sortedFiles_perm dir).subset (List.mem_of_mem_take he)
  · simp at he

theorem backupFiles_subset (dir : List DirEntry) : backupFiles dir ⊆ dir :=
  (List.filter_sublist _).subset

theorem eq_of_name_eq {dir : List DirEntry} (h : (dir.map DirEntry.name).Nodup)
    {a b : DirEntry} (ha : a ∈ dir) (hb : b ∈ dir) (hab : a.name = b.name) : a = b :=
  List.inj_on_of_nodup_map h ha hb hab

theorem le_of_mem_filesToDelete {k : Nat} {dir : List DirEntry} {d c : DirEntry}
    (hd : d ∈ filesToDelete k dir) (hc : c ∈ backupFiles dir) (hcd : c ∉ filesToDelete k dir) :
    d.birthtime ≤ c.birthtime := by
  unfold filesToDelete at hd hcd
  split_ifs at hd hcd with hlen
  · have hc1 : c ∈ sortedFiles dir := (sortedFiles_perm dir).symm.subset hc
    rw [← List.take_append_drop ((backupFiles dir).length - k) (sortedFiles dir)] at hc1
    rcases List.mem_append.1 hc1 with h | h
    · exact absurd h hcd
    · exact (sortedFiles_sorted dir).rel_of_mem_take_of_mem_drop hd h
  · simp at hd

theorem readdir_perm (order : List Char → Nat) (dir : List DirEntry) :
    (readdir order dir).Perm dir :=
  List.perm_insertionSort _ _

theorem sortedFiles_eq_of_perm {d1 d2 : List DirEntry} (hp : d1.Perm d2)
    (hdistinct : ((backupFiles d1).map DirEntry.birthtime).Nodup) :
    sortedFiles d1 = sortedFiles d2 := by
  have hbf : (backupFiles d1).Perm (backupFiles d2) := hp.filter _
  have hs : (sortedFiles d1).Perm (sortedFiles d2) :=
    (sortedFiles_perm d1).trans (hbf.trans (sortedFiles_perm d2).symm)
  have strict : ∀ d : List DirEntry, ((backupFiles d).map DirEntry.birthtime).Nodup →
      (sortedFiles d).Sorted (fun a b => a.birthtime < b.birthtime) := by
    intro d hd
    have hnd : ((sortedFiles d).map DirEntry.birthtime).Nodup :=
      ((sortedFiles_perm d).map _).nodup_iff.2 hd
    have hne : (sortedFiles d).Pairwise (fun a b => a.birthtime ≠ b.birthtime) := by
      rw [List.Nodup, List.pairwise_map] at hnd
      exact hnd
    exact ((sortedFiles_sorted d).and hne).imp (fun h => lt_of_le_of_ne h.1 h.2)
  haveI : IsAntisymm DirEntry (fun a b => a.birthtime < b.birthtime) :=
    ⟨fun a b h1 h2 => absurd h1 (not_lt.2 (le_of_lt h2))⟩
  exact List.eq_of_perm_of_sorted hs (strict d1 hdistinct)
    (strict d2 ((hbf.map _).nodup_iff.1 hdistinct))

/-- Two listings of the same entries, whose candidates have pairwise distinct
creation times, give the same files to delete and leave the same entries. -/
theorem cleanupLocalBackups_perm (k : Nat) {d1 d2 : List DirEntry} (hp : d1.Perm d2)
    (hdistinct : ((backupFiles d1).map DirEntry.birthtime).Nodup) :
    filesToDelete k d1 = filesToDelete k d2 ∧
      (cleanupLocalBackups k d1).Perm (cleanupLocalBackups k d2) := by
  have hlen : (backupFiles d1).length = (backupFiles d2).length := (hp.filter _).length_eq
  have hdel : filesToDelete k d1 = filesToDelete k d2 := by
    unfold filesToDelete
    rw [sortedFiles_eq_of_perm hp hdistinct, hlen]
  refine ⟨hdel, ?_⟩
  unfold cleanupLocalBackups
  rw [foldl_remove_eq_filter, foldl_remove_eq_filter, hdel]
  exact hp.filter _

/-- C2. For a backup directory whose candidate files have pairwise distinct
birth times and number more than `keepLocalCopies = k`, `cleanupLocalBackups`
deletes exactly `count - k` candidates, the directory loses them and nothing
else, and every deleted candidate is older than every candidate that is kept. -/
theorem cleanupLocalBackups_deletes_oldest (k : Nat) (dir : List DirEntry)
    (hnames : (dir.map DirEntry.name).Nodup)
    (hdistinct : ((backupFiles dir).map DirEntry.birthtime).Nodup)
    (hk : 1 ≤ k) (hcount : (backupFiles dir).length > k) :
    (filesToDelete k dir).length = (backupFiles dir).length - k ∧
      (filesToDelete k dir).Nodup ∧
      filesToDelete k dir ⊆ backupFiles dir ∧
      (∀ e, e ∈ cleanupLocalBackups k dir ↔ e ∈ dir ∧ e ∉ filesToDelete k dir) ∧
      (∀ d ∈ filesToDelete k dir, ∀ c ∈ backupFiles dir, c ∉ filesToDelete k dir →
        d.birthtime < c.birthtime) := by
  have hsub := filesToDelete_subset k dir
  refine ⟨?_, ?_, hsub, ?_, ?_⟩
  · have hlen : (sortedFiles dir).length = (backupFiles dir).length :=
      (sortedFiles_perm dir).length_eq
    simp only [filesToDelete, hcount, if_true, List.length_take, hlen]
    omega
  · have hnd : (sortedFiles dir).Nodup :=
      (sortedFiles_perm dir).nodup_iff.2 (List.Nodup.of_map _ hdistinct)
    simp only [filesToDelete, hcount, if_true]
    exact hnd.sublist (List.take_sublist _ _)
  · intro e
    rw [mem_cleanupLocalBackups]
    constructor
    · rintro ⟨he, hn⟩
      exact ⟨he, fun h => hn (List.mem_map_of_mem _ h)⟩
    · rintro ⟨he, hn⟩
      refine ⟨he, fun h => ?_⟩
      obtain ⟨d, hd, hde⟩ := List.mem_map.1 h
      have := eq_of_name_eq hnames (backupFiles_subset dir (hsub hd)) he hde
      exact hn (this ▸ hd)
  · intro d hd c hc hcd
    have hle := le_of_mem_filesToDelete hd hc hcd
    have hne : d.birthtime ≠ c.birthtime := fun h =>
      hcd (List.inj_on_of_nodup_map hdistinct (hsub hd) hc h ▸ hd)
    omega

theorem cleanupLocalBackups_deletes_oldest_witness :
    (filesToDelete 1 [⟨['a', '.', 'z', 'i', 'p'], 30⟩, ⟨['n', 'o', 't', 'e'], 5⟩,
        ⟨['b', '.', 'z', 'i', 'p'], 10⟩, ⟨['c', '.', 'z', 'i', 'p'], 20⟩]).length = 3 - 1 ∧
      cleanupLocalBackups 1 [⟨['a', '.', 'z', 'i', 'p'], 30⟩, ⟨['n', 'o', 't', 'e'], 5⟩,
        ⟨['b', '.', 'z', 'i', 'p'], 10⟩, ⟨['c', '.', 'z', 'i', 'p'], 20⟩]
        = [⟨['a', '.', 'z', 'i', 'p'], 30⟩, ⟨['n', 'o', 't', 'e'], 5⟩] := by
  have h := cleanupLocalBackups_deletes_oldest 1
    [⟨['a', '.', 'z', 'i', 'p'], 30⟩, ⟨['n', 'o', 't', 'e'], 5⟩,
      ⟨['b', '.', 'z', 'i', 'p'], 10⟩, ⟨['c', '.', 'z', 'i', 'p'], 20⟩]
    (by decide) (by decide) (by decide) (by decide)
  exact ⟨h.1, by decide⟩

/-! ## The pipeline and the backup directory -/

theorem includes_append (pattern rest : List Char) : includes (pattern ++ rest) pattern = true := by
  cases h : pattern ++ rest with
  | nil =>
    have : pattern = [] := (List.append_eq_nil.1 h).1
    subst this
    rfl
  | cons c cs =>
    rw [includes, ← h, Bool.or_eq_true]
    exact Or.inl (List.isPrefixOf_iff_prefix.2 (List.prefix_append _ _))

theorem isBackupFile_finalBackupName (cfg : BackupConfig) (now : Int) :
    isBackupFile (finalBackupName cfg now) = true := by
  unfold isBackupFile finalBackupName backupName
  rw [Bool.or_eq_true]
  right
  split_ifs
  · rw [List.append_assoc]; exact includes_append _ _
  · exact includes_append _ _

theorem isoYear_length (y : Int) : (isoYear y).length = 4 ∨ (isoYear y).length = 7 := by
  unfold isoYear
  split_ifs <;> simp [pad4, pad6]

theorem backupName_length (t : Int) :
    (backupName t).length = 41 ∨ (backupName t).length = 44 := by
  unfold backupName
  rw [timestamp_eq]
  rcases isoYear_length (YearFromTime t) with h | h <;>
    simp [backupPrefix, pad2, pad3, h]

theorem backupName_ne_zip (s t : Int) : backupName s ≠ backupName t ++ zipSuffix := by
  intro h
  have hl := congrArg List.length h
  rw [List.length_append] at hl
  have : zipSuffix.length = 4 := rfl
  rcases backupName_length s with h1 | h1 <;> rcases backupName_length t with h2 | h2 <;> omega

/-- An entry that is the newest of a well-formed directory survives the
retention pass as soon as one copy is kept. -/
theorem newest_mem_cleanupLocalBackups {k : Nat} {dir : List DirEntry} {a : DirEntry}
    (hk : 1 ≤ k) (hnames : (dir.map DirEntry.name).Nodup) (ha : a ∈ dir)
    (hnew : ∀ e ∈ dir, e ≠ a → e.birthtime < a.birthtime) :
    a ∈ cleanupLocalBackups k dir := by
  rw [mem_cleanupLocalBackups]
  refine ⟨ha, fun h => ?_⟩
  obtain ⟨d, hd, hda⟩ := List.mem_map.1 h
  have hsub := filesToDelete_subset k dir
  have hd2 : d = a := eq_of_name_eq hnames (backupFiles_subset dir (hsub hd)) ha hda
  subst hd2
  have hmem := hd
  unfold filesToDelete at hmem
  split_ifs at hmem with hlen
  · have hslen : (sortedFiles dir).length = (backupFiles dir).length :=
      (sortedFiles_perm dir).length_eq
    have hnd : (sortedFiles dir).Nodup :=
      (sortedFiles_perm dir).nodup_iff.2
        ((List.Nodup.of_map _ hnames).sublist (List.filter_sublist _))
    have hdrop : (sortedFiles dir).drop ((backupFiles dir).length - k) ≠ [] := by
      intro h0
      have := congrArg List.length h0
      simp only [List.length_drop, List.length_nil] at this
      omega
    obtain ⟨x, hx⟩ := List.exists_mem_of_ne_nil _ hdrop
    have hle := (sortedFiles_sorted dir).rel_of_mem_take_of_mem_drop hmem hx
    have hxdir : x ∈ dir :=
      backupFiles_subset dir ((sortedFiles_perm dir).subset (List.mem_of_mem_drop hx))
    have hxa : x = d := by
      by_contra hne
      have := hnew x hxdir hne
      omega
    subst hxa
    rw [← List.take_append_drop ((backupFiles dir).length - k) (sortedFiles dir)] at hnd
    exact (List.disjoint_of_nodup_append hnd) hmem hx
  · simp at hmem

theorem names_nodup_ensureEntry {dir : List DirEntry} (h : (dir.map DirEntry.name).Nodup)
    (name : List Char) (created : Int) :
    ((ensureEntry dir name created).map DirEntry.name).Nodup := by
  unfold ensureEntry
  split_ifs with hmem
  · exact h
  · rw [List.map_append, List.map_singleton]
    exact List.Nodup.append h (List.nodup_singleton _)
      (List.disjoint_singleton.2 hmem)

theorem names_nodup_remove {dir : List DirEntry} (h : (dir.map DirEntry.name).Nodup)
    (name : List Char) : ((remove dir name).map DirEntry.name).Nodup :=
  h.sublist ((List.filter_sublist _).map _)

theorem name_mem_ensureEntry (dir : List DirEntry) (name : List Char) (created : Int) :
    name ∈ (ensureEntry dir name created).map DirEntry.name := by
  unfold ensureEntry
  split_ifs with hmem
  · exact hmem
  · simp

theorem names_nodup_localBackupCreated (cfg : BackupConfig) (env : RunEnv)
    {dir : List DirEntry} (h : (dir.map DirEntry.name).Nodup) :
    ((localBackupCreated cfg env dir).map DirEntry.name).Nodup := by
  unfold localBackupCreated
  split_ifs
  · exact names_nodup_remove (names_nodup_ensureEntry (names_nodup_ensureEntry h _ _) _ _) _
  · exact names_nodup_ensureEntry h _ _

theorem finalBackupName_mem_localBackupCreated (cfg : BackupConfig) (env : RunEnv)
    (dir : List DirEntry) :
    finalBackupName cfg env.now ∈ (localBackupCreated cfg env dir).map DirEntry.name := by
  unfold localBackupCreated finalBackupName
  split_ifs
  · obtain ⟨a, ha, hn⟩ := List.mem_map.1
      (name_mem_ensureEntry (ensureEntry dir (backupName env.now) env.created)
        (backupName env.now ++ zipSuffix) env.created)
    refine List.mem_map.2 ⟨a, ?_, hn⟩
    unfold remove
    rw [List.mem_filter]
    refine ⟨ha, ?_⟩
    rw [hn]
    exact decide_eq_true (fun h => backupName_ne_zip _ _ h.symm)
  · exact name_mem_ensureEntry _ _ _

theorem createBackup_dir_of_success (cfg : BackupConfig) (backupDir : List Char) (env : RunEnv)
    (c : CloudEnv) (dir : List DirEntry) (hdb : env.dbExists = true)
    (hsnap : env.snapshotError = none) (hcomp : env.compressError = none) :
    (createBackup cfg backupDir env c dir).dir
      = cleanupLocalBackups cfg.keepLocalCopies
          (readdir env.readdirOrder (localBackupCreated cfg env dir)) := by
  simp [createBackup, hdb, hsnap, hcomp]

/-- C5. When at least one local copy is kept and every other entry of the
backup directory was created earlier than the artifact a `createBackup` run
has just produced, that artifact is still in the directory after the run,
whatever the cloud leg did. -/
theorem createBackup_keeps_new_artifact (cfg : BackupConfig) (backupDir : List Char)
    (env : RunEnv) (c : CloudEnv) (dir : List DirEntry)
    (hk : 1 ≤ cfg.keepLocalCopies) (hnames : (dir.map DirEntry.name).Nodup)
    (hdb : env.dbExists = true) (hsnap : env.snapshotError = none)
    (hcomp : env.compressError = none)
    (hold : ∀ a ∈ localBackupCreated cfg env dir, a.name = finalBackupName cfg env.now →
      ∀ e ∈ localBackupCreated cfg env dir, e.name ≠ finalBackupName cfg env.now →
        e.birthtime < a.birthtime) :
    finalBackupName cfg env.now ∈ (createBackup cfg backupDir env c dir).dir.map DirEntry.name := by
  rw [createBackup_dir_of_success cfg backupDir env c dir hdb hsnap hcomp]
  obtain ⟨a, ha, hn⟩ := List.mem_map.1 (finalBackupName_mem_localBackupCreated cfg env dir)
  have hp := readdir_perm env.readdirOrder (localBackupCreated cfg env dir)
  have hnd := names_nodup_localBackupCreated cfg env hnames
  refine List.mem_map.2
    ⟨a, newest_mem_cleanupLocalBackups hk ((hp.map _).nodup_iff.2 hnd) (hp.symm.subset ha) ?_,
      hn⟩
  intro e he hne
  refine hold a ha hn e (hp.subset he) (fun h => hne ?_)
  exact eq_of_name_eq hnd (hp.subset he) ha (h.trans hn.symm)

theorem createBackup_keeps_new_artifact_witness :
    finalBackupName (keepLocal 1) 1000 ∈
      (createBackup (keepLocal 1) backupsDir (goodRun 1000 70) cloudUploadFails
        [⟨oldZip, 50⟩, ⟨backupName 0 ++ zipSuffix, 60⟩]).dir.map DirEntry.name :=
  createBackup_keeps_new_artifact (keepLocal 1) backupsDir (goodRun 1000 70) cloudUploadFails
    [⟨oldZip, 50⟩, ⟨backupName 0 ++ zipSuffix, 60⟩] (by decide) (by decide) rfl rfl rfl
    (by decide)

theorem filter_not_mem_append (A B : List DirEntry)
    (h : ((A ++ B).map DirEntry.name).Nodup) :
    (A ++ B).filter (fun e => decide (e.name ∉ A.map DirEntry.name)) = B := by
  rw [List.filter_append]
  have hA : A.filter (fun e => decide (e.name ∉ A.map DirEntry.name)) = [] := by
    rw [List.filter_eq_nil_iff]
    intro e he
    simp only [decide_eq_true_eq, not_not]
    exact List.mem_map_of_mem _ he
  have hB : B.filter (fun e => decide (e.name ∉ A.map DirEntry.name)) = B := by
    rw [List.filter_eq_self]
    intro e he
    simp only [decide_eq_true_eq]
    rw [List.map_append] at h
    exact fun hmem => (List.disjoint_of_nodup_append h) hmem (List.mem_map_of_mem _ he)
  rw [hA, hB, List.nil_append]

/-- On a directory of backup files listed oldest first, the retention pass
keeps the last `k` entries. -/
theorem cleanupLocalBackups_sorted (k : Nat) (L : List DirEntry)
    (hb : ∀ e ∈ L, isBackupFile e.name = true) (hn : (L.map DirEntry.name).Nodup)
    (hs : L.Pairwise (fun a b => a.birthtime < b.birthtime)) :
    cleanupLocalBackups k L = L.drop (L.length - k) := by
  have hbf : backupFiles L = L := List.filter_eq_self.2 hb
  have hsf : sortedFiles L = L := by
    unfold sortedFiles
    rw [hbf]
    exact List.Sorted.insertionSort_eq (hs.imp (fun h => le_of_lt h))
  have hdel : filesToDelete k L = L.take (L.length - k) := by
    unfold filesToDelete
    rw [hbf, hsf]
    split_ifs with h
    · rfl
    · have : L.length - k = 0 := by omega
      rw [this, List.take_zero]
  unfold cleanupLocalBackups
  rw [foldl_remove_eq_filter, hdel]
  have := filter_not_mem_append (L.take (L.length - k)) (L.drop (L.length - k))
    (by rw [List.take_append_drop]; exact hn)
  rw [List.take_append_drop] at this
  exact this

theorem localBackupCreated_fresh (cfg : BackupConfig) (env : RunEnv) (c : CloudEnv)
    (dir : List DirEntry) (h1 : backupName env.now ∉ dir.map DirEntry.name)
    (h2 : finalBackupName cfg env.now ∉ dir.map DirEntry.name) :
    localBackupCreated cfg env dir = dir ++ [artifact cfg (env, c)] := by
  have hdir : dir.filter (fun e => decide (e.name ≠ backupName env.now)) = dir := by
    rw [List.filter_eq_self]
    intro e he
    simp only [decide_eq_true_eq]
    exact fun h => h1 (h ▸ List.mem_map_of_mem _ he)
  unfold localBackupCreated artifact
  unfold finalBackupName at h2 ⊢
  split_ifs with hc
  · rw [if_pos hc] at h2
    have hz : backupName env.now ++ zipSuffix ≠ backupName env.now :=
      fun h => backupName_ne_zip _ _ h.symm
    have e1 : ensureEntry dir (backupName env.now) env.created
        = dir ++ [⟨backupName env.now, env.created⟩] := by
      unfold ensureEntry; rw [if_neg h1]
    have e2 : ensureEntry (dir ++ [⟨backupName env.now, env.created⟩])
        (backupName env.now ++ zipSuffix) env.created
        = dir ++ [⟨backupName env.now, env.created⟩] ++
            [⟨backupName env.now ++ zipSuffix, env.created⟩] := by
      unfold ensureEntry
      rw [if_neg]
      simp only [List.map_append, List.map_singleton, List.mem_append, List.mem_singleton]
      exact fun h => h.elim h2 hz
    simp only [e1, e2]
    unfold remove
    rw [List.filter_append, List.filter_append, hdir]
    simp [hz]
  · unfold ensureEntry
    rw [if_neg h1]

/-! ## Retention over a sequence of runs -/

theorem finalBackupName_injective (cfg : BackupConfig) {s t : Int}
    (h : finalBackupName cfg s = finalBackupName cfg t) : backupName s = backupName t := by
  unfold finalBackupName at h
  split_ifs at h
  · exact List.append_cancel_right h
  · exact h

theorem backupName_ne_finalBackupName (cfg : BackupConfig) {s t : Int}
    (h : backupName s ≠ backupName t) : backupName s ≠ finalBackupName cfg t := by
  unfold finalBackupName
  split_ifs
  · exact backupName_ne_zip s t
  · exact h

theorem map_name_artifact (cfg : BackupConfig) (runs : List (RunEnv × CloudEnv)) :
    (runs.map (artifact cfg)).map DirEntry.name
      = runs.map (fun r => finalBackupName cfg r.1.now) := by
  rw [List.map_map]; rfl

theorem artifacts_names_nodup (cfg : BackupConfig) {runs : List (RunEnv × CloudEnv)}
    (h : (runs.map (fun r => backupName r.1.now)).Nodup) :
    ((runs.map (artifact cfg)).map DirEntry.name).Nodup := by
  rw [map_name_artifact]
  have : runs.map (fun r => finalBackupName cfg r.1.now)
      = (runs.map (fun r => backupName r.1.now)).map
          (fun n => if cfg.compressBackups then n ++ zipSuffix else n) := by
    rw [List.map_map]; rfl
  rw [this]
  refine List.Nodup.map ?_ h
  intro a b hab
  simp only at hab
  split_ifs at hab
  · exact List.append_cancel_right hab
  · exact hab

/-- One successful run on a directory holding the latest artifacts of the
runs before it, whatever the order in which the directory is listed. -/
theorem createBackup_step (cfg : BackupConfig) (backupDir : List Char)
    (done : List (RunEnv × CloudEnv)) (r : RunEnv × CloudEnv) (dir : List DirEntry)
    (hdir : dir.Perm ((done.map (artifact cfg)).drop (done.length - cfg.keepLocalCopies)))
    (hok : r.1.dbExists = true ∧ r.1.snapshotError = none ∧ r.1.compressError = none)
    (hnames : ((done ++ [r]).map (fun r => backupName r.1.now)).Nodup)
    (hcreated : ((done ++ [r]).map (fun r => r.1.created)).Pairwise (· < ·)) :
    (createBackup cfg backupDir r.1 r.2 dir).dir.Perm
      (((done ++ [r]).map (artifact cfg)).drop
          ((done ++ [r]).length - cfg.keepLocalCopies)) := by
  obtain ⟨hdb, hsnap, hcomp⟩ := hok
  rw [createBackup_dir_of_success cfg backupDir r.1 r.2 _ hdb hsnap hcomp]
  have hnd := artifacts_names_nodup cfg hnames
  have hrnot : ∀ q ∈ done, backupName r.1.now ≠ backupName q.1.now := by
    intro q hq heq
    rw [List.map_append, List.nodup_append] at hnames
    exact hnames.2.2 (List.mem_map.2 ⟨q, hq, rfl⟩) (by simp [heq])
  have hsub : ∀ n ∈ dir.map DirEntry.name, ∃ q ∈ done, n = finalBackupName cfg q.1.now := by
    intro n hn
    obtain ⟨e, he, rfl⟩ := List.mem_map.1 hn
    obtain ⟨q, hq, rfl⟩ := List.mem_map.1 (List.mem_of_mem_drop (hdir.subset he))
    exact ⟨q, hq, rfl⟩
  have h1 : backupName r.1.now ∉ dir.map DirEntry.name := by
    intro hmem
    obtain ⟨q, hq, hn⟩ := hsub _ hmem
    exact backupName_ne_finalBackupName cfg (hrnot q hq) hn
  have h2 : finalBackupName cfg r.1.now ∉ dir.map DirEntry.name := by
    intro hmem
    obtain ⟨q, hq, hn⟩ := hsub _ hmem
    exact hrnot q hq (finalBackupName_injective cfg hn)
  rw [localBackupCreated_fresh cfg r.1 r.2 _ h1 h2]
  have hL : (done.map (artifact cfg)).drop (done.length - cfg.keepLocalCopies)
      ++ [artifact cfg (r.1, r.2)]
      = ((done ++ [r]).map (artifact cfg)).drop (done.length - cfg.keepLocalCopies) := by
    rw [List.map_append, List.drop_append_of_le_length (by simp)]
    rfl
  have hsorted : (((done ++ [r]).map (artifact cfg)).drop
      (done.length - cfg.keepLocalCopies)).Pairwise (fun a b => a.birthtime < b.birthtime) := by
    have : ((done ++ [r]).map (artifact cfg)).Pairwise
        (fun a b => a.birthtime < b.birthtime) := by
      rw [List.pairwise_map] at hcreated ⊢
      exact hcreated
    exact this.sublist (List.drop_sublist _ _)
  have hp : (((done ++ [r]).map (artifact cfg)).drop (done.length - cfg.keepLocalCopies)).Perm
      (readdir r.1.readdirOrder (dir ++ [artifact cfg (r.1, r.2)])) := by
    rw [← hL]
    exact ((readdir_perm _ _).trans (hdir.append_right _)).symm
  have hdistinct : ((backupFiles (((done ++ [r]).map (artifact cfg)).drop
      (done.length - cfg.keepLocalCopies))).map DirEntry.birthtime).Nodup := by
    have hnodup : ((((done ++ [r]).map (artifact cfg)).drop
        (done.length - cfg.keepLocalCopies)).map DirEntry.birthtime).Nodup := by
      rw [List.Nodup, List.pairwise_map]
      exact hsorted.imp (fun h => ne_of_lt h)
    exact hnodup.sublist ((List.filter_sublist _).map _)
  refine (cleanupLocalBackups_perm cfg.keepLocalCopies hp hdistinct).2.symm.trans ?_
  rw [cleanupLocalBackups_sorted]
  · rw [List.drop_drop, List.length_drop, List.length_map, List.length_append,
      List.length_singleton]
    have : done.length - cfg.keepLocalCopies +
        (done.length + 1 - (done.length - cfg.keepLocalCopies) - cfg.keepLocalCopies)
        = done.length + 1 - cfg.keepLocalCopies := by omega
    rw [this]
  · intro e he
    obtain ⟨q, _, rfl⟩ := List.mem_map.1 (List.mem_of_mem_drop he)
    exact isBackupFile_finalBackupName cfg q.1.now
  · exact hnd.sublist ((List.drop_sublist _ _).map _)
  · exact hsorted

theorem runBackups_from (cfg : BackupConfig) (backupDir : List Char)
    (rest done : List (RunEnv × CloudEnv)) (dir : List DirEntry)
    (hdir : dir.Perm ((done.map (artifact cfg)).drop (done.length - cfg.keepLocalCopies)))
    (hok : ∀ r ∈ rest, r.1.dbExists = true ∧ r.1.snapshotError = none ∧
      r.1.compressError = none)
    (hnames : ((done ++ rest).map (fun r => backupName r.1.now)).Nodup)
    (hcreated : ((done ++ rest).map (fun r => r.1.created)).Pairwise (· < ·)) :
    (runBackups cfg backupDir rest dir).Perm
      (((done ++ rest).map (artifact cfg)).drop
          ((done ++ rest).length - cfg.keepLocalCopies)) := by
  induction rest generalizing done dir with
  | nil => simpa [runBackups] using hdir
  | cons r rest ih =>
    have happ : done ++ r :: rest = (done ++ [r]) ++ rest := by simp
    rw [happ] at hnames hcreated ⊢
    obtain ⟨env, c⟩ := r
    unfold runBackups
    exact ih (done ++ [(env, c)]) _
      (createBackup_step cfg backupDir done (env, c) dir hdir (hok _ (List.mem_cons_self _ _))
        (by rw [List.map_append] at hnames; exact (List.nodup_append.1 hnames).1)
        (by rw [List.map_append] at hcreated; exact (List.pairwise_append.1 hcreated).1))
      (fun q hq => hok q (List.mem_cons_of_mem _ hq)) hnames hcreated

/-- C1. Starting from an empty backup directory, after `n ≥ k` successful
`createBackup` runs with `keepLocalCopies = k ≥ 1`, distinct artifact names
(runs started at distinct milliseconds) and strictly increasing creation
times, the directory holds exactly `k` entries: the artifacts of the last `k`
runs, in whatever order `fs.readdir` lists the directory in each run. -/
theorem runBackups_keeps_latest (cfg : BackupConfig) (backupDir : List Char)
    (runs : List (RunEnv × CloudEnv))
    (hk : 1 ≤ cfg.keepLocalCopies) (hn : cfg.keepLocalCopies ≤ runs.length)
    (hok : ∀ r ∈ runs, r.1.dbExists = true ∧ r.1.snapshotError = none ∧
      r.1.compressError = none)
    (hnames : (runs.map (fun r => backupName r.1.now)).Nodup)
    (hcreated : (runs.map (fun r => r.1.created)).Pairwise (· < ·)) :
    (runBackups cfg backupDir runs []).Perm
        ((runs.drop (runs.length - cfg.keepLocalCopies)).map (artifact cfg)) ∧
      (runBackups cfg backupDir runs []).length = cfg.keepLocalCopies := by
  have h := runBackups_from cfg backupDir runs [] [] (by simp) hok (by simpa using hnames)
    (by simpa using hcreated)
  simp only [List.nil_append] at h
  rw [← List.map_drop] at h
  refine ⟨h, ?_⟩
  rw [h.length_eq, List.length_map, List.length_drop]
  omega

theorem runBackups_keeps_latest_witness :
    (runBackups (keepLocal 2) backupsDir
        [(goodRunListed 0 10 newestFirst, cloudOffline),
          (goodRunListed 1000 20 newestFirst, cloudUploadFails),
          (goodRunListed 2000 30 newestFirst, cloudOffline)] []).Perm
      [⟨backupName 1000 ++ zipSuffix, 20⟩, ⟨backupName 2000 ++ zipSuffix, 30⟩] ∧
    readdir newestFirst [⟨backupName 0 ++ zipSuffix, 10⟩, ⟨backupName 1000 ++ zipSuffix, 20⟩,
        ⟨backupName 2000 ++ zipSuffix, 30⟩]
      = [⟨backupName 2000 ++ zipSuffix, 30⟩, ⟨backupName 1000 ++ zipSuffix, 20⟩,
        ⟨backupName 0 ++ zipSuffix, 10⟩] :=
  ⟨(runBackups_keeps_latest (keepLocal 2) backupsDir
    [(goodRunListed 0 10 newestFirst, cloudOffline),
      (goodRunListed 1000 20 newestFirst, cloudUploadFails),
      (goodRunListed 2000 30 newestFirst, cloudOffline)]
    (by decide) (by decide) (by decide) (by decide) (by decide)).1, by decide⟩
/-! ## Remote retention -/

theorem foldl_filesDelete_eq_filter (l : List DriveFile) (folder : List DriveFile) :
    l.foldl (fun f file => filesDelete f file.id) folder
      = folder.filter (fun f => decide (f.id ∉ l.map DriveFile.id)) := by
  induction l generalizing folder with
  | nil => simp
  | cons a l ih =>
    rw [List.foldl_cons, ih, filesDelete, List.filter_filter]
    congr 1
    funext e
    simp only [List.map_cons, List.mem_cons, not_or, Bool.decide_and, ne_eq]
    rw [Bool.and_comm]

theorem filesList_sorted (folder : List DriveFile) (pageSize : Nat) :
    (filesList folder pageSize).Sorted (fun a b => a.createdTime ≥ b.createdTime) :=
  haveI : IsTotal DriveFile (fun a b => a.createdTime ≥ b.createdTime) :=
    ⟨fun a b => le_total b.createdTime a.createdTime⟩
  haveI : IsTrans DriveFile (fun a b => a.createdTime ≥ b.createdTime) :=
    ⟨fun _ _ _ h1 h2 => le_trans h2 h1⟩
  (List.sorted_insertionSort _ _).sublist (List.take_sublist _ _)

theorem filesList_subset (folder : List DriveFile) (pageSize : Nat) :
    filesList folder pageSize ⊆ folder := fun _ h =>
  (List.perm_insertionSort _ _).subset (List.mem_of_mem_take h)

/-- C3. For a Drive folder whose files have distinct ids and pairwise
distinct creation times, when the listing returns `n > keepCount` files,
`cleanupOldBackups` deletes exactly the `n - keepCount` files at the end of the
listing, the folder loses them and nothing else, the `keepCount` files of the
listing that are left are those at its head, and each of them is newer than
every deleted file. -/
theorem cleanupOldBackups_deletes_oldest (folder : List DriveFile) (pageSize keepCount : Nat)
    (hids : (folder.map DriveFile.id).Nodup)
    (hdistinct : (folder.map DriveFile.createdTime).Nodup)
    (hn : (listBackupFiles true folder pageSize).length > keepCount) :
    (remoteFilesToDelete true folder pageSize keepCount).length
        = (listBackupFiles true folder pageSize).length - keepCount ∧
      listBackupFiles true folder pageSize
        = (listBackupFiles true folder pageSize).take keepCount
            ++ remoteFilesToDelete true folder pageSize keepCount ∧
      ((listBackupFiles true folder pageSize).take keepCount).length = keepCount ∧
      (∀ f, f ∈ cleanupOldBackups true folder pageSize keepCount ↔
        f ∈ folder ∧ f ∉ remoteFilesToDelete true folder pageSize keepCount) ∧
      (∀ d ∈ remoteFilesToDelete true folder pageSize keepCount,
        ∀ r ∈ (listBackupFiles true folder pageSize).take keepCount,
          d.createdTime < r.createdTime) := by
  have hdel : remoteFilesToDelete true folder pageSize keepCount
      = (listBackupFiles true folder pageSize).drop keepCount := by
    simp only [remoteFilesToDelete, if_true, hn]
  have hfiles : listBackupFiles true folder pageSize = filesList folder pageSize := by
    simp [listBackupFiles]
  have hsub : listBackupFiles true folder pageSize ⊆ folder :=
    hfiles ▸ filesList_subset folder pageSize
  have hnd : (listBackupFiles true folder pageSize).Nodup := by
    rw [hfiles]
    exact ((List.perm_insertionSort _ _).nodup_iff.2 (List.Nodup.of_map _ hids)).sublist
      (List.take_sublist _ _)
  rw [hdel]
  refine ⟨?_, (List.take_append_drop _ _).symm, ?_, ?_, ?_⟩
  · rw [List.length_drop]
  · rw [List.length_take]; omega
  · intro f
    simp only [cleanupOldBackups, foldl_filesDelete_eq_filter, hdel, List.mem_filter,
      decide_eq_true_eq]
    constructor
    · rintro ⟨hf, hnot⟩
      exact ⟨hf, fun h => hnot (List.mem_map_of_mem _ h)⟩
    · rintro ⟨hf, hnot⟩
      refine ⟨hf, fun h => ?_⟩
      obtain ⟨d, hd, hdf⟩ := List.mem_map.1 h
      have := List.inj_on_of_nodup_map hids (hsub (List.mem_of_mem_drop hd)) hf hdf
      exact hnot (this ▸ hd)
  · intro d hd r hr
    have hge := (hfiles ▸ filesList_sorted folder pageSize :
      (listBackupFiles true folder pageSize).Sorted _).rel_of_mem_take_of_mem_drop hr hd
    have hne : d.createdTime ≠ r.createdTime := by
      intro h
      have hdr := List.inj_on_of_nodup_map hdistinct (hsub (List.mem_of_mem_drop hd))
        (hsub (List.mem_of_mem_take hr)) h
      rw [← List.take_append_drop keepCount (listBackupFiles true folder pageSize)] at hnd
      exact (List.disjoint_of_nodup_append hnd) hr (hdr ▸ hd)
    simp only [ge_iff_le] at hge
    omega

theorem cleanupOldBackups_deletes_oldest_witness :
    (remoteFilesToDelete true twelveFiles 100 10).length = 12 - 10 ∧
      (remoteFilesToDelete true twelveFiles 100 10).map DriveFile.id = [2, 1] ∧
      (cleanupOldBackups true twelveFiles 100 10).map DriveFile.id
        = [3, 12, 7, 5, 9, 4, 11, 6, 10, 8] :=
  ⟨(cleanupOldBackups_deletes_oldest twelveFiles 100 10 (by decide) (by decide)
      (by decide)).1, by decide, by decide⟩

/-! ## Cloud failure -/

/-- C4. In a run whose snapshot and compression stages succeed and whose call
of `uploadToGoogleDrive` throws, `createBackup` still runs `cleanupLocalBackups`
on the directory holding the new artifact and returns `success: true` with the
path and the name of the local artifact. -/
theorem createBackup_upload_throws (cfg : BackupConfig) (backupDir : List Char) (env : RunEnv)
    (c : CloudEnv) (dir : List DirEntry) (e : String)
    (hdb : env.dbExists = true) (hsnap : env.snapshotError = none)
    (hcomp : env.compressError = none)
    (hup : (createBackup cfg backupDir env c dir).cloud = some (.error e)) :
    (createBackup cfg backupDir env c dir).result
        = .success (pathJoin backupDir (finalBackupName cfg env.now))
            (finalBackupName cfg env.now) ∧
      (createBackup cfg backupDir env c dir).cleanedUp = true ∧
      (createBackup cfg backupDir env c dir).dir
        = cleanupLocalBackups cfg.keepLocalCopies
            (readdir env.readdirOrder (localBackupCreated cfg env dir)) ∧
      cfg.enabled = true ∧ c.isAuthenticated = true ∧
      uploadToGoogleDrive cfg c = .error e := by
  have hcloud : (createBackup cfg backupDir env c dir).cloud
      = if cfg.enabled && c.isAuthenticated then some (uploadToGoogleDrive cfg c) else none := by
    simp [createBackup, hdb, hsnap, hcomp]
  rw [hcloud] at hup
  refine ⟨by simp [createBackup, hdb, hsnap, hcomp], by simp [createBackup, hdb, hsnap, hcomp],
    createBackup_dir_of_success cfg backupDir env c dir hdb hsnap hcomp, ?_⟩
  split_ifs at hup with h
  rw [Bool.and_eq_true] at h
  exact ⟨h.1, h.2, Option.some.inj hup⟩

theorem createBackup_upload_throws_witness :
    (createBackup enabledConfig backupsDir (goodRun 1000 70) cloudUploadFails
        [⟨oldZip, 50⟩]).result
      = .success (pathJoin backupsDir (backupName 1000 ++ zipSuffix))
          (backupName 1000 ++ zipSuffix) :=
  (createBackup_upload_throws enabledConfig backupsDir (goodRun 1000 70) cloudUploadFails
    [⟨oldZip, 50⟩] "network error" rfl rfl rfl rfl).1

/-! ## The single timer -/

theorem NoTimer.singleTimer {m : Manager} (h : NoTimer m) : SingleTimer m := by
  intro i hi
  rw [h i] at hi
  exact absurd hi (by decide)

theorem noTimer_stopSchedule {m : Manager} (h : SingleTimer m) : NoTimer (stopSchedule m) := by
  intro i
  unfold stopSchedule
  cases hs : m.backupSchedule with
  | none =>
    simp only
    by_contra hr
    have := h i (by simpa using hr)
    rw [hs] at this
    exact absurd this (by simp)
  | some j =>
    simp only [stopTask]
    by_cases hij : j = i
    · subst hij
      rw [List.getElem?_modify_eq]
      cases m.tasks[j]? <;> simp
    · rw [List.getElem?_modify_ne _ _ hij]
      by_contra hr
      have := h i (by simpa using hr)
      rw [hs] at this
      exact hij (Option.some.inj this)

theorem stopSchedule_backupSchedule (m : Manager) :
    (stopSchedule m).backupSchedule = m.backupSchedule := by
  cases h : m.backupSchedule <;> simp [stopSchedule, h]

theorem stopSchedule_backupConfig (m : Manager) :
    (stopSchedule m).backupConfig = m.backupConfig := by
  cases h : m.backupSchedule <;> simp [stopSchedule, h]

theorem singleTimer_startScheduledBackups (valid : List Char → Bool) {m : Manager}
    (h : SingleTimer m) : SingleTimer (startScheduledBackups valid m).1 := by
  have h1 := noTimer_stopSchedule h
  unfold startScheduledBackups
  simp only
  split_ifs
  · intro i hi
    simp only at hi ⊢
    by_cases hlt : i < (stopSchedule m).tasks.length
    · rw [List.getElem?_append_left hlt] at hi
      rw [h1 i] at hi
      exact absurd hi (by decide)
    · by_cases heq : i = (stopSchedule m).tasks.length
      · rw [heq]
      · rw [List.getElem?_eq_none (by simp; omega)] at hi
        exact absurd hi (by decide)
  · exact h1.singleTimer
  · exact h1.singleTimer

theorem singleTimer_updateConfig (valid : List Char → Bool) {m : Manager}
    (h : SingleTimer m) (p : ConfigPatch) : SingleTimer (updateConfig valid m p).1 := by
  have h0 : SingleTimer (saveConfig { m with backupConfig := merge m.backupConfig p }) := h
  have h1 := noTimer_stopSchedule h0
  unfold updateConfig
  simp only
  split_ifs
  · exact singleTimer_startScheduledBackups valid h1.singleTimer
  · exact h1.singleTimer

theorem singleTimer_loadConfig {m : Manager} (h : SingleTimer m) : SingleTimer (loadConfig m) := by
  unfold loadConfig
  cases m.configFile <;> exact h

theorem singleTimer_initializeManager (valid : List Char → Bool) {m : Manager}
    (h : SingleTimer m) (g : Bool) : SingleTimer (initializeManager valid m g).1 := by
  have h1 := singleTimer_loadConfig h
  unfold initializeManager
  simp only
  split_ifs
  · have h2 : SingleTimer { loadConfig m with isInitialized := true } := h1
    have h3 := singleTimer_startScheduledBackups valid h2
    split <;> rename_i heq <;> rw [heq] at h3 <;> exact h3
  · exact h1
  · exact h1

theorem singleTimer_call (valid : List Char → Bool) {m : Manager} (h : SingleTimer m)
    (c : Call) : SingleTimer (m.call valid c) := by
  cases c with
  | init g => exact singleTimer_initializeManager valid h g
  | updateConfig p => exact singleTimer_updateConfig valid h p
  | startScheduledBackups => exact singleTimer_startScheduledBackups valid h

theorem singleTimer_calls (valid : List Char → Bool) (calls : List Call) {m : Manager}
    (h : SingleTimer m) : SingleTimer (m.calls valid calls) := by
  induction calls generalizing m with
  | nil => exact h
  | cons c cs ih => exact ih (singleTimer_call valid h c)

theorem singleTimer_fresh (configFile : Option ConfigPatch) :
    SingleTimer (Manager.fresh configFile) := by
  intro i hi
  simp [Manager.fresh] at hi

theorem mem_runningTasks {m : Manager} {i : Nat} :
    i ∈ runningTasks m ↔ (m.tasks[i]?).any CronTask.running = true := by
  unfold runningTasks
  rw [List.mem_filter, List.mem_range]
  constructor
  · exact fun h => h.2
  · intro h
    refine ⟨?_, h⟩
    by_contra hlt
    rw [List.getElem?_eq_none (by omega)] at h
    exact absurd h (by decide)

/-- C6. In every state reached from a fresh `BackupManager` by any sequence of
`initialize`, `updateConfig` and `startScheduledBackups` calls, at most one cron task
created by the manager is running, and a running task is the one
`backupSchedule` refers to. -/
theorem at_most_one_running_task (valid : List Char → Bool) (configFile : Option ConfigPatch)
    (calls : List Call) :
    (runningTasks ((Manager.fresh configFile).calls valid calls)).length ≤ 1 ∧
      ∀ i ∈ runningTasks ((Manager.fresh configFile).calls valid calls),
        ((Manager.fresh configFile).calls valid calls).backupSchedule = some i := by
  have h := singleTimer_calls valid calls (singleTimer_fresh configFile)
  have hall : ∀ i ∈ runningTasks ((Manager.fresh configFile).calls valid calls),
      ((Manager.fresh configFile).calls valid calls).backupSchedule = some i :=
    fun i hi => h i (mem_runningTasks.1 hi)
  refine ⟨?_, hall⟩
  have hnd : (runningTasks ((Manager.fresh configFile).calls valid calls)).Nodup :=
    (List.nodup_range _).sublist (List.filter_sublist _)
  cases hs : ((Manager.fresh configFile).calls valid calls).backupSchedule with
  | none =>
    have : runningTasks ((Manager.fresh configFile).calls valid calls) = [] := by
      apply List.eq_nil_iff_forall_not_mem.2
      intro i hi
      have := hall i hi
      rw [hs] at this
      exact absurd this (by simp)
    rw [this]; simp
  | some j =>
    have hsub : runningTasks ((Manager.fresh configFile).calls valid calls) ⊆ [j] := by
      intro i hi
      have := hall i hi
      rw [hs] at this
      rw [List.mem_singleton]
      exact (Option.some.inj this).symm
    exact (List.subperm_of_subset hnd hsub).length_le

/-! ## Executions in flight -/

/-- C7, as stated, fails: two manual triggers in a row leave two `createBackup`
executions in flight. -/
theorem not_at_most_one_execution :
    ¬ ∀ events : List Event, (events.foldl (deliver true true) []).length ≤ 1 :=
  fun h => absurd (h [.manualTrigger, .manualTrigger]) (by decide)

theorem deliver_trigger (compress upload : Bool) (inFlight : List Stage) (e : Event)
    (h : e = .manualTrigger ∨ e = .timerTick) :
    deliver compress upload inFlight e = inFlight ++ [Stage.pathExists] := by
  rcases h with rfl | rfl <;> rfl

/-- C7, amended. `createBackup` has no run-in-progress guard: every manual
trigger and every timer tick starts a new execution at once and leaves the
executions already in flight as they are, so a sequence of triggers adds as
many executions in flight as it has triggers. -/
theorem every_trigger_starts_execution (compress upload : Bool) (inFlight : List Stage)
    (events : List Event) (h : ∀ e ∈ events, e = .manualTrigger ∨ e = .timerTick) :
    events.foldl (deliver compress upload) inFlight
        = inFlight ++ List.replicate events.length Stage.pathExists ∧
      (events.foldl (deliver compress upload) inFlight).length
        = inFlight.length + events.length := by
  have key : events.foldl (deliver compress upload) inFlight
      = inFlight ++ List.replicate events.length Stage.pathExists := by
    induction events generalizing inFlight with
    | nil => simp
    | cons e es ih =>
      rw [List.foldl_cons, ih _ (fun x hx => h x (List.mem_cons_of_mem _ hx)),
        deliver_trigger _ _ _ _ (h e (List.mem_cons_self _ _)), List.length_cons,
        List.replicate_succ, List.append_assoc]
      rfl
  exact ⟨key, by rw [key, List.length_append, List.length_replicate]⟩

theorem every_trigger_starts_execution_witness :
    ([Event.manualTrigger, Event.timerTick, Event.manualTrigger].foldl (deliver true true)
        [Stage.uploadToGoogleDrive]).length = 1 + 3 :=
  (every_trigger_starts_execution true true [Stage.uploadToGoogleDrive]
    [Event.manualTrigger, Event.timerTick, Event.manualTrigger] (by decide)).2

/-! ## Artifact names are distinct -/

/-- C8. The artifact name of `createBackup`, `inventory_backup_` followed by the
ISO timestamp with `:` and `.` replaced by `-`, is injective in the start
instant at millisecond resolution: runs started at different time values get
different names. -/
theorem backupName_ne_of_ne (s t : Int) (hs : ValidTime s) (ht : ValidTime t) (h : s ≠ t) :
    backupName s ≠ backupName t :=
  fun heq => h (backupName_injective hs ht heq)

theorem backupName_ne_of_ne_witness : backupName 1700000000123 ≠ backupName 1700000000124 :=
  backupName_ne_of_ne 1700000000123 1700000000124 (by decide) (by decide) (by decide)

/-! ## The next backup time -/

theorem daysFromCivil_add (y m d k : Int) :
    daysFromCivil y m (d + k) = daysFromCivil y m d + k := by
  simp only [daysFromCivil]
  omega

/-- Whenever it returns a time, `getNextBackupTime` returns 02:00 local time of
the day after `now`. -/
theorem getNextBackupTime_eq (m : Manager) (tza : LocalTZA) (now : Int)
    (hs : m.backupSchedule.isSome = true) (he : m.backupConfig.enabled = true) :
    getNextBackupTime m tza now
      = some (MakeDate (Day (now + tza) + 1) (MakeTime 2 0 0 0) - tza) := by
  have h1 : MakeDay (YearFromTime (now + tza)) (MonthFromTime (now + tza))
      (DateFromTime (now + tza) + 1) = Day (now + tza) + 1 := by
    unfold MakeDay YearFromTime MonthFromTime DateFromTime
    have := (civilFromDays_spec (Day (now + tza))).1
    have h2 := daysFromCivil_add (civilFromDays (Day (now + tza))).1
      (civilFromDays (Day (now + tza))).2.1 1 ((civilFromDays (Day (now + tza))).2.2 - 1)
    rw [show (1 : Int) + ((civilFromDays (Day (now + tza))).2.2 - 1)
      = (civilFromDays (Day (now + tza))).2.2 by ring] at h2
    omega
  have h4 : Day (setDate (now + tza) (DateFromTime (now + tza) + 1)) = Day (now + tza) + 1 := by
    unfold setDate
    rw [h1]
    unfold MakeDate Day TimeWithinDay msPerDay
    omega
  cases hb : m.backupSchedule with
  | none => rw [hb] at hs; exact absurd hs (by decide)
  | some i =>
    simp only [getNextBackupTime, hb, he, Option.isNone_some, Bool.not_true, Bool.or_self,
      Bool.false_eq_true, if_false, setHours, h4]

/-- C9 at 01:00: with the policy enabled on `0 2 * * *` and the timer armed,
`getNextBackupTime` returns 02:00 of the next day, 25 hours later, while the
first 02:00 after `now` is one hour later on the same day. -/
theorem getNextBackupTime_at_one :
    armedManager.backupConfig.enabled = true ∧ armedManager.backupConfig.schedule = dailyAtTwo ∧
      runningTasks armedManager = [0] ∧ armedManager.backupSchedule = some 0 ∧
      getNextBackupTime armedManager 0 3600000 = some 93600000 ∧
      firstTwoAfter 0 3600000 = 7200000 := by
  decide

/-- C10 after `updateConfig({ enabled: true })` and `updateConfig({ schedule: '' })`:
no task is running, yet `getNextBackupTime` returns a time. The same happens
when the second call carries an expression that `cron.schedule` rejects. -/
theorem getNextBackupTime_stale_task :
    (runningTasks staleManager = [] ∧ staleManager.backupConfig.enabled = true ∧
      staleManager.backupSchedule = some 0 ∧
      getNextBackupTime staleManager 0 3600000 = some 93600000) ∧
    (runningTasks rejectedManager = [] ∧ rejectedManager.backupConfig.enabled = true ∧
      rejectedManager.backupSchedule = some 0 ∧
      getNextBackupTime rejectedManager 0 3600000 = some 93600000) := by
  decide

/-! ## Arming the timer at start-up -/

/-- C11, as stated, fails: with the persisted policy `{ enabled: true }` and a Drive
client that could not be initialised, `initialize` arms no timer. -/
theorem initialize_without_drive_arms_nothing :
    ¬ ∀ (P : ConfigPatch) (googleDriveInit : Bool),
        (merge defaultConfig P).enabled = true → (merge defaultConfig P).schedule ≠ [] →
        (runningTasks
          (initializeManager acceptAll (Manager.fresh (some P)) googleDriveInit).1).length = 1 :=
  fun h => absurd (h persistedEnabled false (by decide) (by decide)) (by decide)

/-- C11, amended. For a persisted policy with `enabled = true` and a non-empty
schedule expression that `cron.schedule` accepts, `initialize` on a fresh manager
arms exactly one timer, for that expression, when the Drive client could be
initialised, and arms none when it could not. In both cases it returns `true`,
sets `isInitialized` and holds the persisted policy merged over the defaults. -/
theorem initialize_arms_timer_iff_drive (valid : List Char → Bool) (P : ConfigPatch)
    (hen : (merge defaultConfig P).enabled = true)
    (hs : (merge defaultConfig P).schedule ≠ [])
    (hv : valid (merge defaultConfig P).schedule = true) :
    (initializeManager valid (Manager.fresh (some P)) true).1.tasks
        = [⟨(merge defaultConfig P).schedule, true⟩] ∧
      runningTasks (initializeManager valid (Manager.fresh (some P)) true).1 = [0] ∧
      (initializeManager valid (Manager.fresh (some P)) true).1.backupSchedule = some 0 ∧
      (initializeManager valid (Manager.fresh (some P)) true).2 = true ∧
      (initializeManager valid (Manager.fresh (some P)) true).1.isInitialized = true ∧
      (initializeManager valid (Manager.fresh (some P)) true).1.backupConfig
        = merge defaultConfig P ∧
      (initializeManager valid (Manager.fresh (some P)) false).1.tasks = [] ∧
      runningTasks (initializeManager valid (Manager.fresh (some P)) false).1 = [] ∧
      (initializeManager valid (Manager.fresh (some P)) false).1.backupSchedule = none ∧
      (initializeManager valid (Manager.fresh (some P)) false).2 = true ∧
      (initializeManager valid (Manager.fresh (some P)) false).1.isInitialized = true ∧
      (initializeManager valid (Manager.fresh (some P)) false).1.backupConfig
        = merge defaultConfig P := by
  have hne : (merge defaultConfig P).schedule.isEmpty = false := by
    cases h : (merge defaultConfig P).schedule with
    | nil => exact absurd h hs
    | cons a l => rfl
  simp [initializeManager, loadConfig, Manager.fresh, startScheduledBackups, stopSchedule,
    hen, hne, hv, runningTasks]
  rfl

theorem initialize_arms_timer_iff_drive_witness :
    runningTasks (initializeManager acceptAll (Manager.fresh (some persistedEnabled)) true).1
        = [0] ∧
      runningTasks (initializeManager acceptAll (Manager.fresh (some persistedEnabled)) false).1
        = [] :=
  ⟨(initialize_arms_timer_iff_drive acceptAll persistedEnabled (by decide) (by decide)
      (by decide)).2.1,
    (initialize_arms_timer_iff_drive acceptAll persistedEnabled (by decide) (by decide)
      (by decide)).2.2.2.2.2.2.2.1⟩

/-! ## The reported Drive connection -/

/-- C12, as stated, fails: after a run whose upload threw while the run
reported local success, `getStatus().googleDriveConnected` is `true`. -/
theorem googleDriveConnected_after_failed_upload :
    (createBackup enabledConfig backupsDir (goodRun 1000 70) cloudUploadFails []).cloud
        = some (.error "network error") ∧
      (createBackup enabledConfig backupsDir (goodRun 1000 70) cloudUploadFails []).result
        = .success (pathJoin backupsDir (backupName 1000 ++ zipSuffix))
            (backupName 1000 ++ zipSuffix) ∧
      (getStatus armedManager cloudUploadFails 0 3600000).googleDriveConnected = true :=
  ⟨rfl, by decide, rfl⟩

/-- The cloud leg runs only for an enabled policy and an authenticated session. -/
theorem createBackup_cloud_some {cfg : BackupConfig} {backupDir : List Char} {env : RunEnv}
    {c : CloudEnv} {dir : List DirEntry} {x : Except String (DriveFile × List DriveFile)}
    (h : (createBackup cfg backupDir env c dir).cloud = some x) :
    cfg.enabled = true ∧ c.isAuthenticated = true ∧ x = uploadToGoogleDrive cfg c := by
  unfold createBackup at h
  cases hdb : env.dbExists <;> cases hs : env.snapshotError <;>
    cases hcomp : (if cfg.compressBackups then env.compressError else none) <;>
    cases hen : cfg.enabled <;> cases hau : c.isAuthenticated <;>
    simp [hdb, hs, hcomp, hen, hau] at h
  exact ⟨rfl, rfl, h.symm⟩

/-- C12, amended. `getStatus().googleDriveConnected` is `isAuthenticated()`, which tells
only whether the client objects exist; an upload that throws leaves them in
place, so after a run whose upload threw it is still `true`. -/
theorem googleDriveConnected_of_upload_threw (cfg : BackupConfig) (backupDir : List Char)
    (env : RunEnv) (c : CloudEnv) (dir : List DirEntry) (e : String) (m : Manager)
    (tza : LocalTZA) (now : Int)
    (hup : (createBackup cfg backupDir env c dir).cloud = some (.error e)) :
    (getStatus m c tza now).googleDriveConnected = true :=
  (createBackup_cloud_some hup).2.1

theorem googleDriveConnected_of_upload_threw_witness :
    (getStatus armedManager cloudUploadFails 0 3600000).googleDriveConnected = true :=
  googleDriveConnected_of_upload_threw enabledConfig backupsDir (goodRun 1000 70)
    cloudUploadFails [] "network error" armedManager 0 3600000 rfl

/-! ## The Drive session -/

/-- C13 on an interactive credentials file without a token file: `initialize`
returns `true` and `isAuthenticated()` is already `true`, although the client has
no credentials and `handleCallback` has not run. With a token file the client
carries that token. -/
theorem isAuthenticated_without_token (clientId clientSecret : List Char)
    (redirectUris : List (List Char)) (token : Token) :
    (initializeDrive true (GoogleDriveConfig.fresh
        (some (.interactive clientId clientSecret (some redirectUris))) none)).2 = true ∧
      (initializeDrive true (GoogleDriveConfig.fresh
        (some (.interactive clientId clientSecret (some redirectUris))) none)).1.isAuthenticated
        = true ∧
      ((initializeDrive true (GoogleDriveConfig.fresh
        (some (.interactive clientId clientSecret (some redirectUris))) none)).1.oauth2Client.bind
          OAuthClient.credentials) = none ∧
      (initializeDrive true (GoogleDriveConfig.fresh
        (some (.interactive clientId clientSecret (some redirectUris)))
        (some token))).1.isAuthenticated = true ∧
      ((initializeDrive true (GoogleDriveConfig.fresh
        (some (.interactive clientId clientSecret (some redirectUris)))
        (some token))).1.oauth2Client.bind OAuthClient.credentials) = some token := by
  simp [initializeDrive, GoogleDriveConfig.fresh, GoogleDriveConfig.isAuthenticated]

/-- C14. For a credentials file of type `service_account` whose client is
obtained, `initialize` returns `true`, the client it installs is the
service-account client (no consent flow is started), and `isAuthenticated()` is
`true` right away. -/
theorem initializeDrive_serviceAccount (s : GoogleDriveConfig)
    (h : s.credentialsFile = some .serviceAccount) :
    (initializeDrive true s).2 = true ∧
      (initializeDrive true s).1.oauth2Client = some serviceClient ∧
      (initializeDrive true s).1.isAuthenticated = true ∧
      (initializeDrive true s).1.tokenFile = s.tokenFile := by
  simp [initializeDrive, h, GoogleDriveConfig.isAuthenticated]

theorem initializeDrive_serviceAccount_witness :
    (initializeDrive true serviceSession).2 = true ∧
      (initializeDrive true serviceSession).1.isAuthenticated = true :=
  ⟨(initializeDrive_serviceAccount serviceSession rfl).1,
    (initializeDrive_serviceAccount serviceSession rfl).2.2.1⟩

/-- C15, as stated, fails: on a session initialised from a service-account
credential `generateAuthUrl` returns a URL. -/
theorem generateAuthUrl_serviceAccount_returns :
    (initializeDrive true serviceSession).1.oauth2Client = some serviceClient ∧
      ∃ url, generateAuthUrl (initializeDrive true serviceSession).1 = .ok url :=
  ⟨rfl, _, rfl⟩

/-- C15, amended. `generateAuthUrl` throws exactly when the session has no client
(`Google Drive not initialized`); it never looks at the kind of credential, so
on every initialised session, service account or interactive, it returns the
URL the client builds. -/
theorem generateAuthUrl_error_iff (s : GoogleDriveConfig) :
    ((∃ msg, generateAuthUrl s = .error msg) ↔ s.oauth2Client = none) ∧
      (generateAuthUrl s = .error "Google Drive not initialized" ↔ s.oauth2Client = none) ∧
      (s.isAuthenticated = true → ∃ url, generateAuthUrl s = .ok url) := by
  unfold generateAuthUrl GoogleDriveConfig.isAuthenticated
  cases s.oauth2Client <;> simp

/-! ## Completing consent -/

/-- C16, as stated, fails: the exchange of the code `ok` succeeds with token 7 and
writing `token.json` throws. The token is set on the client, the token file does
not hold it, and `handleCallback` reports failure. -/
theorem handleCallback_token_not_persisted :
    exchangeOk ['o', 'k'] = .ok 7 ∧
      (handleCallback exchangeOk (.failed none) (initializeDrive true interactiveNoToken).1
        ['o', 'k']).2 = ⟨false, "Failed to connect to Google Drive"⟩ ∧
      (handleCallback exchangeOk (.failed none) (initializeDrive true interactiveNoToken).1
        ['o', 'k']).1.oauth2Client.map OAuthClient.credentials = some (some 7) ∧
      (handleCallback exchangeOk (.failed none) (initializeDrive true interactiveNoToken).1
        ['o', 'k']).1.tokenFile = none :=
  ⟨rfl, by decide, by decide, by decide⟩

/-- C16, amended. For every authorization code: when the token exchange fails, or
the session has no client, `handleCallback` returns the failure object and the
token file and the client, credentials included, are as before. When the
exchange succeeds, the token it returned is set on the client; if the token
file is then written, the file holds that token and the call reports success;
if writing throws, the call returns the failure object and the client keeps
the new token. -/
theorem handleCallback_spec (getToken : List Char → Except String Token)
    (s : GoogleDriveConfig) (code : List Char) :
    (∀ err write, getToken code = .error err →
      (handleCallback getToken write s code).2
          = ⟨false, "Failed to connect to Google Drive"⟩ ∧
        (handleCallback getToken write s code).1 = s) ∧
    (∀ write, s.oauth2Client = none →
      (handleCallback getToken write s code).2
          = ⟨false, "Failed to connect to Google Drive"⟩ ∧
        (handleCallback getToken write s code).1 = s) ∧
    (∀ tokens client, getToken code = .ok tokens → s.oauth2Client = some client →
      (handleCallback getToken .written s code).2
          = ⟨true, "Google Drive connected successfully!"⟩ ∧
        (handleCallback getToken .written s code).1.oauth2Client
          = some { client with credentials := some tokens } ∧
        (handleCallback getToken .written s code).1.tokenFile = some tokens ∧
        (handleCallback getToken .written s code).1.isAuthenticated = true) ∧
    (∀ tokens client left, getToken code = .ok tokens → s.oauth2Client = some client →
      (handleCallback getToken (.failed left) s code).2
          = ⟨false, "Failed to connect to Google Drive"⟩ ∧
        (handleCallback getToken (.failed left) s code).1.oauth2Client
          = some { client with credentials := some tokens } ∧
        (handleCallback getToken (.failed left) s code).1.tokenFile = left ∧
        (handleCallback getToken (.failed left) s code).1.drive = s.drive) := by
  refine ⟨?_, ?_, ?_, ?_⟩
  · intro err write h
    unfold handleCallback
    cases s.oauth2Client <;> simp [h]
  · intro write h
    simp [handleCallback, h]
  · intro tokens client h hc
    simp [handleCallback, h, hc, GoogleDriveConfig.isAuthenticated]
  · intro tokens client left h hc
    simp [handleCallback, h, hc]

theorem handleCallback_spec_witness :
    ((handleCallback exchangeOk .written (initializeDrive true interactiveNoToken).1
        ['n', 'o']).2 = ⟨false, "Failed to connect to Google Drive"⟩ ∧
      (handleCallback exchangeOk .written (initializeDrive true interactiveNoToken).1
        ['n', 'o']).1 = (initializeDrive true interactiveNoToken).1) ∧
    (handleCallback exchangeOk .written (initializeDrive true interactiveNoToken).1
        ['o', 'k']).1.tokenFile = some 7 ∧
    (handleCallback exchangeOk (.failed (some 3)) (initializeDrive true interactiveNoToken).1
        ['o', 'k']).1.tokenFile = some 3 :=
  ⟨(handleCallback_spec exchangeOk (initializeDrive true interactiveNoToken).1 ['n', 'o']).1
      "invalid_grant" .written rfl,
    ((handleCallback_spec exchangeOk (initializeDrive true interactiveNoToken).1
      ['o', 'k']).2.2.1 7 _ rfl rfl).2.2.1,
    ((handleCallback_spec exchangeOk (initializeDrive true interactiveNoToken).1
      ['o', 'k']).2.2.2 7 _ (some 3) rfl rfl).2.2.1⟩

/-! ## Fatal stage errors -/

/-- C17. When the database file does not exist, `createBackup` returns the
failure `Database file not found`, the backup directory is exactly as before,
and neither the cloud leg nor local retention has run. -/
theorem createBackup_no_database (cfg : BackupConfig) (backupDir : List Char) (env : RunEnv)
    (c : CloudEnv) (dir : List DirEntry) (h : env.dbExists = false) :
    (createBackup cfg backupDir env c dir).result = .failure "Database file not found" ∧
      (createBackup cfg backupDir env c dir).dir = dir ∧
      (createBackup cfg backupDir env c dir).cloud = none ∧
      (createBackup cfg backupDir env c dir).cleanedUp = false := by
  simp [createBackup, h]

theorem createBackup_no_database_witness :
    (createBackup enabledConfig backupsDir noDatabaseRun cloudUploadFails [⟨oldZip, 50⟩]).result
        = .failure "Database file not found" ∧
      (createBackup enabledConfig backupsDir noDatabaseRun cloudUploadFails [⟨oldZip, 50⟩]).dir
        = [⟨oldZip, 50⟩] :=
  ⟨(createBackup_no_database enabledConfig backupsDir noDatabaseRun cloudUploadFails
      [⟨oldZip, 50⟩] rfl).1,
    (createBackup_no_database enabledConfig backupsDir noDatabaseRun cloudUploadFails
      [⟨oldZip, 50⟩] rfl).2.1⟩

theorem subset_ensureEntry (dir : List DirEntry) (name : List Char) (created : Int) :
    dir ⊆ ensureEntry dir name created := by
  unfold ensureEntry
  split_ifs
  · exact List.Subset.refl _
  · exact List.subset_append_left _ _

/-- C18. When `compressBackups` is true and `compressDirectory` fails after a
successful snapshot, `createBackup` returns a failure carrying the error
message, the snapshot directory is in the backup directory, every entry that
was there before is still there, and neither the cloud leg nor local
retention has run. -/
theorem createBackup_compress_fails (cfg : BackupConfig) (backupDir : List Char) (env : RunEnv)
    (c : CloudEnv) (dir : List DirEntry) (e : String)
    (hdb : env.dbExists = true) (hsnap : env.snapshotError = none)
    (hc : cfg.compressBackups = true) (he : env.compressError = some e) :
    (createBackup cfg backupDir env c dir).result = .failure e ∧
      backupName env.now ∈ (createBackup cfg backupDir env c dir).dir.map DirEntry.name ∧
      dir ⊆ (createBackup cfg backupDir env c dir).dir ∧
      (createBackup cfg backupDir env c dir).cloud = none ∧
      (createBackup cfg backupDir env c dir).cleanedUp = false := by
  have hdir : (createBackup cfg backupDir env c dir).dir
      = if env.partialArchive then
          ensureEntry (ensureEntry dir (backupName env.now) env.created)
            (backupName env.now ++ zipSuffix) env.created
        else ensureEntry dir (backupName env.now) env.created := by
    simp [createBackup, hdb, hsnap, hc, he]
  refine ⟨by simp [createBackup, hdb, hsnap, hc, he], ?_, ?_,
    by simp [createBackup, hdb, hsnap, hc, he], by simp [createBackup, hdb, hsnap, hc, he]⟩
  · rw [hdir]
    split_ifs
    · obtain ⟨a, ha, hn⟩ := List.mem_map.1 (name_mem_ensureEntry dir (backupName env.now)
        env.created)
      exact List.mem_map.2 ⟨a, subset_ensureEntry _ _ _ ha, hn⟩
    · exact name_mem_ensureEntry _ _ _
  · rw [hdir]
    split_ifs
    · exact fun x hx => subset_ensureEntry _ _ _ (subset_ensureEntry _ _ _ hx)
    · exact subset_ensureEntry _ _ _

theorem createBackup_compress_fails_witness :
    (createBackup enabledConfig backupsDir compressFailsRun cloudUploadFails
        [⟨oldZip, 50⟩]).result = .failure "disk full" ∧
      (createBackup enabledConfig backupsDir compressFailsRun cloudUploadFails
        [⟨oldZip, 50⟩]).dir = [⟨oldZip, 50⟩, ⟨backupName 1000, 70⟩] :=
  ⟨(createBackup_compress_fails enabledConfig backupsDir compressFailsRun cloudUploadFails
      [⟨oldZip, 50⟩] "disk full" rfl rfl rfl rfl).1, by decide⟩

/-! ## The artifact of a successful run -/

theorem mem_ensureEntry {dir : List DirEntry} {name : List Char} {created : Int} {e : DirEntry}
    (h : e ∈ ensureEntry dir name created) : e ∈ dir ∨ e = ⟨name, created⟩ := by
  unfold ensureEntry at h
  split_ifs at h
  · exact Or.inl h
  · rcases List.mem_append.1 h with h | h
    · exact Or.inl h
    · exact Or.inr (List.mem_singleton.1 h)

theorem mem_localBackupCreated {cfg : BackupConfig} {env : RunEnv} {dir : List DirEntry}
    {e : DirEntry} (h : e ∈ localBackupCreated cfg env dir) :
    e ∈ dir ∨ e = ⟨finalBackupName cfg env.now, env.created⟩ := by
  unfold localBackupCreated at h
  unfold finalBackupName
  split_ifs at h ⊢ with hc
  · unfold remove at h
    rw [List.mem_filter, decide_eq_true_eq] at h
    rcases mem_ensureEntry h.1 with h1 | h1
    · rcases mem_ensureEntry h1 with h2 | h2
      · exact Or.inl h2
      · exact absurd (h2 ▸ rfl : e.name = backupName env.now) h.2
    · exact Or.inr h1
  · exact mem_ensureEntry h

theorem cleanupLocalBackups_sublist (k : Nat) (dir : List DirEntry) :
    (cleanupLocalBackups k dir).Sublist dir := by
  unfold cleanupLocalBackups
  rw [foldl_remove_eq_filter]
  exact List.filter_sublist _

theorem filter_eq_singleton {l : List DirEntry} {p : DirEntry → Bool} {a : DirEntry}
    (hnd : l.Nodup) (ha : a ∈ l) (hpa : p a = true) (hall : ∀ x ∈ l, p x = true → x = a) :
    l.filter p = [a] := by
  have hmem : a ∈ l.filter p := List.mem_filter.2 ⟨ha, hpa⟩
  have hnd2 : (l.filter p).Nodup := hnd.sublist (List.filter_sublist _)
  have hall2 : ∀ x ∈ l.filter p, x = a := fun x hx =>
    hall x (List.mem_filter.1 hx).1 (List.mem_filter.1 hx).2
  cases hl : l.filter p with
  | nil => rw [hl] at hmem; exact absurd hmem (List.not_mem_nil _)
  | cons x t =>
    rw [hl] at hnd2 hall2
    have hx : x = a := hall2 x (List.mem_cons_self _ _)
    cases t with
    | nil => rw [hx]
    | cons y t2 =>
      have hy : y = a := hall2 y (List.mem_cons_of_mem _ (List.mem_cons_self _ _))
      rw [hx, hy] at hnd2
      exact absurd (List.mem_cons_self _ _) (List.nodup_cons.1 hnd2).1

theorem not_mem_cleanupLocalBackups_zero {dir : List DirEntry} {e : DirEntry}
    (he : e ∈ dir) (hb : isBackupFile e.name = true) :
    e.name ∉ (cleanupLocalBackups 0 dir).map DirEntry.name := by
  intro hmem
  obtain ⟨x, hx, hn⟩ := List.mem_map.1 hmem
  rw [mem_cleanupLocalBackups] at hx
  apply hx.2
  have hcand : e ∈ backupFiles dir := List.mem_filter.2 ⟨he, hb⟩
  have hpos : (backupFiles dir).length > 0 := List.length_pos_of_mem hcand
  have hdel : filesToDelete 0 dir = sortedFiles dir := by
    unfold filesToDelete
    rw [if_pos hpos, Nat.sub_zero, ← (sortedFiles_perm dir).length_eq, List.take_length]
  rw [hdel, hn]
  exact List.mem_map_of_mem _ ((sortedFiles_perm dir).symm.subset hcand)

/-- C19, as stated, fails: with `keepLocalCopies = 0` a run succeeds, returns the
archive, and its own retention pass deletes that archive, so the directory
gains no entry; with `keepLocalCopies = 1` and an entry of a later creation time
the run deletes its archive as well. -/
theorem createBackup_deletes_own_artifact :
    ((createBackup (keepLocal 0) backupsDir (goodRun 1000 70) cloudOffline []).result
        = .success (pathJoin backupsDir (backupName 1000 ++ zipSuffix))
            (backupName 1000 ++ zipSuffix) ∧
      (createBackup (keepLocal 0) backupsDir (goodRun 1000 70) cloudOffline []).dir = []) ∧
    ((createBackup (keepLocal 1) backupsDir (goodRun 1000 70) cloudOffline
          [⟨oldZip, 90⟩]).result
        = .success (pathJoin backupsDir (backupName 1000 ++ zipSuffix))
            (backupName 1000 ++ zipSuffix) ∧
      (createBackup (keepLocal 1) backupsDir (goodRun 1000 70) cloudOffline
          [⟨oldZip, 90⟩]).dir = [⟨oldZip, 90⟩]) := by
  decide

/-- C19, amended. A successful `createBackup` run with base name `N` returns the archive
`N.zip` when `compressBackups` is true, and then no entry `N` is left in the backup
directory; it returns the snapshot directory `N` itself when `compressBackups` is
false. Every entry the directory has gained is the returned artifact. When
the artifact is new, at least one local copy is kept and the earlier entries
are older, the run leaves exactly that one new entry; with `keepLocalCopies = 0`
the returned artifact is not in the directory after the run. -/
theorem createBackup_artifact (cfg : BackupConfig) (backupDir : List Char) (env : RunEnv)
    (c : CloudEnv) (dir : List DirEntry)
    (hdb : env.dbExists = true) (hsnap : env.snapshotError = none)
    (hcomp : env.compressError = none) :
    (cfg.compressBackups = true →
      (createBackup cfg backupDir env c dir).result
          = .success (pathJoin backupDir (backupName env.now ++ zipSuffix))
              (backupName env.now ++ zipSuffix) ∧
        backupName env.now ∉ (createBackup cfg backupDir env c dir).dir.map DirEntry.name) ∧
    (cfg.compressBackups = false →
      (createBackup cfg backupDir env c dir).result
          = .success (pathJoin backupDir (backupName env.now)) (backupName env.now)) ∧
    (∀ e ∈ (createBackup cfg backupDir env c dir).dir, e ∉ dir →
      e = ⟨finalBackupName cfg env.now, env.created⟩) ∧
    (1 ≤ cfg.keepLocalCopies → (dir.map DirEntry.name).Nodup →
      finalBackupName cfg env.now ∉ dir.map DirEntry.name →
      (∀ e ∈ dir, e.birthtime < env.created) →
      (createBackup cfg backupDir env c dir).dir.filter (fun e => decide (e ∉ dir))
        = [⟨finalBackupName cfg env.now, env.created⟩]) ∧
    (cfg.keepLocalCopies = 0 →
      finalBackupName cfg env.now ∉
        (createBackup cfg backupDir env c dir).dir.map DirEntry.name) := by
  have hdir := createBackup_dir_of_success cfg backupDir env c dir hdb hsnap hcomp
  have hres : (createBackup cfg backupDir env c dir).result
      = .success (pathJoin backupDir (finalBackupName cfg env.now))
          (finalBackupName cfg env.now) := by
    simp [createBackup, hdb, hsnap, hcomp]
  have hp := readdir_perm env.readdirOrder (localBackupCreated cfg env dir)
  have hsub : cleanupLocalBackups cfg.keepLocalCopies
      (readdir env.readdirOrder (localBackupCreated cfg env dir))
        ⊆ localBackupCreated cfg env dir :=
    fun x hx => hp.subset ((cleanupLocalBackups_sublist cfg.keepLocalCopies _).subset hx)
  refine ⟨fun hc => ⟨?_, ?_⟩, fun hc => ?_, ?_, ?_, ?_⟩
  · rw [hres]; simp [finalBackupName, hc]
  · rw [hdir]
    intro hmem
    obtain ⟨e, he, hn⟩ := List.mem_map.1 hmem
    have h2 := hsub he
    simp only [localBackupCreated, hc, if_true, remove, List.mem_filter,
      decide_eq_true_eq] at h2
    exact h2.2 hn
  · rw [hres]; simp [finalBackupName, hc]
  · intro e he hnot
    rw [hdir] at he
    rcases mem_localBackupCreated (hsub he) with h | h
    · exact absurd h hnot
    · exact h
  · intro hk hnames hfresh hold
    rw [hdir]
    have hnd := names_nodup_localBackupCreated cfg env hnames
    have hnd2 : ((readdir env.readdirOrder (localBackupCreated cfg env dir)).map
        DirEntry.name).Nodup := (hp.map _).nodup_iff.2 hnd
    have hart : (⟨finalBackupName cfg env.now, env.created⟩ : DirEntry)
        ∈ localBackupCreated cfg env dir := by
      obtain ⟨a, ha, hn⟩ := List.mem_map.1 (finalBackupName_mem_localBackupCreated cfg env dir)
      rcases mem_localBackupCreated ha with h | h
      · exact absurd (hn ▸ List.mem_map_of_mem DirEntry.name h) hfresh
      · exact h ▸ ha
    have hnotin : (⟨finalBackupName cfg env.now, env.created⟩ : DirEntry) ∉ dir :=
      fun h => hfresh (List.mem_map_of_mem DirEntry.name h)
    refine filter_eq_singleton
      ((List.Nodup.of_map _ hnd2).sublist (cleanupLocalBackups_sublist _ _))
      (newest_mem_cleanupLocalBackups hk hnd2 (hp.symm.subset hart) ?_)
      (decide_eq_true hnotin) ?_
    · intro e he hne
      rcases mem_localBackupCreated (hp.subset he) with h | h
      · exact hold e h
      · exact absurd h hne
    · intro x hx hpx
      rcases mem_localBackupCreated (hsub hx) with h | h
      · exact absurd h (of_decide_eq_true hpx)
      · exact h
  · intro hk
    rw [hdir, hk]
    obtain ⟨a, ha, hn⟩ := List.mem_map.1 (finalBackupName_mem_localBackupCreated cfg env dir)
    rw [← hn]
    exact not_mem_cleanupLocalBackups_zero (hp.symm.subset ha)
      (hn ▸ isBackupFile_finalBackupName cfg env.now)

theorem createBackup_artifact_witness :
    (createBackup (keepLocal 1) backupsDir (goodRun 1000 70) cloudOffline
        [⟨oldZip, 50⟩, ⟨backupName 1000, 60⟩]).dir = [⟨backupName 1000 ++ zipSuffix, 70⟩] ∧
      (createBackup (keepLocal 1) backupsDir (goodRun 1000 70) cloudOffline
        [⟨oldZip, 50⟩, ⟨backupName 1000, 60⟩]).dir.filter
          (fun e => decide (e ∉ [⟨oldZip, 50⟩, ⟨backupName 1000, 60⟩]))
        = [⟨backupName 1000 ++ zipSuffix, 70⟩] :=
  ⟨by decide,
    (createBackup_artifact (keepLocal 1) backupsDir (goodRun 1000 70) cloudOffline
      [⟨oldZip, 50⟩, ⟨backupName 1000, 60⟩] rfl rfl rfl).2.2.2.1 (by decide) (by decide)
      (by decide) (by decide)⟩

/-! ## Loading the policy -/

/-- C20. At start-up `loadConfig` on a policy file `P` yields the policy that
has `P`'s value at every key `P` has and the hard-coded default elsewhere
(`enabled = false`, schedule `0 2 * * *`, 5 local and 10 cloud copies, folder
`Inventory_Backups`, `compressBackups = true`) and leaves the file as it is;
without a policy file the policy is the defaults and the file written holds
exactly the defaults. -/
theorem loadConfig_defaults (P : ConfigPatch) :
    (loadConfig (Manager.fresh (some P))).backupConfig
        = { enabled := P.enabled.getD false,
            schedule := P.schedule.getD "0 2 * * *".toList,
            keepLocalCopies := P.keepLocalCopies.getD 5,
            keepCloudCopies := P.keepCloudCopies.getD 10,
            folderName := P.folderName.getD "Inventory_Backups".toList,
            compressBackups := P.compressBackups.getD true } ∧
      (loadConfig (Manager.fresh (some P))).configFile = some P ∧
      (loadConfig (Manager.fresh none)).backupConfig
        = { enabled := false, schedule := "0 2 * * *".toList, keepLocalCopies := 5,
            keepCloudCopies := 10, folderName := "Inventory_Backups".toList,
            compressBackups := true } ∧
      (loadConfig (Manager.fresh none)).configFile
        = some { enabled := some false, schedule := some "0 2 * * *".toList,
                 keepLocalCopies := some 5, keepCloudCopies := some 10,
                 folderName := some "Inventory_Backups".toList,
                 compressBackups := some true } := by
  have h1 : dailyAtTwo = "0 2 * * *".toList := by decide
  have h2 : defaultFolderName = "Inventory_Backups".toList := by decide
  refine ⟨?_, rfl, ?_, ?_⟩
  · simp only [loadConfig, Manager.fresh, merge, defaultConfig, h1, h2]
  · simp only [loadConfig, Manager.fresh, saveConfig, defaultConfig, h1, h2]
  · simp only [loadConfig, Manager.fresh, saveConfig, defaultConfig, BackupConfig.toPatch,
      h1, h2]

/-! ## Failures on the policy file -/

/-- C21, as stated, fails: a read error in `loadConfig` and a write error in
`saveConfig` are caught inside the method, and nothing reaches the caller. -/
theorem config_errors_not_surfaced :
    ¬ ∀ (io : ConfigFaults) (m : Manager), (io.readError.isSome = true ∧ m.configFile.isSome = true →
        (loadConfigWith io m).2.isSome = true) ∧
      (io.writeError.isSome = true → (saveConfigWith io m).2.isSome = true) :=
  fun h => absurd
    ((h ⟨some "EACCES", some "ENOSPC", none⟩ (Manager.fresh (some enablePatch))).1 ⟨rfl, rfl⟩)
    (by decide)

/-- C21, amended. `loadConfig` and `saveConfig` catch and log every error of their own
file calls and return normally: nothing reaches the caller. After a failed
read the manager, its in-memory policy included, is what it was. A failed
write changes nothing in the manager but the file, which holds whatever the
failed call left; the in-memory policy keeps its value, also when `loadConfig`
found no file and its `saveConfig` failed. Without errors they are the plain
`loadConfig` and `saveConfig`. -/
theorem config_errors_swallowed (io : ConfigFaults) (m : Manager) :
    (loadConfigWith io m).2 = none ∧ (saveConfigWith io m).2 = none ∧
      (io.readError.isSome = true → (loadConfigWith io m).1 = m) ∧
      (io.writeError.isSome = true →
        (saveConfigWith io m).1 = { m with configFile := io.afterFailedWrite }) ∧
      (saveConfigWith io m).1.backupConfig = m.backupConfig ∧
      (m.configFile = none → (loadConfigWith io m).1.backupConfig = m.backupConfig) ∧
      (loadConfigWith ConfigFaults.reliable m).1 = loadConfig m ∧
      (saveConfigWith ConfigFaults.reliable m).1 = saveConfig m := by
  refine ⟨rfl, rfl, ?_, ?_, ?_, ?_, ?_, rfl⟩
  · intro h
    cases hr : io.readError with
    | none => rw [hr] at h; exact absurd h (by decide)
    | some e => simp [loadConfigWith, loadConfigBody, swallow, hr]
  · intro h
    cases hw : io.writeError with
    | none => rw [hw] at h; exact absurd h (by decide)
    | some e => simp [saveConfigWith, saveConfigBody, swallow, hw]
  · cases hw : io.writeError <;> simp [saveConfigWith, saveConfigBody, swallow, hw, saveConfig]
  · intro hf
    cases hr : io.readError <;> cases hw : io.writeError <;>
      simp [loadConfigWith, loadConfigBody, saveConfigWith, saveConfigBody, swallow, hr, hw, hf,
        saveConfig]
  · unfold loadConfigWith loadConfigBody loadConfig ConfigFaults.reliable swallow
    cases m.configFile <;> rfl

/-! ## When the cloud leg and the retention passes run -/

theorem uploadToGoogleDrive_ok {cfg : BackupConfig} {c : CloudEnv} {uploaded : DriveFile}
    {folder : List DriveFile} (h : uploadToGoogleDrive cfg c = .ok (uploaded, folder)) :
    uploadFile c = .ok uploaded ∧
      (folder = cleanupOldBackups c.drive (c.folder ++ [uploaded]) c.pageSize
          cfg.keepCloudCopies ∨
        folder = cleanupOldBackups c.drive [uploaded] c.pageSize cfg.keepCloudCopies) := by
  unfold uploadToGoogleDrive at h
  cases hf : findBackupFolder c <;> cases hc : createBackupFolder c <;>
    cases hu : uploadFile c <;> simp [hf, hc, hu] at h <;>
    simp [← h.1, ← h.2]

theorem driveCalls_cleanupOldBackups (c : CloudEnv)
    (h : DriveCall.cleanupOldBackups ∈ driveCalls c) :
    ∃ before, driveCalls c = before ++ [.uploadFile, .cleanupOldBackups] ∧
      DriveCall.cleanupOldBackups ∉ before ∧ DriveCall.uploadFile ∉ before ∧
      ∃ uploaded, uploadFile c = .ok uploaded := by
  unfold driveCalls at h ⊢
  cases hf : findBackupFolder c with
  | some id =>
    cases hu : uploadFile c with
    | error e => simp [hf, hu] at h
    | ok uploaded =>
      exact ⟨[.findBackupFolder], rfl, by decide, by decide, uploaded, rfl⟩
  | none =>
    cases hc : createBackupFolder c with
    | error e => simp [hf, hc] at h
    | ok id =>
      cases hu : uploadFile c with
      | error e => simp [hf, hc, hu] at h
      | ok uploaded =>
        exact ⟨[.findBackupFolder, .createBackupFolder], rfl, by decide, by decide,
          uploaded, rfl⟩

theorem driveCalls_cleanupOldBackups_iff (cfg : BackupConfig) (c : CloudEnv) :
    DriveCall.cleanupOldBackups ∈ driveCalls c ↔
      ∃ uploaded folder, uploadToGoogleDrive cfg c = .ok (uploaded, folder) := by
  unfold driveCalls uploadToGoogleDrive
  cases hf : findBackupFolder c <;> cases hc : createBackupFolder c <;>
    cases hu : uploadFile c <;> simp

/-- C22. In `createBackup` the upload is attempted exactly when the run produced
its local artifact, the policy is enabled and `isAuthenticated()` holds; with
`enabled = false` no run uploads. Within `uploadToGoogleDrive`, `cleanupOldBackups` is called
exactly when the upload returns normally, as the last call and right after an
`uploadFile` that succeeded, on the folder that already holds the uploaded file.
The local retention pass runs in exactly the runs that produced a local
artifact, which are the runs that report success. -/
theorem createBackup_control_flow (cfg : BackupConfig) (backupDir : List Char) (env : RunEnv)
    (c : CloudEnv) (dir : List DirEntry) :
    ((createBackup cfg backupDir env c dir).cloud.isSome = true ↔
      (createBackup cfg backupDir env c dir).cleanedUp = true ∧ cfg.enabled = true ∧
        c.isAuthenticated = true) ∧
    (cfg.enabled = false → (createBackup cfg backupDir env c dir).cloud = none) ∧
    (∀ x, (createBackup cfg backupDir env c dir).cloud = some x → x = uploadToGoogleDrive cfg c) ∧
    (DriveCall.cleanupOldBackups ∈ driveCalls c ↔
      ∃ uploaded folder, uploadToGoogleDrive cfg c = .ok (uploaded, folder)) ∧
    (DriveCall.cleanupOldBackups ∈ driveCalls c →
      ∃ before, driveCalls c = before ++ [.uploadFile, .cleanupOldBackups] ∧
        DriveCall.cleanupOldBackups ∉ before ∧ DriveCall.uploadFile ∉ before ∧
        ∃ uploaded, uploadFile c = .ok uploaded) ∧
    (∀ uploaded folder, uploadToGoogleDrive cfg c = .ok (uploaded, folder) →
      uploadFile c = .ok uploaded ∧
        (folder = cleanupOldBackups c.drive (c.folder ++ [uploaded]) c.pageSize
            cfg.keepCloudCopies ∨
          folder = cleanupOldBackups c.drive [uploaded] c.pageSize cfg.keepCloudCopies)) ∧
    (∀ e, uploadFile c = .error e →
      DriveCall.cleanupOldBackups ∉ driveCalls c ∧
        (uploadToGoogleDrive cfg c = .error e ∨
          ∃ e1, createBackupFolder c = .error e1 ∧ uploadToGoogleDrive cfg c = .error e1)) ∧
    ((createBackup cfg backupDir env c dir).cleanedUp = true ↔
      env.dbExists = true ∧ env.snapshotError = none ∧
        (cfg.compressBackups = true → env.compressError = none)) ∧
    ((createBackup cfg backupDir env c dir).cleanedUp = true ↔
      (createBackup cfg backupDir env c dir).result
        = .success (pathJoin backupDir (finalBackupName cfg env.now))
            (finalBackupName cfg env.now)) ∧
    ((createBackup cfg backupDir env c dir).cleanedUp = true →
      (createBackup cfg backupDir env c dir).dir
        = cleanupLocalBackups cfg.keepLocalCopies
            (readdir env.readdirOrder (localBackupCreated cfg env dir))) := by
  refine ⟨?_, ?_, fun x hx => (createBackup_cloud_some hx).2.2,
    driveCalls_cleanupOldBackups_iff cfg c, driveCalls_cleanupOldBackups c,
    fun uploaded folder h => uploadToGoogleDrive_ok h, ?_, ?_, ?_, ?_⟩
  · unfold createBackup
    cases hdb : env.dbExists <;> cases hs : env.snapshotError <;>
      cases hcb : cfg.compressBackups <;> cases hcomp : env.compressError <;>
      cases hen : cfg.enabled <;> cases hau : c.isAuthenticated <;> simp
  · intro hen
    unfold createBackup
    cases hdb : env.dbExists <;> cases hs : env.snapshotError <;>
      cases hcb : cfg.compressBackups <;> cases hcomp : env.compressError <;> simp [hen]
  · intro e he
    constructor
    · intro hmem
      obtain ⟨_, _, _, _, uploaded, hu⟩ := driveCalls_cleanupOldBackups c hmem
      rw [he] at hu
      exact absurd hu (by simp)
    · unfold uploadToGoogleDrive
      cases hf : findBackupFolder c <;> cases hc : createBackupFolder c <;> simp [he]
  · unfold createBackup
    cases hdb : env.dbExists <;> cases hs : env.snapshotError <;>
      cases hcb : cfg.compressBackups <;> cases hcomp : env.compressError <;> simp
  · unfold createBackup
    cases hdb : env.dbExists <;> cases hs : env.snapshotError <;>
      cases hcb : cfg.compressBackups <;> cases hcomp : env.compressError <;> simp
  · unfold createBackup
    cases hdb : env.dbExists <;> cases hs : env.snapshotError <;>
      cases hcb : cfg.compressBackups <;> cases hcomp : env.compressError <;> simp

/-! ## The remote folder of an upload -/

/-- When the folder lookup succeeds, `uploadToGoogleDrive` calls `createBackupFolder`
exactly when no folder of that name exists, and uploads into the existing
folder otherwise. -/
theorem uploadEffects_of_lookup_ok (c : CloudEnv) (hd : c.drive = true)
    (hl : c.lookupError = none) :
    ((uploadEffects c).createFolderCalled = true ↔ c.folderId = none) ∧
      (∀ id, c.folderId = some id →
        uploadEffects c = { createFolderCalled := false, createdFolder := none,
                            uploadedInto := some id }) := by
  unfold uploadEffects findBackupFolder
  cases hf : c.folderId <;> cases hc : createBackupFolder c <;> simp [hd, hl]

/-- C23 with the backup folder present in the account and a failing lookup:
`findBackupFolder` turns the error into `null`, `uploadToGoogleDrive` creates a second
folder and uploads into it. The value returned is the descriptor of the
uploaded file. -/
theorem uploadToGoogleDrive_lookup_fails :
    cloudLookupFails.folderId = some 1 ∧
      uploadEffects cloudLookupFails
        = { createFolderCalled := true, createdFolder := some 2, uploadedInto := some 2 } ∧
      (uploadToGoogleDrive enabledConfig cloudLookupFails).map Prod.fst
        = .ok (driveFile 9 9000) := by
  refine ⟨rfl, by decide, rfl⟩

/-! ## Failures inside the retention passes -/

theorem removeEach_of_no_error (io : RetentionFaults) (h : ∀ n, io.removeError n = none)
    (l dir : List DirEntry) :
    removeEach io l dir = (l.foldl (fun d file => remove d file.name) dir, none) := by
  induction l generalizing dir with
  | nil => rfl
  | cons a l ih => simp [removeEach, h, ih]

theorem deleteEach_of_no_error (io : RetentionFaults) (h : ∀ n, io.deleteError n = none)
    (l folder : List DriveFile) :
    deleteEach io l folder = (l.foldl (fun f file => filesDelete f file.id) folder, none) := by
  induction l generalizing folder with
  | nil => rfl
  | cons a l ih => simp [deleteEach, h, ih]

theorem cleanupLocalBackupsWith_reliable (keep : Nat) (dir : List DirEntry) :
    cleanupLocalBackupsWith RetentionFaults.reliable keep dir = (cleanupLocalBackups keep dir, none) := by
  unfold cleanupLocalBackupsWith cleanupLocalBackupsBody cleanupLocalBackups filesToDelete swallow
  rw [removeEach_of_no_error RetentionFaults.reliable (fun _ => rfl)]
  simp only [RetentionFaults.reliable]
  split_ifs <;> rfl

theorem cleanupOldBackupsWith_reliable (drive : Bool) (folder : List DriveFile)
    (pageSize keepCount : Nat) :
    cleanupOldBackupsWith RetentionFaults.reliable drive folder pageSize keepCount
      = (cleanupOldBackups drive folder pageSize keepCount, none) := by
  unfold cleanupOldBackupsWith cleanupOldBackupsBody cleanupOldBackups remoteFilesToDelete
    listBackupFilesWith listBackupFiles swallow
  rw [deleteEach_of_no_error RetentionFaults.reliable (fun _ => rfl)]
  cases drive
  · simp
  · simp only [RetentionFaults.reliable, if_true]
    split_ifs <;> rfl

theorem uploadToGoogleDriveWith_reliable (cfg : BackupConfig) (c : CloudEnv) :
    uploadToGoogleDriveWith RetentionFaults.reliable cfg c = uploadToGoogleDrive cfg c := by
  unfold uploadToGoogleDriveWith uploadToGoogleDrive afterUpload
  simp only [cleanupOldBackupsWith_reliable]

theorem createBackupWith_reliable (cfg : BackupConfig) (backupDir : List Char) (env : RunEnv)
    (c : CloudEnv) (dir : List DirEntry) :
    createBackupWith RetentionFaults.reliable cfg backupDir env c dir
      = createBackup cfg backupDir env c dir := by
  unfold createBackupWith createBackup
  simp only [cleanupLocalBackupsWith_reliable, uploadToGoogleDriveWith_reliable]

/-- C24. Whatever fails while listing or deleting, `cleanupLocalBackups` and
`cleanupOldBackups` throw nothing to their caller, and a `createBackup` run whose
snapshot and compression succeeded returns `success: true` with its local
artifact. -/
theorem retention_failures_not_propagated (io : RetentionFaults) (cfg : BackupConfig)
    (backupDir : List Char) (env : RunEnv) (c : CloudEnv) (dir : List DirEntry)
    (hdb : env.dbExists = true) (hsnap : env.snapshotError = none)
    (hcomp : env.compressError = none) :
    (∀ keep d, (cleanupLocalBackupsWith io keep d).2 = none) ∧
      (∀ drive folder pageSize keep,
        (cleanupOldBackupsWith io drive folder pageSize keep).2 = none) ∧
      (createBackupWith io cfg backupDir env c dir).result
        = .success (pathJoin backupDir (finalBackupName cfg env.now))
            (finalBackupName cfg env.now) ∧
      (createBackupWith io cfg backupDir env c dir).cleanedUp = true := by
  refine ⟨fun _ _ => rfl, fun _ _ _ _ => rfl, ?_, ?_⟩ <;>
    simp [createBackupWith, hdb, hsnap, hcomp, cleanupLocalBackupsWith, swallow]

theorem retention_failures_not_propagated_witness :
    (createBackupWith retentionFails (keepLocal 1) backupsDir (goodRun 1000 70) cloudUploadFails
        [⟨oldZip, 50⟩]).result
      = .success (pathJoin backupsDir (backupName 1000 ++ zipSuffix))
          (backupName 1000 ++ zipSuffix) ∧
    (createBackupWith removalFails (keepLocal 1) backupsDir (goodRun 1000 70) cloudUploadFails
        [⟨oldZip, 50⟩]).dir = [⟨oldZip, 50⟩, ⟨backupName 1000 ++ zipSuffix, 70⟩] :=
  ⟨(retention_failures_not_propagated retentionFails (keepLocal 1) backupsDir (goodRun 1000 70)
      cloudUploadFails [⟨oldZip, 50⟩] rfl rfl rfl).2.2.1, by decide⟩

/-! ## Ties and the order of the listing -/

/-- C25, as stated, fails: two listings of the same two candidates with equal
creation times lead to different deletions. -/
theorem filesToDelete_depends_on_listing :
    List.Perm [(⟨aZip, 10⟩ : DirEntry), ⟨bZip, 10⟩] [⟨bZip, 10⟩, ⟨aZip, 10⟩] ∧
      filesToDelete 1 [⟨aZip, 10⟩, ⟨bZip, 10⟩] = [⟨aZip, 10⟩] ∧
      filesToDelete 1 [⟨bZip, 10⟩, ⟨aZip, 10⟩] = [⟨bZip, 10⟩] :=
  ⟨List.Perm.swap _ _ _, by decide, by decide⟩

/-- C25, amended. `cleanupLocalBackups` sorts by creation time only; candidates with
identical creation times stay in the order of the directory listing. When the
candidates have pairwise distinct creation times, two listings of the same
entries give the same files to delete and leave the same entries. -/
theorem filesToDelete_eq_of_perm (k : Nat) (d1 d2 : List DirEntry) (hp : d1.Perm d2)
    (hdistinct : ((backupFiles d1).map DirEntry.birthtime).Nodup) :
    filesToDelete k d1 = filesToDelete k d2 ∧
      (cleanupLocalBackups k d1).Perm (cleanupLocalBackups k d2) :=
  cleanupLocalBackups_perm k hp hdistinct

theorem filesToDelete_eq_of_perm_witness :
    filesToDelete 1 [⟨aZip, 10⟩, ⟨bZip, 20⟩, ⟨oldZip, 5⟩]
      = filesToDelete 1 [⟨oldZip, 5⟩, ⟨bZip, 20⟩, ⟨aZip, 10⟩] :=
  (filesToDelete_eq_of_perm 1 [⟨aZip, 10⟩, ⟨bZip, 20⟩, ⟨oldZip, 5⟩]
    [⟨oldZip, 5⟩, ⟨bZip, 20⟩, ⟨aZip, 10⟩] (by decide) (by decide)).1

/-! ## What the local retention pass leaves alone -/

/-- C29. `cleanupLocalBackups` removes only entries whose name ends with `.zip` or
contains `inventory_backup_`; every other entry stays, the entries that stay are
unchanged and in their order, and nothing is removed when the number of
candidates is at most `keepLocalCopies`. -/
theorem cleanupLocalBackups_frame (k : Nat) (dir : List DirEntry) :
    (∀ e ∈ dir, e ∉ cleanupLocalBackups k dir →
      endsWith e.name zipSuffix = true ∨ includes e.name backupPrefix = true) ∧
    (∀ e ∈ dir, isBackupFile e.name = false → e ∈ cleanupLocalBackups k dir) ∧
    (cleanupLocalBackups k dir).Sublist dir ∧
    ((backupFiles dir).length ≤ k → cleanupLocalBackups k dir = dir) := by
  have key : ∀ e ∈ dir, e ∉ cleanupLocalBackups k dir → isBackupFile e.name = true := by
    intro e he hnot
    rw [mem_cleanupLocalBackups] at hnot
    have hmem : e.name ∈ (filesToDelete k dir).map DirEntry.name := by
      by_contra h
      exact hnot ⟨he, h⟩
    obtain ⟨d, hd, hde⟩ := List.mem_map.1 hmem
    have := filesToDelete_subset k dir hd
    unfold backupFiles at this
    rw [List.mem_filter] at this
    rw [← hde]
    exact this.2
  refine ⟨?_, ?_, cleanupLocalBackups_sublist k dir, ?_⟩
  · intro e he hnot
    have := key e he hnot
    unfold isBackupFile at this
    rwa [Bool.or_eq_true] at this
  · intro e he hf
    by_contra hnot
    rw [key e he hnot] at hf
    exact absurd hf (by decide)
  · intro hle
    have : filesToDelete k dir = [] := by
      unfold filesToDelete
      rw [if_neg (by omega)]
    unfold cleanupLocalBackups
    rw [this]
    rfl

/-! ## The `PUT /config` handler -/

/-- The retention count after the handler: the body's value when it is truthy,
else the current one. -/
theorem putConfig_keepLocalCopies (current body : JsConfig) :
    (putConfig current body).keepLocalCopies
        = (if body.keepLocalCopies.truthy then body.keepLocalCopies
           else current.keepLocalCopies) ∧
      (putConfig current body).keepCloudCopies
        = (if body.keepCloudCopies.truthy then body.keepCloudCopies
           else current.keepCloudCopies) :=
  ⟨rfl, rfl⟩

/-- A body whose retention counts are absent, falsy or integers of at least one
keeps both counts integers of at least one. -/
theorem putConfig_keeps_positive (current body : JsConfig)
    (hl : current.keepLocalCopies.isPositiveInteger = true)
    (hc : current.keepCloudCopies.isPositiveInteger = true)
    (hbl : body.keepLocalCopies.truthy = true → body.keepLocalCopies.isPositiveInteger = true)
    (hbc : body.keepCloudCopies.truthy = true → body.keepCloudCopies.isPositiveInteger = true) :
    (putConfig current body).keepLocalCopies.isPositiveInteger = true ∧
      (putConfig current body).keepCloudCopies.isPositiveInteger = true := by
  simp only [putConfig, putConfigNewConfig, JsValue.orElse]
  constructor
  · split_ifs with h
    · exact hbl h
    · exact hl
  · split_ifs with h
    · exact hbc h
    · exact hc

/-- C27 on the default policy (5 local and 10 cloud copies) and the bodies
`{ keepLocalCopies: -3 }` and `{ keepCloudCopies: 'many' }`: the handler stores the
values as they come, so afterwards `keepLocalCopies` is -3, respectively
`keepCloudCopies` is a string. -/
theorem putConfig_stores_invalid_counts :
    defaultConfig.toJs.keepLocalCopies.isPositiveInteger = true ∧
      defaultConfig.toJs.keepCloudCopies.isPositiveInteger = true ∧
      (putConfig defaultConfig.toJs negativeCountBody).keepLocalCopies = .integer (-3) ∧
      (putConfig defaultConfig.toJs negativeCountBody).keepLocalCopies.isPositiveInteger
        = false ∧
      (putConfig defaultConfig.toJs stringCountBody).keepCloudCopies
        = .string "many".toList ∧
      (putConfig defaultConfig.toJs stringCountBody).keepCloudCopies.isPositiveInteger
        = false := by
  decide

/-! ## The download and delete routes -/

/-- C28 on the server directory `/app/server` and the filename `../../inventory.db` (the
decoded route parameter of `..%2F..%2Finventory.db`): the path the routes use is
`/app/server/inventory.db`, the primary database, which is not inside the backups
directory; the download route sends it and the delete route removes it. -/
theorem routeFilePath_escapes :
    routeFilePath appServer traversalName = ["app".toList, "server".toList, "inventory.db".toList] ∧
      routeFilePath appServer traversalName = dbPath appServer ∧
      backupsPath appServer = ["app".toList, "server".toList, "backup".toList, "backups".toList] ∧
      ¬ (backupsPath appServer).IsPrefix (routeFilePath appServer traversalName) ∧
      downloadRoute (fun p => p = dbPath appServer) appServer traversalName
        = .download (dbPath appServer) ∧
      deleteRoute (fun p => p = dbPath appServer) appServer traversalName
        = (.deleted (dbPath appServer), some (dbPath appServer)) := by
  refine ⟨by decide, by decide, by decide, ?_, by decide, by decide⟩
  rw [← List.isPrefixOf_iff_prefix]
  decide

/-! ## The last backup -/

/-- C26 on a directory holding `old.zip`, created at 50, and an archive of
`createBackup`, created at 70: `getLastBackupInfo` describes `old.zip`, the greatest name,
not the entry created last. Names are compared by UTF-16 code units: of
`～.zip` and `😀.zip` it describes `～.zip`. Without candidates it resolves to `null`. -/
theorem getLastBackupInfo_not_newest :
    getLastBackupInfo backupsDir [⟨oldZip, 50⟩, ⟨backupName 1000 ++ zipSuffix, 70⟩]
        = some ⟨oldZip, 50, pathJoin backupsDir oldZip⟩ ∧
      backupFiles [⟨oldZip, 50⟩, ⟨backupName 1000 ++ zipSuffix, 70⟩]
        = [⟨oldZip, 50⟩, ⟨backupName 1000 ++ zipSuffix, 70⟩] ∧
      getLastBackupInfo backupsDir [⟨tildeZip, 50⟩, ⟨smileyZip, 70⟩]
        = some ⟨tildeZip, 50, pathJoin backupsDir tildeZip⟩ ∧
      getLastBackupInfo backupsDir [⟨notesTxt, 10⟩] = none := by
  decide

theorem sorted_names_le_last {l rest : List (List Char)} {latest : List Char}
    (hs : l.Sorted (fun a b => toUTF16 a ≤ toUTF16 b)) (hr : l.reverse = latest :: rest) :
    ∀ x ∈ l, toUTF16 x ≤ toUTF16 latest := by
  have hl : l = rest.reverse ++ [latest] := by
    have := congrArg List.reverse hr
    simpa using this
  intro x hx
  rw [hl] at hs hx
  rcases List.mem_append.1 hx with h | h
  · exact (List.pairwise_append.1 hs).2.2 x h latest (List.mem_singleton_self _)
  · rw [List.mem_singleton.1 h]

/-- The method `getLastBackupInfo` resolves to `null` when there is no candidate; otherwise
it describes a candidate whose name is the greatest in the order of `sort()`,
with the creation time and the path of that entry. -/
theorem getLastBackupInfo_of_candidates (backupDir : List Char) (dir : List DirEntry) :
    (backupFiles dir = [] → getLastBackupInfo backupDir dir = none) ∧
    (backupFiles dir ≠ [] →
      ∃ e ∈ backupFiles dir,
        getLastBackupInfo backupDir dir
          = some ⟨e.name, e.birthtime, pathJoin backupDir e.name⟩ ∧
        ∀ x ∈ backupFiles dir, toUTF16 x.name ≤ toUTF16 e.name) := by
  constructor
  · intro h
    simp [getLastBackupInfo, h]
  · intro hne
    have hperm := List.perm_insertionSort (fun a b => toUTF16 a ≤ toUTF16 b)
      ((backupFiles dir).map DirEntry.name)
    haveI : IsTotal (List Char) (fun a b => toUTF16 a ≤ toUTF16 b) :=
      ⟨fun a b => le_total (toUTF16 a) (toUTF16 b)⟩
    haveI : IsTrans (List Char) (fun a b => toUTF16 a ≤ toUTF16 b) :=
      ⟨fun _ _ _ h1 h2 => le_trans h1 h2⟩
    have hsorted : (((backupFiles dir).map DirEntry.name).insertionSort
        (fun a b => toUTF16 a ≤ toUTF16 b)).Sorted (fun a b => toUTF16 a ≤ toUTF16 b) :=
      List.sorted_insertionSort _ _
    cases hrev : (((backupFiles dir).map DirEntry.name).insertionSort
        (fun a b => toUTF16 a ≤ toUTF16 b)).reverse with
    | nil =>
      have h0 := congrArg List.length hrev
      rw [List.length_reverse, hperm.length_eq, List.length_map] at h0
      exact absurd (List.length_eq_zero.1 h0) hne
    | cons latest rest =>
      have hmem : latest ∈ (backupFiles dir).map DirEntry.name := by
        apply hperm.subset
        rw [← List.mem_reverse, hrev]
        exact List.mem_cons_self _ _
      obtain ⟨e0, he0, hn0⟩ := List.mem_map.1 hmem
      have hfind : ∃ e, dir.find? (fun e => decide (e.name = latest)) = some e := by
        cases hf : dir.find? (fun e => decide (e.name = latest)) with
        | some e => exact ⟨e, rfl⟩
        | none =>
          rw [List.find?_eq_none] at hf
          have := hf e0 (backupFiles_subset dir he0)
          simp [hn0] at this
      obtain ⟨e, he⟩ := hfind
      have hname : e.name = latest := by
        have := List.find?_some he
        simpa using this
      have hedir : e ∈ dir := List.mem_of_find?_eq_some he
      have hcand : e ∈ backupFiles dir := by
        unfold backupFiles
        rw [List.mem_filter]
        refine ⟨hedir, ?_⟩
        have h2 := he0
        unfold backupFiles at h2
        rw [List.mem_filter] at h2
        rw [hname, ← hn0]
        exact h2.2
      refine ⟨e, hcand, ?_, ?_⟩
      · simp only [getLastBackupInfo, hrev, he, hname]
      · intro x hx
        rw [hname]
        exact sorted_names_le_last hsorted hrev x.name
          (hperm.symm.subset (List.mem_map_of_mem _ hx))

/-! ## Names in chronological order -/

set_option maxHeartbeats 4000000 in
theorem yearOfEra_next (doe c : Int) (h0 : 0 ≤ doe) (h1 : doe ≤ 146096)
    (hc : (doe - doe / 1460 + doe / 36524 - doe / 146096) / 365 = c) :
    0 ≤ c ∧ c ≤ 399 ∧ 365 * c + c / 4 - c / 100 ≤ doe ∧
      doe < 365 * (c + 1) + (c + 1) / 4 - (c + 1) / 100 + (c + 1) / 400 := by
  have hy0 : 0 ≤ c := by omega
  have hy1 : c ≤ 399 := by omega
  interval_cases c <;> omega

theorem daysBeforeYear_mono {a b : Int} (h : a ≤ b) : daysBeforeYear a ≤ daysBeforeYear b := by
  unfold daysBeforeYear
  omega

theorem daysBeforeMonth_mono {a b : Int} (h : a ≤ b) :
    daysBeforeMonth a ≤ daysBeforeMonth b := by
  unfold daysBeforeMonth
  omega

theorem civilFromDays_eq (days : Int) :
    ∃ era c doy mp : Int,
      days + 719468 = 146097 * era + daysBeforeYear c + doy ∧
      0 ≤ c ∧ c ≤ 399 ∧ 0 ≤ doy ∧ daysBeforeYear c + doy < daysBeforeYear (c + 1) ∧
      0 ≤ mp ∧ mp ≤ 11 ∧ daysBeforeMonth mp ≤ doy ∧ doy < daysBeforeMonth (mp + 1) ∧
      civilFromDays days
        = (if mp < 10 then c + era * 400 else c + era * 400 + 1,
           if mp < 10 then mp + 3 else mp - 9, doy - daysBeforeMonth mp + 1) := by
  obtain ⟨c, hc⟩ : ∃ c : Int, ((days + 719468) % 146097 - (days + 719468) % 146097 / 1460 +
      (days + 719468) % 146097 / 36524 - (days + 719468) % 146097 / 146096) / 365 = c :=
    ⟨_, rfl⟩
  obtain ⟨h0, h1, h2, h3⟩ :=
    yearOfEra_next ((days + 719468) % 146097) c (by omega) (by omega) hc
  obtain ⟨doy, hdoy⟩ :
      ∃ doy : Int, (days + 719468) % 146097 - (365 * c + c / 4 - c / 100) = doy := ⟨_, rfl⟩
  obtain ⟨mp, hmp⟩ : ∃ mp : Int, (5 * doy + 2) / 153 = mp := ⟨_, rfl⟩
  have hd0 : 0 ≤ doy := by omega
  have hd1 : doy ≤ 365 := by omega
  have hmp0 : 0 ≤ mp := by omega
  have hmp1 : mp ≤ 11 := by omega
  have hc400 : c / 400 = 0 := by omega
  refine ⟨(days + 719468) / 146097, c, doy, mp, ?_, h0, h1, hd0, ?_, hmp0, hmp1, ?_, ?_, ?_⟩
  · unfold daysBeforeYear; omega
  · unfold daysBeforeYear; omega
  · unfold daysBeforeMonth; omega
  · unfold daysBeforeMonth; omega
  · simp only [civilFromDays, hc, hdoy, hmp, daysBeforeMonth]
    by_cases hlt : mp < 10
    · have hm : ¬ (mp + 3 ≤ 2) := by omega
      simp only [hlt, hm, if_true, if_false]
    · have hm : mp - 9 ≤ 2 := by omega
      simp only [hlt, hm, if_true, if_false]

theorem civilFromDays_lt {a b : Int} (h : a < b) :
    (civilFromDays a).1 < (civilFromDays b).1 ∨
      ((civilFromDays a).1 = (civilFromDays b).1 ∧
        ((civilFromDays a).2.1 < (civilFromDays b).2.1 ∨
          ((civilFromDays a).2.1 = (civilFromDays b).2.1 ∧
            (civilFromDays a).2.2 < (civilFromDays b).2.2))) := by
  obtain ⟨e1, c1, y1, m1, ha, hc0, hc1, hy0, hy1, hm0, hm1, hl1, hu1, eq1⟩ := civilFromDays_eq a
  obtain ⟨e2, c2, y2, m2, hb, kc0, kc1, ky0, ky1, km0, km1, kl1, ku1, eq2⟩ := civilFromDays_eq b
  rw [eq1, eq2]
  simp only
  have z0 : daysBeforeYear 0 = 0 := by decide
  have z400 : daysBeforeYear 400 = 146097 := by decide
  have b1 : 0 ≤ daysBeforeYear c1 := z0 ▸ daysBeforeYear_mono hc0
  have b2 : 0 ≤ daysBeforeYear c2 := z0 ▸ daysBeforeYear_mono kc0
  have t1 : daysBeforeYear (c1 + 1) ≤ 146097 := z400 ▸ daysBeforeYear_mono (by omega)
  have t2 : daysBeforeYear (c2 + 1) ≤ 146097 := z400 ▸ daysBeforeYear_mono (by omega)
  have hera : e1 ≤ e2 := by omega
  rcases lt_or_eq_of_le hera with he | he
  · split_ifs <;> omega
  · subst he
    have hc : c1 ≤ c2 := by
      by_contra hcon
      have := daysBeforeYear_mono (show c2 + 1 ≤ c1 by omega)
      omega
    rcases lt_or_eq_of_le hc with hcc | hcc
    · split_ifs <;> omega
    · subst hcc
      have hm : m1 ≤ m2 := by
        by_contra hcon
        have := daysBeforeMonth_mono (show m2 + 1 ≤ m1 by omega)
        omega
      rcases lt_or_eq_of_le hm with hmm | hmm
      · split_ifs <;> omega
      · subst hmm
        split_ifs <;> omega

theorem digitChar_lt {a b : Nat} (hb : b < 10) (h : a < b) : digitChar a < digitChar b := by
  interval_cases b <;> interval_cases a <;> decide

theorem cons_lt_cons {a b : Char} {l1 l2 : List Char} (h : a < b ∨ (a = b ∧ l1 < l2)) :
    a :: l1 < b :: l2 := by
  rcases h with h | ⟨rfl, h⟩
  · exact List.Lex.rel h
  · exact List.Lex.cons h

theorem append_lt_append_of_lt {l1 l2 : List Char} (r1 r2 : List Char)
    (hlen : l1.length = l2.length) (h : l1 < l2) : l1 ++ r1 < l2 ++ r2 := by
  induction l1 generalizing l2 with
  | nil =>
    cases l2 with
    | nil => exact absurd h (List.Lex.not_nil_right _ _)
    | cons b l2 => simp at hlen
  | cons a l1 ih =>
    cases l2 with
    | nil => simp at hlen
    | cons b l2 =>
      rcases h with _ | h | h
      · exact List.Lex.cons (ih (by simpa using hlen) h)
      · exact List.Lex.rel h

theorem field_lt {F1 F2 : List Char} (R1 R2 : List Char) (hlen : F1.length = F2.length)
    (h : F1 < F2 ∨ (F1 = F2 ∧ R1 < R2)) : F1 ++ R1 < F2 ++ R2 := by
  rcases h with h | ⟨rfl, h⟩
  · exact append_lt_append_of_lt R1 R2 hlen h
  · exact List.Lex.append_left _ h _

theorem pad2_lt {x y : Nat} (hy : y < 100) (h : x < y) : pad2 x < pad2 y := by
  unfold pad2
  have key : x / 10 % 10 < y / 10 % 10 ∨ (x / 10 % 10 = y / 10 % 10 ∧ x % 10 < y % 10) := by
    omega
  rcases key with h1 | ⟨h1, h2⟩
  · exact cons_lt_cons (Or.inl (digitChar_lt (by omega) h1))
  · rw [h1]
    exact cons_lt_cons (Or.inr ⟨rfl, cons_lt_cons (Or.inl (digitChar_lt (by omega) h2))⟩)

theorem pad3_lt {x y : Nat} (hy : y < 1000) (h : x < y) : pad3 x < pad3 y := by
  unfold pad3
  have key : x / 100 % 10 < y / 100 % 10 ∨ (x / 100 % 10 = y / 100 % 10 ∧
      (x / 10 % 10 < y / 10 % 10 ∨ (x / 10 % 10 = y / 10 % 10 ∧ x % 10 < y % 10))) := by
    omega
  rcases key with h1 | ⟨h1, h2 | ⟨h2, h3⟩⟩
  · exact cons_lt_cons (Or.inl (digitChar_lt (by omega) h1))
  · rw [h1]
    exact cons_lt_cons (Or.inr ⟨rfl, cons_lt_cons (Or.inl (digitChar_lt (by omega) h2))⟩)
  · rw [h1, h2]
    exact cons_lt_cons (Or.inr ⟨rfl, cons_lt_cons (Or.inr ⟨rfl,
      cons_lt_cons (Or.inl (digitChar_lt (by omega) h3))⟩)⟩)

theorem pad4_lt {x y : Nat} (hy : y < 10000) (h : x < y) : pad4 x < pad4 y := by
  unfold pad4
  by_cases c1 : x / 1000 < y / 1000
  · exact cons_lt_cons (Or.inl (digitChar_lt (by omega) (by omega)))
  · have e1 : x / 1000 % 10 = y / 1000 % 10 := by omega
    rw [e1]
    refine cons_lt_cons (Or.inr ⟨rfl, ?_⟩)
    by_cases c2 : x / 100 < y / 100
    · exact cons_lt_cons (Or.inl (digitChar_lt (by omega) (by omega)))
    · have e2 : x / 100 % 10 = y / 100 % 10 := by omega
      rw [e2]
      refine cons_lt_cons (Or.inr ⟨rfl, ?_⟩)
      by_cases c3 : x / 10 < y / 10
      · exact cons_lt_cons (Or.inl (digitChar_lt (by omega) (by omega)))
      · have e3 : x / 10 % 10 = y / 10 % 10 := by omega
        rw [e3]
        exact cons_lt_cons (Or.inr ⟨rfl,
          cons_lt_cons (Or.inl (digitChar_lt (by omega) (by omega)))⟩)

theorem sep_lt (c : Char) {A B : List Char} (h : A < B) : c :: A < c :: B :=
  List.Lex.cons h

theorem pad2_field_lt {x y : Int} (R1 R2 : List Char) (hx : 0 ≤ x) (hy : y < 100)
    (h : x < y ∨ (x = y ∧ R1 < R2)) : pad2 x.toNat ++ R1 < pad2 y.toNat ++ R2 := by
  apply field_lt R1 R2 (by simp [pad2])
  rcases h with h | ⟨rfl, h⟩
  · exact Or.inl (pad2_lt (by omega) (by omega))
  · exact Or.inr ⟨rfl, h⟩

theorem time_fields_lt {s t : Int} (h : TimeWithinDay s < TimeWithinDay t) :
    HourFromTime s < HourFromTime t ∨ (HourFromTime s = HourFromTime t ∧
      (MinFromTime s < MinFromTime t ∨ (MinFromTime s = MinFromTime t ∧
        (SecFromTime s < SecFromTime t ∨ (SecFromTime s = SecFromTime t ∧
          msFromTime s < msFromTime t))))) := by
  unfold HourFromTime MinFromTime SecFromTime msFromTime
  have b1 : 0 ≤ TimeWithinDay s := by unfold TimeWithinDay msPerDay; omega
  have b2 : TimeWithinDay t < 86400000 := by unfold TimeWithinDay msPerDay; omega
  generalize TimeWithinDay s = a at *
  generalize TimeWithinDay t = b at *
  by_cases c1 : a / 3600000 < b / 3600000
  · exact Or.inl c1
  · refine Or.inr ⟨by omega, ?_⟩
    by_cases c2 : a / 60000 < b / 60000
    · exact Or.inl (by omega)
    · refine Or.inr ⟨by omega, ?_⟩
      by_cases c3 : a / 1000 < b / 1000
      · exact Or.inl (by omega)
      · exact Or.inr ⟨by omega, by omega⟩

theorem date_fields_lt {s t : Int} (h : s < t) :
    YearFromTime s < YearFromTime t ∨ (YearFromTime s = YearFromTime t ∧
      (MonthFromTime s < MonthFromTime t ∨ (MonthFromTime s = MonthFromTime t ∧
        (DateFromTime s < DateFromTime t ∨ (DateFromTime s = DateFromTime t ∧
          TimeWithinDay s < TimeWithinDay t))))) := by
  have hd : Day s ≤ Day t := by unfold Day msPerDay; omega
  rcases lt_or_eq_of_le hd with hlt | heq
  · unfold YearFromTime MonthFromTime DateFromTime
    rcases civilFromDays_lt hlt with h1 | ⟨h1, h2 | ⟨h2, h3⟩⟩
    · exact Or.inl h1
    · exact Or.inr ⟨h1, Or.inl h2⟩
    · exact Or.inr ⟨h1, Or.inr ⟨h2, Or.inl h3⟩⟩
  · have htw : TimeWithinDay s < TimeWithinDay t := by
      unfold Day msPerDay at heq
      unfold TimeWithinDay msPerDay
      omega
    unfold YearFromTime MonthFromTime DateFromTime
    rw [heq]
    exact Or.inr ⟨rfl, Or.inr ⟨rfl, Or.inr ⟨rfl, htw⟩⟩⟩

theorem timestamp_length {t : Int} (ht : 0 ≤ YearFromTime t ∧ YearFromTime t ≤ 9999) :
    (timestamp t).length = 24 := by
  rw [timestamp_eq]
  simp [isoYear, ht, pad2, pad3, pad4]

theorem timestamp_lt {s t : Int} (hs : 0 ≤ YearFromTime s ∧ YearFromTime s ≤ 9999)
    (ht : 0 ≤ YearFromTime t ∧ YearFromTime t ≤ 9999) (h : s < t) :
    timestamp s < timestamp t := by
  rw [timestamp_eq, timestamp_eq]
  simp only [isoYear, hs, ht, and_self, if_true, List.append_assoc, List.cons_append]
  obtain ⟨-, hm0, hm1, hd0, hd1⟩ := civilFromDays_spec (Day s)
  obtain ⟨-, hm0', hm1', hd0', hd1'⟩ := civilFromDays_spec (Day t)
  obtain ⟨bh, bm, bs, bms⟩ := time_fields_bounds s
  obtain ⟨bh', bm', bs', bms'⟩ := time_fields_bounds t
  apply field_lt _ _ (by simp [pad4])
  rcases date_fields_lt h with hY | ⟨hY, hM | ⟨hM, hD | ⟨hD, hT⟩⟩⟩
  · exact Or.inl (pad4_lt (by omega) (by omega))
  · refine Or.inr ⟨by rw [hY], sep_lt _ ?_⟩
    exact pad2_field_lt _ _ (by unfold MonthFromTime; omega) (by unfold MonthFromTime; omega)
      (Or.inl hM)
  · refine Or.inr ⟨by rw [hY], sep_lt _ ?_⟩
    refine pad2_field_lt _ _ (by unfold MonthFromTime; omega) (by unfold MonthFromTime; omega)
      (Or.inr ⟨hM, sep_lt _ ?_⟩)
    exact pad2_field_lt _ _ (by unfold DateFromTime; omega) (by unfold DateFromTime; omega)
      (Or.inl hD)
  · refine Or.inr ⟨by rw [hY], sep_lt _ ?_⟩
    refine pad2_field_lt _ _ (by unfold MonthFromTime; omega) (by unfold MonthFromTime; omega)
      (Or.inr ⟨hM, sep_lt _ ?_⟩)
    refine pad2_field_lt _ _ (by unfold DateFromTime; omega) (by unfold DateFromTime; omega)
      (Or.inr ⟨hD, sep_lt _ ?_⟩)
    rcases time_fields_lt hT with hH | ⟨hH, hN | ⟨hN, hS | ⟨hS, hC⟩⟩⟩
    · exact pad2_field_lt _ _ bh.1 bh'.2 (Or.inl hH)
    · exact pad2_field_lt _ _ bh.1 bh'.2 (Or.inr ⟨hH, sep_lt _
        (pad2_field_lt _ _ bm.1 bm'.2 (Or.inl hN))⟩)
    · exact pad2_field_lt _ _ bh.1 bh'.2 (Or.inr ⟨hH, sep_lt _
        (pad2_field_lt _ _ bm.1 bm'.2 (Or.inr ⟨hN, sep_lt _
          (pad2_field_lt _ _ bs.1 bs'.2 (Or.inl hS))⟩))⟩)
    · exact pad2_field_lt _ _ bh.1 bh'.2 (Or.inr ⟨hH, sep_lt _
        (pad2_field_lt _ _ bm.1 bm'.2 (Or.inr ⟨hN, sep_lt _
          (pad2_field_lt _ _ bs.1 bs'.2 (Or.inr ⟨hS, sep_lt _
            (append_lt_append_of_lt _ _ (by simp [pad3])
              (pad3_lt (by omega) (by omega)))⟩))⟩))⟩)

theorem finalBackupName_lt (cfg : BackupConfig) {s t : Int}
    (hs : 0 ≤ YearFromTime s ∧ YearFromTime s ≤ 9999)
    (ht : 0 ≤ YearFromTime t ∧ YearFromTime t ≤ 9999) (h : s < t) :
    finalBackupName cfg s < finalBackupName cfg t := by
  have hb : backupName s < backupName t := List.Lex.append_left _ (timestamp_lt hs ht h) _
  unfold finalBackupName
  split_ifs
  · refine append_lt_append_of_lt _ _ ?_ hb
    simp [backupName, timestamp_length hs, timestamp_length ht]
  · exact hb

theorem digitChar_basic (n : Nat) : (digitChar n).toNat < 65536 := by
  unfold digitChar
  split <;> decide

theorem toUTF16_of_basic {s : List Char} (h : ∀ c ∈ s, c.toNat < 65536) :
    toUTF16 s = s.map Char.toNat := by
  induction s with
  | nil => rfl
  | cons c cs ih =>
    have hc : c.toNat < 65536 := h c (List.mem_cons_self _ _)
    simp only [toUTF16, utf16Units, hc, if_true, List.map_cons, List.singleton_append]
    rw [ih (fun x hx => h x (List.mem_cons_of_mem _ hx))]

theorem map_toNat_lt {a b : List Char} (h : a < b) : a.map Char.toNat < b.map Char.toNat := by
  induction h with
  | nil => exact List.Lex.nil
  | cons _ ih => exact List.Lex.cons ih
  | rel hr => exact List.Lex.rel hr

theorem finalBackupName_basic (cfg : BackupConfig) (t : Int) :
    ∀ c ∈ finalBackupName cfg t, c.toNat < 65536 := by
  have hp2 : ∀ n, ∀ c ∈ pad2 n, c.toNat < 65536 := by
    intro n c hc
    simp only [pad2, List.mem_cons, List.mem_singleton, List.not_mem_nil, or_false] at hc
    rcases hc with rfl | rfl <;> exact digitChar_basic _
  have hp3 : ∀ n, ∀ c ∈ pad3 n, c.toNat < 65536 := by
    intro n c hc
    simp only [pad3, List.mem_cons, List.mem_singleton, List.not_mem_nil, or_false] at hc
    rcases hc with rfl | rfl | rfl <;> exact digitChar_basic _
  have hp4 : ∀ n, ∀ c ∈ pad4 n, c.toNat < 65536 := by
    intro n c hc
    simp only [pad4, List.mem_cons, List.mem_singleton, List.not_mem_nil, or_false] at hc
    rcases hc with rfl | rfl | rfl | rfl <;> exact digitChar_basic _
  have hp6 : ∀ n, ∀ c ∈ pad6 n, c.toNat < 65536 := by
    intro n c hc
    simp only [pad6, List.mem_cons, List.mem_singleton, List.not_mem_nil, or_false] at hc
    rcases hc with rfl | rfl | rfl | rfl | rfl | rfl <;> exact digitChar_basic _
  have hy : ∀ y, ∀ c ∈ isoYear y, c.toNat < 65536 := by
    intro y c hc
    unfold isoYear at hc
    split_ifs at hc
    · exact hp4 _ c hc
    · rcases List.mem_cons.1 hc with rfl | hc
      · decide
      · exact hp6 _ c hc
    · rcases List.mem_cons.1 hc with rfl | hc
      · decide
      · exact hp6 _ c hc
  have hpre : ∀ c ∈ backupPrefix, c.toNat < 65536 := by decide
  have hzip : ∀ c ∈ zipSuffix, c.toNat < 65536 := by decide
  have hts : ∀ c ∈ timestamp t, c.toNat < 65536 := by
    intro c hc
    rw [timestamp_eq] at hc
    simp only [List.mem_append, List.mem_cons, List.mem_singleton, List.not_mem_nil,
      or_false, or_assoc] at hc
    rcases hc with h | rfl | h | rfl | h | rfl | h | rfl | h | rfl | h | rfl | h | rfl
    · exact hy _ c h
    · decide
    · exact hp2 _ c h
    · decide
    · exact hp2 _ c h
    · decide
    · exact hp2 _ c h
    · decide
    · exact hp2 _ c h
    · decide
    · exact hp2 _ c h
    · decide
    · exact hp3 _ c h
    · decide
  intro c hc
  unfold finalBackupName backupName at hc
  split_ifs at hc
  · rcases List.mem_append.1 hc with h | h
    · rcases List.mem_append.1 h with h | h
      · exact hpre c h
      · exact hts c h
    · exact hzip c h
  · rcases List.mem_append.1 hc with h | h
    · exact hpre c h
    · exact hts c h

theorem toUTF16_finalBackupName_lt (cfg : BackupConfig) {s t : Int}
    (hs : 0 ≤ YearFromTime s ∧ YearFromTime s ≤ 9999)
    (ht : 0 ≤ YearFromTime t ∧ YearFromTime t ≤ 9999) (h : s < t) :
    toUTF16 (finalBackupName cfg s) < toUTF16 (finalBackupName cfg t) := by
  rw [toUTF16_of_basic (finalBackupName_basic cfg s),
    toUTF16_of_basic (finalBackupName_basic cfg t)]
  exact map_toNat_lt (finalBackupName_lt cfg hs ht h)

theorem le_of_finalBackupName_le (cfg : BackupConfig) {s t : Int}
    (hs : 0 ≤ YearFromTime s ∧ YearFromTime s ≤ 9999)
    (ht : 0 ≤ YearFromTime t ∧ YearFromTime t ≤ 9999)
    (h : toUTF16 (finalBackupName cfg s) ≤ toUTF16 (finalBackupName cfg t)) : s ≤ t := by
  by_contra hcon
  exact absurd (toUTF16_finalBackupName_lt cfg ht hs (not_le.1 hcon)) (not_lt.2 h)

/-- C30. For start instants whose years are 0000..9999, the artifact name of
the earlier instant is smaller in string order than the name of the later
one under the same compression setting, by code points and by UTF-16 code
units alike; hence, in a directory whose candidates are all named by
`createBackup`, `getLastBackupInfo` describes the candidate with the latest start
instant. -/
theorem artifact_names_chronological (cfg : BackupConfig) :
    (∀ t1 t2 : Int, (0 ≤ YearFromTime t1 ∧ YearFromTime t1 ≤ 9999) →
      (0 ≤ YearFromTime t2 ∧ YearFromTime t2 ≤ 9999) → t1 < t2 →
      finalBackupName cfg t1 < finalBackupName cfg t2 ∧
        toUTF16 (finalBackupName cfg t1) < toUTF16 (finalBackupName cfg t2)) ∧
    (∀ (backupDir : List Char) (dir : List DirEntry), backupFiles dir ≠ [] →
      (∀ e ∈ backupFiles dir, ∃ t : Int, (0 ≤ YearFromTime t ∧ YearFromTime t ≤ 9999) ∧
        e.name = finalBackupName cfg t) →
      ∃ t : Int, (0 ≤ YearFromTime t ∧ YearFromTime t ≤ 9999) ∧
        ∃ e ∈ backupFiles dir, e.name = finalBackupName cfg t ∧
          getLastBackupInfo backupDir dir
            = some ⟨e.name, e.birthtime, pathJoin backupDir e.name⟩ ∧
          ∀ u : Int, (0 ≤ YearFromTime u ∧ YearFromTime u ≤ 9999) →
            (∃ x ∈ backupFiles dir, x.name = finalBackupName cfg u) → u ≤ t) := by
  refine ⟨fun t1 t2 h1 h2 h =>
    ⟨finalBackupName_lt cfg h1 h2 h, toUTF16_finalBackupName_lt cfg h1 h2 h⟩, ?_⟩
  intro backupDir dir hne hnamed
  obtain ⟨e, he, hinfo, hmax⟩ := (getLastBackupInfo_of_candidates backupDir dir).2 hne
  obtain ⟨t, ht, hname⟩ := hnamed e he
  refine ⟨t, ht, e, he, hname, hinfo, ?_⟩
  rintro u hu ⟨x, hx, hxn⟩
  have hle := hmax x hx
  rw [hxn, hname] at hle
  exact le_of_finalBackupName_le cfg hu ht hle

theorem artifact_names_chronological_witness :
    finalBackupName defaultConfig 1600000000000 < finalBackupName defaultConfig 1700000000000 ∧
    ∃ t : Int, (0 ≤ YearFromTime t ∧ YearFromTime t ≤ 9999) ∧
      ∃ e ∈ backupFiles recentArtifacts, e.name = finalBackupName defaultConfig t ∧
        getLastBackupInfo backupsDir recentArtifacts
          = some ⟨e.name, e.birthtime, pathJoin backupsDir e.name⟩ ∧
        ∀ u : Int, (0 ≤ YearFromTime u ∧ YearFromTime u ≤ 9999) →
          (∃ x ∈ backupFiles recentArtifacts, x.name = finalBackupName defaultConfig u) →
          u ≤ t := by
  refine ⟨((artifact_names_chronological defaultConfig).1 1600000000000 1700000000000
      (by decide) (by decide) (by decide)).1,
    (artifact_names_chronological defaultConfig).2 backupsDir recentArtifacts (by decide) ?_⟩
  have hb : backupFiles recentArtifacts
      = [⟨finalBackupName defaultConfig 1700000000000, 1700000000450⟩,
        ⟨finalBackupName defaultConfig 1600000000000, 1600000000450⟩] := by decide
  rw [hb]
  intro e he
  rcases List.mem_cons.1 he with rfl | he
  · exact ⟨1700000000000, by decide, rfl⟩
  · rw [List.mem_singleton.1 he]
    exact ⟨1600000000000, by decide, rfl⟩

end Backup
